import Mathlib

/-!
Shallow embedding of the steady-state circuit resolution engine of
`book/src/cv2tikz.py` (the toypc repository): tri-state node store, per-gate
evaluators, dependency-graph construction, depth-first topological sort and
the two propagation passes, together with proofs about them.

Python conventions carried over:
* a node state is `Option Nat` (`none` = Unknown, `some 0` = Low, `some 1` = High);
* list indexing out of range raises `IndexError`, dict lookup of a missing key
  raises `KeyError`, and the explicit `raise Exception(...)` calls of the
  source are mapped to dedicated error constructors;
* the bounded recursions (`find_successors`, `topological_sort`) are given a
  fuel argument; fuel exhaustion is a distinguished error that is proved
  unreachable for the fuel values used by the drivers.
-/

namespace CV

/-- Errors a run of the Python engine can raise. -/
inductive PyErr where
  | indexError
  | keyError
  | typeError
  | fuelExhausted
  | unsupportedGate (msg : String)
  | cyclicGraph
  deriving DecidableEq

deriving instance DecidableEq for Except

/-- Computations in the engine: either a value or a raised Python error. -/
abbrev Py (α : Type) := Except PyErr α

/-- A wire-graph node, mirroring the JSON node dicts: `type` is
`0` (input pin), `1` (output pin) or `2` (junction); `connections` lists the
indices of directly wired nodes; `state` is the tri-state value. -/
structure Node where
  type : Nat
  connections : List Nat
  state : Option Nat := none
  deriving DecidableEq

/-- `all_nodes[i]` (raises `IndexError` out of range). -/
def getNode (all : List Node) (i : Nat) : Py Node :=
  match all[i]? with
  | some nd => .ok nd
  | none => .error .indexError

/-- `all_nodes[i].get('state')`. -/
def readState (all : List Node) (i : Nat) : Py (Option Nat) := do
  let nd ← getNode all i
  pure nd.state

/-- `all_nodes[i]['state'] = v` (raises `IndexError` out of range). -/
def setNodeState (all : List Node) (i : Nat) (v : Option Nat) : Py (List Node) :=
  match all[i]? with
  | some nd => .ok (all.set i { nd with state := v })
  | none => .error .indexError

/-- A value of the per-element `customData.nodes` dict: a single node index or
a list of node indices. -/
inductive PortVal where
  | one (i : Nat)
  | many (l : List Nat)
  deriving DecidableEq

/-- The per-element `customData.nodes` dict, as an association list. -/
abbrev NodesMap := List (String × PortVal)

/-- `nodes[k]` expected to be a single index. -/
def getOne (m : NodesMap) (k : String) : Py Nat :=
  match List.lookup k m with
  | some (.one i) => .ok i
  | some (.many _) => .error .typeError
  | none => .error .keyError

/-- `nodes[k]` expected to be a list of indices. -/
def getMany (m : NodesMap) (k : String) : Py (List Nat) :=
  match List.lookup k m with
  | some (.many l) => .ok l
  | some (.one _) => .error .typeError
  | none => .error .keyError

/-- `l[i]` on a Python list of ints. -/
def listIdx (l : List Nat) (i : Nat) : Py Nat :=
  match l[i]? with
  | some v => .ok v
  | none => .error .indexError

/-- `update_and_gate`: reads both inputs before the arity check, exactly as
the source does. -/
def update_and_gate (nodes : NodesMap) (all : List Node) : Py (List Node) := do
  let inp ← getMany nodes "inp"
  let i0 ← readState all (← listIdx inp 0)
  let i1 ← readState all (← listIdx inp 1)
  if inp.length ≠ 2 then throw (.unsupportedGate "and")
  let out ← getOne nodes "output1"
  let _ ← getNode all out
  if i0 ≠ none ∨ i1 ≠ none then
    setNodeState all out (some (if i0 = some 1 ∧ i1 = some 1 then 1 else 0))
  else
    pure all

/-- `update_nand_gate`. -/
def update_nand_gate (nodes : NodesMap) (all : List Node) : Py (List Node) := do
  let inp ← getMany nodes "inp"
  let i0 ← readState all (← listIdx inp 0)
  let i1 ← readState all (← listIdx inp 1)
  if inp.length ≠ 2 then throw (.unsupportedGate "nand")
  let out ← getOne nodes "output1"
  let _ ← getNode all out
  if i0 ≠ none ∨ i1 ≠ none then
    setNodeState all out (some (if i0 = some 1 ∧ i1 = some 1 then 0 else 1))
  else
    pure all

/-- `update_nor_gate`. -/
def update_nor_gate (nodes : NodesMap) (all : List Node) : Py (List Node) := do
  let inp ← getMany nodes "inp"
  let i0 ← readState all (← listIdx inp 0)
  let i1 ← readState all (← listIdx inp 1)
  if inp.length ≠ 2 then throw (.unsupportedGate "nor")
  let out ← getOne nodes "output1"
  let _ ← getNode all out
  if i0 ≠ none ∨ i1 ≠ none then
    setNodeState all out (some (if i0 = some 1 ∨ i1 = some 1 then 0 else 1))
  else
    pure all

/-- `update_xor_gate`. -/
def update_xor_gate (nodes : NodesMap) (all : List Node) : Py (List Node) := do
  let inp ← getMany nodes "inp"
  let i0 ← readState all (← listIdx inp 0)
  let i1 ← readState all (← listIdx inp 1)
  if inp.length ≠ 2 then throw (.unsupportedGate "xor")
  let out ← getOne nodes "output1"
  let _ ← getNode all out
  if i0 ≠ none ∨ i1 ≠ none then
    setNodeState all out
      (some (if decide (i0 = some 1) ≠ decide (i1 = some 1) then 1 else 0))
  else
    pure all

/-- `update_or_gate`: the 3-input variant is supported, other arities other
than 2 raise. -/
def update_or_gate (nodes : NodesMap) (all : List Node) : Py (List Node) := do
  let inp ← getMany nodes "inp"
  let i0 ← readState all (← listIdx inp 0)
  let i1 ← readState all (← listIdx inp 1)
  if inp.length = 3 then
    let i2 ← readState all (← listIdx inp 2)
    let out ← getOne nodes "output1"
    let _ ← getNode all out
    if i0 ≠ none ∨ i1 ≠ none ∨ i2 ≠ none then
      setNodeState all out
        (some (if i0 = some 1 ∨ i1 = some 1 ∨ i2 = some 1 then 1 else 0))
    else
      pure all
  else do
    if inp.length ≠ 2 then throw (.unsupportedGate "or")
    let out ← getOne nodes "output1"
    let _ ← getNode all out
    if i0 ≠ none ∨ i1 ≠ none then
      setNodeState all out (some (if i0 = some 1 ∨ i1 = some 1 then 1 else 0))
    else
      pure all

/-- `update_not_gate`. -/
def update_not_gate (nodes : NodesMap) (all : List Node) : Py (List Node) := do
  let i ← readState all (← getOne nodes "inp1")
  let out ← getOne nodes "output1"
  let _ ← getNode all out
  if i ≠ none then
    setNodeState all out (some (if i = some 0 then 1 else 0))
  else
    pure all

/-- `update_multiplexer`. -/
def update_multiplexer (nodes : NodesMap) (all : List Node) : Py (List Node) := do
  let inp ← getMany nodes "inp"
  let i0 ← readState all (← listIdx inp 0)
  let i1 ← readState all (← listIdx inp 1)
  if inp.length ≠ 2 then throw (.unsupportedGate "multiplexer")
  let c ← readState all (← getOne nodes "controlSignalInput")
  let out ← getOne nodes "output1"
  let _ ← getNode all out
  if c ≠ none then
    if c = some 0 ∧ i0 ≠ none then
      setNodeState all out i0
    else if i1 ≠ none then
      setNodeState all out i1
    else
      pure all
  else
    pure all

/-- `update_demultiplexer`. -/
def update_demultiplexer (nodes : NodesMap) (all : List Node) : Py (List Node) := do
  let i ← readState all (← getOne nodes "input")
  let c ← readState all (← getOne nodes "controlSignalInput")
  let outl ← getMany nodes "output1"
  let o0 ← listIdx outl 0
  let _ ← getNode all o0
  let o1 ← listIdx outl 1
  let _ ← getNode all o1
  if i ≠ none ∧ c ≠ none then
    if c = some 0 then do
      let all2 ← setNodeState all o0 i
      setNodeState all2 o1 (some 0)
    else do
      let all2 ← setNodeState all o0 (some 0)
      setNodeState all2 o1 i
  else
    pure all

/-- `update_sr_flip_flop`: only the `S` input is read, and the output is
written unconditionally. -/
def update_sr_flip_flop (nodes : NodesMap) (all : List Node) : Py (List Node) := do
  let i ← readState all (← getOne nodes "S")
  let out ← getOne nodes "qOutput"
  let _ ← getNode all out
  setNodeState all out (some (if i = some 1 then 1 else 0))

/-- `update_tristate`. -/
def update_tristate (nodes : NodesMap) (all : List Node) : Py (List Node) := do
  let i ← readState all (← getOne nodes "inp1")
  let c ← readState all (← getOne nodes "state")
  let out ← getOne nodes "output1"
  let _ ← getNode all out
  if i ≠ none ∧ c ≠ none then
    setNodeState all out (if c = some 1 then i else none)
  else
    pure all

/-- A circuit element. Gate-like elements carry `objectType = some t` and a
`customData.nodes` port map; sub-circuit instances carry `objectType = none`
together with `id`, `inputNodes` and `outputNodes`. `valueState` is
`customData.values.state` of Button/Input elements; `labelDirection` is the
placement-direction flag reused as seeding metadata. -/
structure Element where
  objectType : Option String := none
  nodes : NodesMap := []
  valueState : Option Nat := none
  labelDirection : String := ""
  idStr : String := ""
  inputNodes : List Nat := []
  outputNodes : List Nat := []
  deriving DecidableEq

/-- The global `scope_name_by_id` dict: sub-circuit id to scope name. -/
abbrev ScopeNames := List (String × String)

/-- `scope_name_by_id[i]`. -/
def scopeName (sn : ScopeNames) (i : String) : Py String :=
  match List.lookup i sn with
  | some n => .ok n
  | none => .error .keyError

/-- `chPref p l` holds when `p` is a leading segment of `l`. -/
def chPref : List Char → List Char → Bool
  | [], _ => true
  | _ :: _, [] => false
  | a :: as, b :: bs => a = b && chPref as bs

/-- `chSub p l` holds when `p` occurs contiguously inside `l`. -/
def chSub (pat l : List Char) : Bool :=
  match l with
  | [] => chPref pat []
  | _ :: rest => chPref pat l || chSub pat rest

/-- Python `pat in s` on strings. -/
def strIn (pat s : String) : Bool := chSub pat.data s.data

/-- `update_subcircuit` (the relay forward rule; non-relay sub-circuits never
reach it with an Unknown output because their outputs are seeded). -/
def update_subcircuit (sn : ScopeNames) (e : Element) (all : List Node) :
    Py (List Node) := do
  let i ← readState all (← listIdx e.inputNodes 0)
  let c ← readState all (← listIdx e.inputNodes 1)
  let out ← listIdx e.outputNodes 0
  let _ ← getNode all out
  let name ← scopeName sn e.idStr
  if strIn "NormallyClosed" name then
    if i ≠ none ∧ c ≠ some 1 then
      setNodeState all out i
    else
      pure all
  else
    if i ≠ none ∧ c = some 1 then
      setNodeState all out i
    else
      pure all

/-- `maybe_update_subcircuit_input` (the relay backward rule): note that the
write to the input node is not guarded by that node being Unknown. -/
def maybe_update_subcircuit_input (sn : ScopeNames) (e : Element)
    (all : List Node) : Py (List Node) := do
  let inp ← listIdx e.inputNodes 0
  let _ ← getNode all inp
  let c ← readState all (← listIdx e.inputNodes 1)
  let o ← readState all (← listIdx e.outputNodes 0)
  let name ← scopeName sn e.idStr
  if strIn "NormallyClosed" name then
    if o ≠ none ∧ c ≠ some 1 then
      setNodeState all inp o
    else
      pure all
  else
    if o ≠ none ∧ c = some 1 then
      setNodeState all inp o
    else
      pure all

/-- `update_element`: dispatch on `objectType`; unknown types are a no-op. -/
def update_element (sn : ScopeNames) (e : Element) (all : List Node) :
    Py (List Node) :=
  match e.objectType with
  | none => update_subcircuit sn e all
  | some t =>
    if t = "AndGate" then update_and_gate e.nodes all
    else if t = "Demultiplexer" then update_demultiplexer e.nodes all
    else if t = "Multiplexer" then update_multiplexer e.nodes all
    else if t = "NandGate" then update_nand_gate e.nodes all
    else if t = "NorGate" then update_nor_gate e.nodes all
    else if t = "NotGate" then update_not_gate e.nodes all
    else if t = "OrGate" then update_or_gate e.nodes all
    else if t = "SRflipFlop" then update_sr_flip_flop e.nodes all
    else if t = "TriState" then update_tristate e.nodes all
    else if t = "XorGate" then update_xor_gate e.nodes all
    else pure all

/-- `element_nodes`: all node indices in the port map, in dict order. -/
def element_nodes (e : Element) : List Nat :=
  e.nodes.foldl
    (fun acc p =>
      match p.2 with
      | .many l => acc ++ l
      | .one i => acc ++ [i])
    []

/-- `element_by_node_index[i] = e`. -/
def setElem (ebni : List (Option Element)) (i : Nat) (e : Element) :
    Py (List (Option Element)) :=
  if i < ebni.length then .ok (ebni.set i (some e)) else .error .indexError

/-- `initialize_node_states`: record back-references and apply the seeding
rules for one element. -/
def init_node_states (sn : ScopeNames) (e : Element)
    (all : List Node) (ebni : List (Option Element)) :
    Py (List Node × List (Option Element)) := do
  match e.objectType with
  | none => do
    let name ← scopeName sn e.idStr
    let ebni ← e.inputNodes.foldlM (fun eb i => setElem eb i e) ebni
    e.outputNodes.foldlM
      (fun (p : List Node × List (Option Element)) o => do
        let eb2 ← setElem p.2 o e
        if strIn "Normally" name then
          pure (p.1, eb2)
        else do
          let ns ← setNodeState p.1 o (some 0)
          pure (ns, eb2))
      (all, ebni)
  | some t => do
    let ebni ← (element_nodes e).foldlM (fun eb i => setElem eb i e) ebni
    if t = "Clock" ∨ t = "Ground" then do
      let o ← getOne e.nodes "output1"
      let all ← setNodeState all o (some 0)
      pure (all, ebni)
    else if t = "Button" ∨ t = "Input" then do
      match e.valueState with
      | none => throw .keyError
      | some v => do
        let o ← getOne e.nodes "output1"
        let all ← setNodeState all o (some v)
        pure (all, ebni)
    else if t = "Power" then do
      let o ← getOne e.nodes "output1"
      let all ← setNodeState all o (some 1)
      pure (all, ebni)
    else if t = "DflipFlop" then do
      let o ← getOne e.nodes "qOutput"
      let all ← setNodeState all o (some (if e.labelDirection = "UP" then 1 else 0))
      pure (all, ebni)
    else if t = "NorGate" ∨ t = "NotGate" then
      if e.labelDirection = "UP" then do
        let o ← getOne e.nodes "output1"
        let all ← setNodeState all o (some 1)
        pure (all, ebni)
      else if e.labelDirection = "DOWN" then do
        let o ← getOne e.nodes "output1"
        let all ← setNodeState all o (some 0)
        pure (all, ebni)
      else
        pure (all, ebni)
    else
      pure (all, ebni)

/-- The initialization loop of `main`, over all elements. -/
def init_all (sn : ScopeNames) (els : List Element) (all : List Node) :
    Py (List Node × List (Option Element)) :=
  els.foldlM (fun p e => init_node_states sn e p.1 p.2)
    (all, List.replicate all.length none)

/-- `visited[i]`. -/
def getBool (l : List Bool) (i : Nat) : Py Bool :=
  match l[i]? with
  | some b => .ok b
  | none => .error .indexError

/-- `visited[i] = b`. -/
def setBool (l : List Bool) (i : Nat) (b : Bool) : Py (List Bool) :=
  if i < l.length then .ok (l.set i b) else .error .indexError

/-- `successors.add i` (Python set semantics on an insertion-ordered list). -/
def succAdd (succ : List Nat) (i : Nat) : List Nat :=
  if i ∈ succ then succ else succ ++ [i]

/-- `find_successors`: depth-first walk along `connections`, collecting every
reachable node that is not an output pin. The fuel bounds the recursion
depth; every nested visit runs with one unit less than its caller. -/
def fsVisit (fuel : Nat) (nodes : List Node) (index : Nat)
    (succ : List Nat) (visited : List Bool) : Py (List Nat × List Bool) :=
  match fuel with
  | 0 => .error .fuelExhausted
  | f + 1 => do
    let visited2 ← setBool visited index true
    let nd ← getNode nodes index
    nd.connections.foldlM
      (fun (p : List Nat × List Bool) s => do
        let vb ← getBool p.2 s
        if vb then
          pure p
        else do
          let snd ← getNode nodes s
          let succ2 := if snd.type ≠ 1 then succAdd p.1 s else p.1
          fsVisit f nodes s succ2 p.2)
      (succ, visited2)

/-- The successor set of an output-pin node, with the driver fuel. -/
def find_successors (nodes : List Node) (index : Nat) : Py (List Nat) := do
  let p ← fsVisit (nodes.length + 1) nodes index []
    (List.replicate nodes.length false)
  pure p.1

/-- `node_status[i]`. -/
def getStat (l : List Nat) (i : Nat) : Py Nat :=
  match l[i]? with
  | some v => .ok v
  | none => .error .indexError

/-- `node_status[i] = v`. -/
def setStat (l : List Nat) (i : Nat) (v : Nat) : Py (List Nat) :=
  if i < l.length then .ok (l.set i v) else .error .indexError

/-- `successors_by_node_index[i]`. -/
def getSucc (si : List (List Nat)) (i : Nat) : Py (List Nat) :=
  match si[i]? with
  | some l => .ok l
  | none => .error .indexError

/-- `topological_sort`: depth-first post-order append, raising
`cyclicGraph` when a node is revisited while on the active recursion path
(status 1). The fuel bounds the recursion depth; every nested visit runs
with one unit less than its caller. -/
def tsVisit (fuel : Nat) (si : List (List Nat)) (index : Nat)
    (sorted : List Nat) (status : List Nat) : Py (List Nat × List Nat) :=
  match fuel with
  | 0 => .error .fuelExhausted
  | f + 1 => do
    let st ← getStat status index
    if st = 2 then
      pure (sorted, status)
    else if st = 1 then
      throw .cyclicGraph
    else do
      let status2 ← setStat status index 1
      let succs ← getSucc si index
      let p ← succs.foldlM
        (fun (q : List Nat × List Nat) s => tsVisit f si s q.1 q.2)
        (sorted, status2)
      let status3 ← setStat p.2 index 2
      pure (p.1 ++ [index], status3)

/-- The topological-sort driver loop of `compute_node_states`. -/
def sortAll (si : List (List Nat)) (n : Nat) : Py (List Nat × List Nat) :=
  (List.range n).foldlM
    (fun (p : List Nat × List Nat) i => do
      let st ← getStat p.2 i
      if st = 0 then tsVisit (n + 1) si i p.1 p.2 else pure p)
    ([], List.replicate n 0)

/-- The successor set of one node, as computed by the first loop of
`compute_node_states`. -/
def successors_for (sn : ScopeNames) (nodes : List Node)
    (ebni : List (Option Element)) (index : Nat) : Py (List Nat) := do
  let nd ← getNode nodes index
  if nd.type = 0 then
    match ebni[index]? with
    | none => .error .indexError
    | some none => pure []
    | some (some e) =>
      match e.objectType with
      | none => do
        let name ← scopeName sn e.idStr
        pure (e.outputNodes.foldl
          (fun acc o => if strIn "Normally" name then succAdd acc o else acc) [])
      | some _ =>
        (element_nodes e).foldlM
          (fun acc nn => do
            let nnd ← getNode nodes nn
            if nnd.type = 1 ∧ nnd.state = none then pure (succAdd acc nn)
            else pure acc)
          []
  else if nd.type = 1 then
    find_successors nodes index
  else
    pure []

/-- The first loop of `compute_node_states`: one successor list per node. -/
def buildSuccessors (sn : ScopeNames) (nodes : List Node)
    (ebni : List (Option Element)) : Py (List (List Nat)) :=
  (List.range nodes.length).mapM (successors_for sn nodes ebni)

/-- One iteration of the first (reverse) propagation pass. -/
def phase1_step (sn : ScopeNames) (ebni : List (Option Element))
    (si : List (List Nat)) (all : List Node) (index : Nat) : Py (List Node) := do
  let nd ← getNode all index
  if nd.type ≠ 1 then
    pure all
  else do
    let all2 ←
      match ebni[index]? with
      | none => .error .indexError
      | some none => pure all
      | some (some e) =>
        if nd.state = none then update_element sn e all else pure all
    let nd2 ← getNode all2 index
    match nd2.state with
    | none => pure all2
    | some v => do
      let succs ← getSucc si index
      succs.foldlM (fun a s => setNodeState a s (some v)) all2

/-- The first (reverse) propagation pass, over an already reversed order. -/
def phase1 (sn : ScopeNames) (ebni : List (Option Element))
    (si : List (List Nat)) (order : List Nat) (all : List Node) :
    Py (List Node) :=
  order.foldlM (phase1_step sn ebni si) all

/-- The neighbor-adoption loop of the second pass: adopt the first defined
neighbor state, then stop. -/
def adoptFrom (all : List Node) (index : Nat) : List Nat → Py (List Node)
  | [] => pure all
  | c :: rest => do
    let st ← readState all c
    match st with
    | some v => setNodeState all index (some v)
    | none => adoptFrom all index rest

/-- One iteration of the second (forward) propagation pass. -/
def phase2_step (sn : ScopeNames) (ebni : List (Option Element))
    (all : List Node) (index : Nat) : Py (List Node) := do
  let nd ← getNode all index
  if nd.state ≠ none then
    pure all
  else do
    let all2 ← adoptFrom all index nd.connections
    if nd.type = 1 then
      match ebni[index]? with
      | none => .error .indexError
      | some none => pure all2
      | some (some e) =>
        match e.objectType with
        | none => maybe_update_subcircuit_input sn e all2
        | some _ => pure all2
    else
      pure all2

/-- The second (forward) propagation pass. -/
def phase2 (sn : ScopeNames) (ebni : List (Option Element))
    (order : List Nat) (all : List Node) : Py (List Node) :=
  order.foldlM (phase2_step sn ebni) all

/-- `compute_node_states`: successor sets, topological sort, then the two
propagation passes. -/
def compute_node_states (sn : ScopeNames) (all : List Node)
    (ebni : List (Option Element)) : Py (List Node) := do
  let si ← buildSuccessors sn all ebni
  let p ← sortAll si all.length
  let all2 ← phase1 sn ebni si p.1.reverse all
  phase2 sn ebni p.1 all2

/-- The resolution core of `main`: initialization followed by
`compute_node_states`. -/
def resolve (sn : ScopeNames) (els : List Element) (nodes0 : List Node) :
    Py (List Node) := do
  let p ← init_all sn els nodes0
  compute_node_states sn p.1 p.2

/-! ### Generic facts about the embedded error monad and the accessors -/

@[simp] theorem ok_bind {α β : Type} (a : α) (f : α → Py β) :
    (Except.ok a >>= f : Py β) = f a := rfl

@[simp] theorem error_bind {α β : Type} (e : PyErr) (f : α → Py β) :
    ((Except.error e : Py α) >>= f) = .error e := rfl

@[simp] theorem pure_eq_ok {α : Type} (a : α) : (pure a : Py α) = .ok a := rfl

@[simp] theorem throw_eq_error {α : Type} (e : PyErr) :
    (throw e : Py α) = .error e := rfl

theorem getNode_of_none {all : List Node} {i : Nat} (h : all[i]? = none) :
    getNode all i = .error .indexError := by simp [getNode, h]

theorem getNode_of_some {all : List Node} {i : Nat} {nd : Node}
    (h : all[i]? = some nd) : getNode all i = .ok nd := by simp [getNode, h]

theorem readState_of_none {all : List Node} {i : Nat} (h : all[i]? = none) :
    readState all i = .error .indexError := by
  simp [readState, getNode_of_none h]

theorem readState_of_some {all : List Node} {i : Nat} {nd : Node}
    (h : all[i]? = some nd) : readState all i = .ok nd.state := by
  simp [readState, getNode_of_some h]

theorem setNodeState_of_none {all : List Node} {i : Nat} (h : all[i]? = none)
    (v : Option Nat) : setNodeState all i v = .error .indexError := by
  simp [setNodeState, h]

theorem setNodeState_of_some {all : List Node} {i : Nat} {nd : Node}
    (h : all[i]? = some nd) (v : Option Nat) :
    setNodeState all i v = .ok (all.set i { nd with state := v }) := by
  simp [setNodeState, h]

theorem getOne_error {m : NodesMap} {k : String} {e : PyErr}
    (h : getOne m k = .error e) : e = .keyError ∨ e = .typeError := by
  unfold getOne at h
  split at h <;> simp_all

theorem getNode_error {all : List Node} {i : Nat} {e : PyErr}
    (h : getNode all i = .error e) : e = .indexError := by
  unfold getNode at h
  split at h <;> simp_all

theorem setNodeState_error {all : List Node} {i : Nat} {v : Option Nat}
    {e : PyErr} (h : setNodeState all i v = .error e) : e = .indexError := by
  unfold setNodeState at h
  split at h <;> simp_all

/-- The state of node `i` in a store (Unknown for an out-of-range index). -/
def stA (all : List Node) (i : Nat) : Option Nat :=
  match all[i]? with
  | some nd => nd.state
  | none => none

/-- A tri-state value: Unknown, Low or High. -/
def tri (v : Option Nat) : Prop := v = none ∨ v = some 0 ∨ v = some 1

/-! ### Canonical single-gate stores used to state the truth-table claims -/

/-- Two input pins and one output pin. -/
def gateStore2 (i0 i1 : Option Nat) : List Node :=
  [⟨0, [], i0⟩, ⟨0, [], i1⟩, ⟨1, [], none⟩]

/-- Port map of a two-input gate. -/
def gateMap2 : NodesMap := [("inp", .many [0, 1]), ("output1", .one 2)]

/-- Three input pins and one output pin. -/
def gateStore3 (i0 i1 i2 : Option Nat) : List Node :=
  [⟨0, [], i0⟩, ⟨0, [], i1⟩, ⟨0, [], i2⟩, ⟨1, [], none⟩]

/-- Port map of a three-input gate. -/
def gateMap3 : NodesMap := [("inp", .many [0, 1, 2]), ("output1", .one 3)]

/-- One input pin and one output pin. -/
def notStore (i : Option Nat) : List Node := [⟨0, [], i⟩, ⟨1, [], none⟩]

/-- Port map of a NOT gate. -/
def notMap : NodesMap := [("inp1", .one 0), ("output1", .one 1)]

/-- Multiplexer store: two data inputs, one control input, one output. -/
def muxStore (i0 i1 c : Option Nat) : List Node :=
  [⟨0, [], i0⟩, ⟨0, [], i1⟩, ⟨0, [], c⟩, ⟨1, [], none⟩]

/-- Port map of a two-input multiplexer. -/
def muxMap : NodesMap :=
  [("inp", .many [0, 1]), ("controlSignalInput", .one 2), ("output1", .one 3)]

/-- Demultiplexer store: one data input, one control input, two outputs. -/
def demuxStore (i c : Option Nat) : List Node :=
  [⟨0, [], i⟩, ⟨0, [], c⟩, ⟨1, [], none⟩, ⟨1, [], none⟩]

/-- Port map of a demultiplexer. -/
def demuxMap : NodesMap :=
  [("input", .one 0), ("controlSignalInput", .one 1), ("output1", .many [2, 3])]

/-- SR-latch store: S, R and the Q output. -/
def srStore (s r : Option Nat) : List Node :=
  [⟨0, [], s⟩, ⟨0, [], r⟩, ⟨1, [], none⟩]

/-- Port map of an SR-latch. -/
def srMap : NodesMap := [("S", .one 0), ("R", .one 1), ("qOutput", .one 2)]

/-! ### Truth tables as the spec states them -/

/-- Spec §4.4, AND: defined iff any input defined; High iff both High. -/
def specAnd2 (i0 i1 : Option Nat) : Option Nat :=
  if i0 = none ∧ i1 = none then none
  else some (if i0 = some 1 ∧ i1 = some 1 then 1 else 0)

/-- Spec §4.4, NAND: complement of AND. -/
def specNand2 (i0 i1 : Option Nat) : Option Nat :=
  if i0 = none ∧ i1 = none then none
  else some (if i0 = some 1 ∧ i1 = some 1 then 0 else 1)

/-- Spec §4.4, OR (2-in): defined iff any input defined; High iff any High. -/
def specOr2 (i0 i1 : Option Nat) : Option Nat :=
  if i0 = none ∧ i1 = none then none
  else some (if i0 = some 1 ∨ i1 = some 1 then 1 else 0)

/-- Spec §4.4, OR (3-in). -/
def specOr3 (i0 i1 i2 : Option Nat) : Option Nat :=
  if i0 = none ∧ i1 = none ∧ i2 = none then none
  else some (if i0 = some 1 ∨ i1 = some 1 ∨ i2 = some 1 then 1 else 0)

/-- Spec §4.4, NOR: complement of OR. -/
def specNor2 (i0 i1 : Option Nat) : Option Nat :=
  if i0 = none ∧ i1 = none then none
  else some (if i0 = some 1 ∨ i1 = some 1 then 0 else 1)

/-- Spec §4.4, XOR: defined iff any input defined; High iff exactly one High. -/
def specXor2 (i0 i1 : Option Nat) : Option Nat :=
  if i0 = none ∧ i1 = none then none
  else some (if decide (i0 = some 1) ≠ decide (i1 = some 1) then 1 else 0)

/-- Spec §4.4, NOT: defined iff the input is defined; complement. -/
def specNot (i : Option Nat) : Option Nat :=
  if i = none then none else some (if i = some 1 then 0 else 1)

/-- Multiplexer rule as amended from the code: with a Low control the output
follows input 0 only when input 0 is defined, otherwise it falls through to a
defined input 1; Unknown control leaves the output Unknown. -/
def specMux (i0 i1 c : Option Nat) : Option Nat :=
  if c = none then none
  else if c = some 0 ∧ i0 ≠ none then i0
  else if i1 ≠ none then i1
  else none

/-- Demultiplexer output 0 as amended from the code: nothing is routed or
forced unless both the data input and the control are defined. -/
def specDemux0 (i c : Option Nat) : Option Nat :=
  if i = none ∨ c = none then none else if c = some 0 then i else some 0

/-- Demultiplexer output 1 as amended from the code. -/
def specDemux1 (i c : Option Nat) : Option Nat :=
  if i = none ∨ c = none then none else if c = some 0 then some 0 else i

/-- C1: evaluated on tri-state inputs, every basic gate assigns a defined
output iff at least one input is defined, and the assigned value follows the
spec truth table with Unknown treated as Low: AND is High iff both inputs are
High, NAND is its complement, OR (2-in and 3-in) is High iff some input is
High, NOR is its complement, XOR is High iff exactly one input is High, and
NOT is defined iff its input is and is the complement. -/
theorem C1_gate_truth_tables (i0 i1 i2 : Option Nat)
    (h0 : tri i0) (h1 : tri i1) (h2 : tri i2) :
    update_and_gate gateMap2 (gateStore2 i0 i1)
      = .ok [⟨0, [], i0⟩, ⟨0, [], i1⟩, ⟨1, [], specAnd2 i0 i1⟩]
    ∧ update_nand_gate gateMap2 (gateStore2 i0 i1)
      = .ok [⟨0, [], i0⟩, ⟨0, [], i1⟩, ⟨1, [], specNand2 i0 i1⟩]
    ∧ update_or_gate gateMap2 (gateStore2 i0 i1)
      = .ok [⟨0, [], i0⟩, ⟨0, [], i1⟩, ⟨1, [], specOr2 i0 i1⟩]
    ∧ update_or_gate gateMap3 (gateStore3 i0 i1 i2)
      = .ok [⟨0, [], i0⟩, ⟨0, [], i1⟩, ⟨0, [], i2⟩, ⟨1, [], specOr3 i0 i1 i2⟩]
    ∧ update_nor_gate gateMap2 (gateStore2 i0 i1)
      = .ok [⟨0, [], i0⟩, ⟨0, [], i1⟩, ⟨1, [], specNor2 i0 i1⟩]
    ∧ update_xor_gate gateMap2 (gateStore2 i0 i1)
      = .ok [⟨0, [], i0⟩, ⟨0, [], i1⟩, ⟨1, [], specXor2 i0 i1⟩]
    ∧ update_not_gate notMap (notStore i0)
      = .ok [⟨0, [], i0⟩, ⟨1, [], specNot i0⟩] := by
  rcases h0 with rfl | rfl | rfl <;> rcases h1 with rfl | rfl | rfl <;>
    rcases h2 with rfl | rfl | rfl <;> decide

/-- C1 witness: a two-input AND gate with one input High and the other
Unknown resolves its output to Low. -/
theorem C1_gate_truth_tables_witness :
    tri (some 1) ∧ tri none ∧
    update_and_gate gateMap2 (gateStore2 (some 1) none)
      = .ok [⟨0, [], some 1⟩, ⟨0, [], none⟩, ⟨1, [], specAnd2 (some 1) none⟩] ∧
    specAnd2 (some 1) none = some 0 :=
  ⟨Or.inr (Or.inr rfl), Or.inl rfl,
    (C1_gate_truth_tables (some 1) none none (Or.inr (Or.inr rfl))
      (Or.inl rfl) (Or.inl rfl)).1, by decide⟩

/-- C2 counterexample: with the control Low but input 0 Unknown and input 1
High, the multiplexer sets the output to input 1's value (High), not to
input 0's (Unknown) as the claim states. -/
theorem C2_counterexample :
    update_multiplexer muxMap (muxStore none (some 1) (some 0))
      = .ok [⟨0, [], none⟩, ⟨0, [], some 1⟩, ⟨0, [], some 0⟩, ⟨1, [], some 1⟩]
    ∧ (some 1 : Option Nat) ≠ none := by decide

/-- C2 amended: with a defined control, a Low control selects input 0 only
when input 0 is defined and otherwise falls through to input 1 (written when
defined); a non-Low control selects input 1 (written when defined); an
Unknown control leaves the output Unknown. -/
theorem C2_multiplexer_amended (i0 i1 c : Option Nat)
    (h0 : tri i0) (h1 : tri i1) (hc : tri c) :
    update_multiplexer muxMap (muxStore i0 i1 c)
      = .ok [⟨0, [], i0⟩, ⟨0, [], i1⟩, ⟨0, [], c⟩, ⟨1, [], specMux i0 i1 c⟩] := by
  rcases h0 with rfl | rfl | rfl <;> rcases h1 with rfl | rfl | rfl <;>
    rcases hc with rfl | rfl | rfl <;> decide

/-- C2 witness: control High selects input 1. -/
theorem C2_multiplexer_amended_witness :
    tri (some 0) ∧ tri (some 1) ∧ tri (some 1) ∧
    update_multiplexer muxMap (muxStore (some 0) (some 1) (some 1))
      = .ok [⟨0, [], some 0⟩, ⟨0, [], some 1⟩, ⟨0, [], some 1⟩,
          ⟨1, [], specMux (some 0) (some 1) (some 1)⟩] ∧
    specMux (some 0) (some 1) (some 1) = some 1 :=
  ⟨Or.inr (Or.inl rfl), Or.inr (Or.inr rfl), Or.inr (Or.inr rfl),
    C2_multiplexer_amended (some 0) (some 1) (some 1) (Or.inr (Or.inl rfl))
      (Or.inr (Or.inr rfl)) (Or.inr (Or.inr rfl)), by decide⟩

/-- C3 counterexample: with the control Low but the data input Unknown, the
demultiplexer leaves output 1 Unknown instead of forcing it Low as the claim
states. -/
theorem C3_counterexample :
    update_demultiplexer demuxMap (demuxStore none (some 0))
      = .ok [⟨0, [], none⟩, ⟨0, [], some 0⟩, ⟨1, [], none⟩, ⟨1, [], none⟩]
    ∧ (none : Option Nat) ≠ some 0 := by decide

/-- C3 amended: the demultiplexer routes and forces its outputs only when
both the data input and the control are defined; if either is Unknown, both
outputs remain Unknown. -/
theorem C3_demultiplexer_amended (i c : Option Nat) (hi : tri i) (hc : tri c) :
    update_demultiplexer demuxMap (demuxStore i c)
      = .ok [⟨0, [], i⟩, ⟨0, [], c⟩, ⟨1, [], specDemux0 i c⟩,
          ⟨1, [], specDemux1 i c⟩] := by
  rcases hi with hi | hi | hi <;> rcases hc with hc | hc | hc <;>
    subst hi <;> subst hc <;> decide

/-- C3 witness: control High routes the data input to output 1 and forces
output 0 Low. -/
theorem C3_demultiplexer_amended_witness :
    tri (some 1) ∧ tri (some 1) ∧
    update_demultiplexer demuxMap (demuxStore (some 1) (some 1))
      = .ok [⟨0, [], some 1⟩, ⟨0, [], some 1⟩, ⟨1, [], specDemux0 (some 1) (some 1)⟩,
          ⟨1, [], specDemux1 (some 1) (some 1)⟩] ∧
    specDemux0 (some 1) (some 1) = some 0 ∧ specDemux1 (some 1) (some 1) = some 1 :=
  ⟨Or.inr (Or.inr rfl), Or.inr (Or.inr rfl),
    C3_demultiplexer_amended (some 1) (some 1) (Or.inr (Or.inr rfl))
      (Or.inr (Or.inr rfl)), by decide, by decide⟩

/-! ### Concrete netlists used by the whole-pipeline claims -/

/-- C9 circuit nodes: the NOT gate input pin (0) wired to its output pin (1). -/
def c9_nodes : List Node := [⟨0, [1], none⟩, ⟨1, [0], none⟩]

/-- C9 circuit: a NOT gate flagged as a loop-breaker via placement `UP`. -/
def c9_not : Element := { objectType := some "NotGate", labelDirection := "UP",
                          nodes := [("inp1", .one 0), ("output1", .one 1)] }

/-- C6 circuit nodes: three gate inputs, the gate output, a Power output. -/
def c6_nodes : List Node :=
  [⟨0, [], none⟩, ⟨0, [], none⟩, ⟨0, [], none⟩, ⟨1, [], none⟩, ⟨1, [], none⟩]

/-- C6 circuit: an AND gate with three inputs (unsupported arity). -/
def c6_and : Element := { objectType := some "AndGate",
                          nodes := [("inp", .many [0, 1, 2]), ("output1", .one 3)] }

/-- C6 circuit: a Power element whose output is seeded High. -/
def c6_pw : Element := { objectType := some "Power", nodes := [("output1", .one 4)] }

/-- C4: the SR-latch output is set unconditionally, High iff S is High and
Low otherwise (including an Unknown S); the R input is never consulted — the
result does not depend on `r` at all, so in particular S High and R High
yield High. -/
theorem C4_sr_latch (s r : Option Nat) :
    update_sr_flip_flop srMap (srStore s r)
      = .ok [⟨0, [], s⟩, ⟨0, [], r⟩, ⟨1, [], some (if s = some 1 then 1 else 0)⟩]
    ∧ ((if s = some 1 then 1 else 0) = 1 ↔ s = some 1) := by
  constructor
  · rfl
  · by_cases hs : s = some 1 <;> simp [hs]

/-- C9: the NOT-gate loop-breaker circuit resolves without a cycle error, the
output node keeps its seeded High value through the first (reverse) pass (the
evaluator is skipped since the node is already resolved), and the input node
ends High by net flooding. The conjuncts exhibit the staged run: the seed,
the successor sets, the successful topological sort, the first pass leaving
the seed in place while flooding the input, and the final snapshot. -/
theorem C9_not_gate_loop_breaker :
    resolve [] [c9_not] c9_nodes = .ok [⟨0, [1], some 1⟩, ⟨1, [0], some 1⟩]
    ∧ init_all [] [c9_not] c9_nodes
        = .ok ([⟨0, [1], none⟩, ⟨1, [0], some 1⟩], [some c9_not, some c9_not])
    ∧ buildSuccessors [] [⟨0, [1], none⟩, ⟨1, [0], some 1⟩]
        [some c9_not, some c9_not] = .ok [[], [0]]
    ∧ sortAll [[], [0]] 2 = .ok ([0, 1], [2, 2])
    ∧ phase1 [] [some c9_not, some c9_not] [[], [0]] [1, 0]
        [⟨0, [1], none⟩, ⟨1, [0], some 1⟩]
        = .ok [⟨0, [1], some 1⟩, ⟨1, [0], some 1⟩] := by decide

/-- C6 counterexample: for the netlist with a three-input AND gate,
initialization completes without raising anything (so the error is not
raised during the initialization/registry phase) and mutates the Power
output from Unknown to High, and only the subsequent evaluation fails. -/
theorem C6_counterexample :
    init_all [] [c6_and, c6_pw] c6_nodes
      = .ok ([⟨0, [], none⟩, ⟨0, [], none⟩, ⟨0, [], none⟩, ⟨1, [], none⟩,
              ⟨1, [], some 1⟩],
             [some c6_and, some c6_and, some c6_and, some c6_and, some c6_pw])
    ∧ stA c6_nodes 4 = none
    ∧ resolve [] [c6_and, c6_pw] c6_nodes = .error (.unsupportedGate "and") := by
  decide

theorem and_gate_short_indexError (m : NodesMap) (all : List Node)
    (inp : List Nat) (hm : List.lookup "inp" m = some (.many inp))
    (hl : inp.length < 2) : update_and_gate m all = .error .indexError := by
  have hg : getMany m "inp" = .ok inp := by simp [getMany, hm]
  match inp, hl with
  | [], _ => rw [update_and_gate, hg]; rfl
  | [a], _ =>
    rw [update_and_gate, hg]
    cases h : all[a]?
    · simp [listIdx, readState_of_none h]
    · simp [listIdx, readState_of_some h]

theorem and_gate_unsupported_arity (m : NodesMap) (all : List Node)
    (inp : List Nat) (hm : List.lookup "inp" m = some (.many inp)) (msg : String)
    (hr : update_and_gate m all = .error (.unsupportedGate msg)) : 2 < inp.length := by
  have hg : getMany m "inp" = .ok inp := by simp [getMany, hm]
  rcases inp with _ | ⟨a, _ | ⟨b, _ | ⟨c, rest⟩⟩⟩
  · rw [update_and_gate, hg] at hr
    simp [listIdx] at hr
  · rw [update_and_gate, hg] at hr
    cases h : all[a]?
    · simp [listIdx, readState_of_none h] at hr
    · simp [listIdx, readState_of_some h] at hr
  · rw [update_and_gate, hg] at hr
    cases h1 : all[a]?
    · simp [listIdx, readState_of_none h1] at hr
    · cases h2 : all[b]?
      · simp [listIdx, readState_of_some h1, readState_of_none h2] at hr
      · simp only [listIdx, List.getElem?_cons_zero, List.getElem?_cons_succ,
          readState_of_some h1, readState_of_some h2, ok_bind,
          List.length_cons, List.length_nil] at hr
        rw [if_neg (by omega)] at hr
        simp only [pure_eq_ok, ok_bind] at hr
        cases h3 : getOne m "output1" <;> rw [h3] at hr <;>
          simp only [ok_bind, error_bind] at hr
        · rcases getOne_error h3 with h | h <;> simp [h] at hr
        · rename_i out
          cases h4 : getNode all out <;> rw [h4] at hr <;>
            simp only [ok_bind, error_bind] at hr
          · exact PyErr.noConfusion
              ((getNode_error h4).symm.trans (Except.error.inj hr))
          · split at hr
            · exact PyErr.noConfusion (setNodeState_error hr)
            · exact Except.noConfusion hr
  · simp only [List.length_cons]; omega

theorem nand_gate_short_indexError (m : NodesMap) (all : List Node)
    (inp : List Nat) (hm : List.lookup "inp" m = some (.many inp))
    (hl : inp.length < 2) : update_nand_gate m all = .error .indexError := by
  have hg : getMany m "inp" = .ok inp := by simp [getMany, hm]
  match inp, hl with
  | [], _ => rw [update_nand_gate, hg]; rfl
  | [a], _ =>
    rw [update_nand_gate, hg]
    cases h : all[a]?
    · simp [listIdx, readState_of_none h]
    · simp [listIdx, readState_of_some h]

theorem nand_gate_unsupported_arity (m : NodesMap) (all : List Node)
    (inp : List Nat) (hm : List.lookup "inp" m = some (.many inp)) (msg : String)
    (hr : update_nand_gate m all = .error (.unsupportedGate msg)) : 2 < inp.length := by
  have hg : getMany m "inp" = .ok inp := by simp [getMany, hm]
  rcases inp with _ | ⟨a, _ | ⟨b, _ | ⟨c, rest⟩⟩⟩
  · rw [update_nand_gate, hg] at hr
    simp [listIdx] at hr
  · rw [update_nand_gate, hg] at hr
    cases h : all[a]?
    · simp [listIdx, readState_of_none h] at hr
    · simp [listIdx, readState_of_some h] at hr
  · rw [update_nand_gate, hg] at hr
    cases h1 : all[a]?
    · simp [listIdx, readState_of_none h1] at hr
    · cases h2 : all[b]?
      · simp [listIdx, readState_of_some h1, readState_of_none h2] at hr
      · simp only [listIdx, List.getElem?_cons_zero, List.getElem?_cons_succ,
          readState_of_some h1, readState_of_some h2, ok_bind,
          List.length_cons, List.length_nil] at hr
        rw [if_neg (by omega)] at hr
        simp only [pure_eq_ok, ok_bind] at hr
        cases h3 : getOne m "output1" <;> rw [h3] at hr <;>
          simp only [ok_bind, error_bind] at hr
        · rcases getOne_error h3 with h | h <;> simp [h] at hr
        · rename_i out
          cases h4 : getNode all out <;> rw [h4] at hr <;>
            simp only [ok_bind, error_bind] at hr
          · exact PyErr.noConfusion
              ((getNode_error h4).symm.trans (Except.error.inj hr))
          · split at hr
            · exact PyErr.noConfusion (setNodeState_error hr)
            · exact Except.noConfusion hr
  · simp only [List.length_cons]; omega

theorem nor_gate_short_indexError (m : NodesMap) (all : List Node)
    (inp : List Nat) (hm : List.lookup "inp" m = some (.many inp))
    (hl : inp.length < 2) : update_nor_gate m all = .error .indexError := by
  have hg : getMany m "inp" = .ok inp := by simp [getMany, hm]
  match inp, hl with
  | [], _ => rw [update_nor_gate, hg]; rfl
  | [a], _ =>
    rw [update_nor_gate, hg]
    cases h : all[a]?
    · simp [listIdx, readState_of_none h]
    · simp [listIdx, readState_of_some h]

theorem nor_gate_unsupported_arity (m : NodesMap) (all : List Node)
    (inp : List Nat) (hm : List.lookup "inp" m = some (.many inp)) (msg : String)
    (hr : update_nor_gate m all = .error (.unsupportedGate msg)) : 2 < inp.length := by
  have hg : getMany m "inp" = .ok inp := by simp [getMany, hm]
  rcases inp with _ | ⟨a, _ | ⟨b, _ | ⟨c, rest⟩⟩⟩
  · rw [update_nor_gate, hg] at hr
    simp [listIdx] at hr
  · rw [update_nor_gate, hg] at hr
    cases h : all[a]?
    · simp [listIdx, readState_of_none h] at hr
    · simp [listIdx, readState_of_some h] at hr
  · rw [update_nor_gate, hg] at hr
    cases h1 : all[a]?
    · simp [listIdx, readState_of_none h1] at hr
    · cases h2 : all[b]?
      · simp [listIdx, readState_of_some h1, readState_of_none h2] at hr
      · simp only [listIdx, List.getElem?_cons_zero, List.getElem?_cons_succ,
          readState_of_some h1, readState_of_some h2, ok_bind,
          List.length_cons, List.length_nil] at hr
        rw [if_neg (by omega)] at hr
        simp only [pure_eq_ok, ok_bind] at hr
        cases h3 : getOne m "output1" <;> rw [h3] at hr <;>
          simp only [ok_bind, error_bind] at hr
        · rcases getOne_error h3 with h | h <;> simp [h] at hr
        · rename_i out
          cases h4 : getNode all out <;> rw [h4] at hr <;>
            simp only [ok_bind, error_bind] at hr
          · exact PyErr.noConfusion
              ((getNode_error h4).symm.trans (Except.error.inj hr))
          · split at hr
            · exact PyErr.noConfusion (setNodeState_error hr)
            · exact Except.noConfusion hr
  · simp only [List.length_cons]; omega

theorem xor_gate_short_indexError (m : NodesMap) (all : List Node)
    (inp : List Nat) (hm : List.lookup "inp" m = some (.many inp))
    (hl : inp.length < 2) : update_xor_gate m all = .error .indexError := by
  have hg : getMany m "inp" = .ok inp := by simp [getMany, hm]
  match inp, hl with
  | [], _ => rw [update_xor_gate, hg]; rfl
  | [a], _ =>
    rw [update_xor_gate, hg]
    cases h : all[a]?
    · simp [listIdx, readState_of_none h]
    · simp [listIdx, readState_of_some h]

theorem xor_gate_unsupported_arity (m : NodesMap) (all : List Node)
    (inp : List Nat) (hm : List.lookup "inp" m = some (.many inp)) (msg : String)
    (hr : update_xor_gate m all = .error (.unsupportedGate msg)) : 2 < inp.length := by
  have hg : getMany m "inp" = .ok inp := by simp [getMany, hm]
  rcases inp with _ | ⟨a, _ | ⟨b, _ | ⟨c, rest⟩⟩⟩
  · rw [update_xor_gate, hg] at hr
    simp [listIdx] at hr
  · rw [update_xor_gate, hg] at hr
    cases h : all[a]?
    · simp [listIdx, readState_of_none h] at hr
    · simp [listIdx, readState_of_some h] at hr
  · rw [update_xor_gate, hg] at hr
    cases h1 : all[a]?
    · simp [listIdx, readState_of_none h1] at hr
    · cases h2 : all[b]?
      · simp [listIdx, readState_of_some h1, readState_of_none h2] at hr
      · simp only [listIdx, List.getElem?_cons_zero, List.getElem?_cons_succ,
          readState_of_some h1, readState_of_some h2, ok_bind,
          List.length_cons, List.length_nil] at hr
        rw [if_neg (by omega)] at hr
        simp only [pure_eq_ok, ok_bind] at hr
        cases h3 : getOne m "output1" <;> rw [h3] at hr <;>
          simp only [ok_bind, error_bind] at hr
        · rcases getOne_error h3 with h | h <;> simp [h] at hr
        · rename_i out
          cases h4 : getNode all out <;> rw [h4] at hr <;>
            simp only [ok_bind, error_bind] at hr
          · exact PyErr.noConfusion
              ((getNode_error h4).symm.trans (Except.error.inj hr))
          · split at hr
            · exact PyErr.noConfusion (setNodeState_error hr)
            · exact Except.noConfusion hr
  · simp only [List.length_cons]; omega

/-- C10: each of the two-input gate evaluators reads input index 1 before its
arity check, so a gate with fewer than two entries in its `inp` port list
fails with the out-of-range indexing error, never with the unsupported-gate
configuration error; and the configuration-error branch is reachable only
when the gate has more than two inputs. -/
theorem C10_reads_before_arity_check (m : NodesMap) (all : List Node)
    (inp : List Nat) (hm : List.lookup "inp" m = some (.many inp)) :
    (inp.length < 2 →
      update_and_gate m all = .error .indexError ∧
      update_nand_gate m all = .error .indexError ∧
      update_nor_gate m all = .error .indexError ∧
      update_xor_gate m all = .error .indexError) ∧
    (∀ msg,
      (update_and_gate m all = .error (.unsupportedGate msg) ∨
       update_nand_gate m all = .error (.unsupportedGate msg) ∨
       update_nor_gate m all = .error (.unsupportedGate msg) ∨
       update_xor_gate m all = .error (.unsupportedGate msg)) →
      2 < inp.length) := by
  constructor
  · intro hl
    exact ⟨and_gate_short_indexError m all inp hm hl,
      nand_gate_short_indexError m all inp hm hl,
      nor_gate_short_indexError m all inp hm hl,
      xor_gate_short_indexError m all inp hm hl⟩
  · intro msg hmsg
    rcases hmsg with h | h | h | h
    · exact and_gate_unsupported_arity m all inp hm msg h
    · exact nand_gate_unsupported_arity m all inp hm msg h
    · exact nor_gate_unsupported_arity m all inp hm msg h
    · exact xor_gate_unsupported_arity m all inp hm msg h

/-- C10 witness: an AND gate with a single-entry `inp` list fails with the
indexing error. -/
theorem C10_reads_before_arity_check_witness :
    List.lookup "inp" [("inp", PortVal.many [0])] = some (.many [0]) ∧
    ([0] : List Nat).length < 2 ∧
    update_and_gate [("inp", PortVal.many [0])] [⟨0, [], none⟩]
      = .error .indexError :=
  ⟨by decide, by decide,
    ((C10_reads_before_arity_check [("inp", PortVal.many [0])] [⟨0, [], none⟩]
      [0] (by decide)).1 (by decide)).1⟩



/-! ### Claim C5: correctness of the topological sort -/

/-- An edge of the successors relation: `v` is listed among `u`'s successors. -/
def edgeOf (si : List (List Nat)) (u v : Nat) : Prop :=
  ∃ l, si[u]? = some l ∧ v ∈ l

def siWF (si : List (List Nat)) : Prop :=
  ∀ l ∈ si, ∀ v ∈ l, v < si.length

instance (si : List (List Nat)) : Decidable (siWF si) := by
  unfold siWF
  infer_instance

def Good (si : List (List Nat)) (so : List Nat) (st : List Nat) : Prop :=
  st.length = si.length
  ∧ (∀ (k v : Nat), st[k]? = some v → v = 0 ∨ v = 1 ∨ v = 2)
  ∧ (∀ k : Nat, st[k]? = some 2 ↔ k ∈ so)
  ∧ so.Nodup
  ∧ (∀ u ∈ so, u < si.length)
  ∧ (∀ u ∈ so, ∀ v, edgeOf si u v → v ∈ so ∧ so.indexOf v < so.indexOf u)

def VPost (so st so' st' : List Nat) : Prop :=
  st'.length = st.length
  ∧ (∀ (k v : Nat), st[k]? = some v → ∃ v', st'[k]? = some v' ∧ v ≤ v')
  ∧ (∀ k : Nat, st'[k]? = some 1 ↔ st[k]? = some 1)
  ∧ (∃ tail, so' = so ++ tail)

theorem VPost_refl (so st : List Nat) : VPost so st so st :=
  ⟨rfl, fun k v h => ⟨v, h, le_refl v⟩, fun _ => Iff.rfl, [], by simp⟩

theorem VPost_trans {so1 st1 so2 st2 so3 st3 : List Nat}
    (h1 : VPost so1 st1 so2 st2) (h2 : VPost so2 st2 so3 st3) :
    VPost so1 st1 so3 st3 := by
  obtain ⟨l1, m1, g1, t1, ht1⟩ := h1
  obtain ⟨l2, m2, g2, t2, ht2⟩ := h2
  refine ⟨l2.trans l1, ?_, fun k => (g2 k).trans (g1 k), t1 ++ t2, by simp [ht1, ht2]⟩
  intro k v h
  obtain ⟨v', h', hv'⟩ := m1 k v h
  obtain ⟨v'', h'', hv''⟩ := m2 k v' h'
  exact ⟨v'', h'', hv'.trans hv''⟩

theorem getStat_ok {st : List Nat} {i v : Nat} (h : getStat st i = .ok v) :
    st[i]? = some v := by
  unfold getStat at h
  split at h <;> simp_all

theorem setStat_ok {st : List Nat} {i v : Nat} {st' : List Nat}
    (h : setStat st i v = .ok st') : st' = st.set i v ∧ i < st.length := by
  unfold setStat at h
  split at h <;> simp_all

theorem getSucc_ok {si : List (List Nat)} {i : Nat} {l : List Nat}
    (h : getSucc si i = .ok l) : si[i]? = some l := by
  unfold getSucc at h
  split at h <;> simp_all

theorem getStat_error {st : List Nat} {i : Nat} {e : PyErr}
    (h : getStat st i = .error e) : e = .indexError := by
  unfold getStat at h
  split at h <;> simp_all

theorem setStat_error {st : List Nat} {i v : Nat} {e : PyErr}
    (h : setStat st i v = .error e) : e = .indexError := by
  unfold setStat at h
  split at h <;> simp_all

theorem getSucc_error {si : List (List Nat)} {i : Nat} {e : PyErr}
    (h : getSucc si i = .error e) : e = .indexError := by
  unfold getSucc at h
  split at h <;> simp_all

theorem good_set1 {si : List (List Nat)} {so st : List Nat} {i v : Nat}
    (hg : Good si so st) (hi : st[i]? = some v) (hv : v ≠ 2) :
    Good si so (st.set i 1) := by
  obtain ⟨hlen, hval, hmem, hnd, hlt, hedge⟩ := hg
  have hilen : i < st.length := by
    by_contra hc
    simp [List.getElem?_eq_none (le_of_not_lt hc)] at hi
  refine ⟨by simp [hlen], ?_, ?_, hnd, hlt, hedge⟩
  · intro k w h
    by_cases hk : i = k
    · subst hk
      rw [List.getElem?_set_eq hilen] at h
      cases h
      simp
    · rw [List.getElem?_set_ne hk] at h
      exact hval k w h
  · intro k
    by_cases hk : i = k
    · subst hk
      rw [List.getElem?_set_eq hilen]
      constructor
      · intro h
        exact absurd h (by simp)
      · intro h
        have h2 := (hmem i).mpr h
        rw [hi] at h2
        exact absurd (Option.some.inj h2) hv
    · rw [List.getElem?_set_ne hk]
      exact hmem k



theorem good_notin {si : List (List Nat)} {so st : List Nat} {i : Nat}
    (hg : Good si so st) (h1 : st[i]? = some 1) : i ∉ so := by
  intro hmem
  have := (hg.2.2.1 i).mpr hmem
  rw [h1] at this
  exact absurd (Option.some.inj this) (by simp)

theorem good_finish {si : List (List Nat)} {so st : List Nat} {i : Nat}
    {succs : List Nat}
    (hg : Good si so st) (hgray : st[i]? = some 1)
    (hsuccs : si[i]? = some succs)
    (hdone : ∀ s ∈ succs, st[s]? = some 2) :
    Good si (so ++ [i]) (st.set i 2) := by
  obtain ⟨hlen, hval, hmem, hnd, hlt, hedge⟩ := hg
  have hilen : i < st.length := by
    by_contra hc
    simp [List.getElem?_eq_none (le_of_not_lt hc)] at hgray
  have hisi : i < si.length := by
    by_contra hc
    simp [List.getElem?_eq_none (le_of_not_lt hc)] at hsuccs
  have hnotin : i ∉ so := good_notin ⟨hlen, hval, hmem, hnd, hlt, hedge⟩ hgray
  refine ⟨by simp [hlen], ?_, ?_, ?_, ?_, ?_⟩
  · intro k w h
    by_cases hk : i = k
    · subst hk
      rw [List.getElem?_set_eq hilen] at h
      cases h
      simp
    · rw [List.getElem?_set_ne hk] at h
      exact hval k w h
  · intro k
    by_cases hk : i = k
    · subst hk
      rw [List.getElem?_set_eq hilen]
      simp
    · rw [List.getElem?_set_ne hk]
      rw [hmem k]
      constructor
      · intro h
        exact List.mem_append.mpr (Or.inl h)
      · intro h
        rcases List.mem_append.mp h with h | h
        · exact h
        · simp at h
          exact absurd h.symm hk
  · rw [List.nodup_append]
    refine ⟨hnd, by simp, ?_⟩
    intro a ha hai
    simp at hai
    subst hai
    exact hnotin ha
  · intro u hu
    rcases List.mem_append.mp hu with h | h
    · exact hlt u h
    · simp at h
      subst h
      exact hisi
  · intro u hu v hv
    rcases List.mem_append.mp hu with h | h
    · obtain ⟨hvso, hidx⟩ := hedge u h v hv
      refine ⟨List.mem_append.mpr (Or.inl hvso), ?_⟩
      rw [List.indexOf_append_of_mem hvso, List.indexOf_append_of_mem h]
      exact hidx
    · simp at h
      subst h
      obtain ⟨l, hl, hvl⟩ := hv
      rw [hsuccs] at hl
      cases hl
      have h2 := hdone v hvl
      have hvso : v ∈ so := (hmem v).mp h2
      refine ⟨List.mem_append.mpr (Or.inl hvso), ?_⟩
      rw [List.indexOf_append_of_mem hvso, List.indexOf_append_of_not_mem hnotin]
      simp only [List.indexOf_cons_self, Nat.add_zero]
      exact List.indexOf_lt_length.mpr hvso



theorem tsVisit_ok_spec (si : List (List Nat)) :
    ∀ f (i : Nat) (so st so' st' : List Nat),
      tsVisit f si i so st = .ok (so', st') → Good si so st →
      Good si so' st' ∧ VPost so st so' st' ∧ st'[i]? = some 2 := by
  intro f
  induction f with
  | zero =>
    intro i so st so' st' h _
    exact absurd h (by simp [tsVisit])
  | succ f ih =>
    have foldAux : ∀ (l : List Nat) (so st so' st' : List Nat),
        (l.foldlM (fun (q : List Nat × List Nat) s => tsVisit f si s q.1 q.2)
          (so, st)) = .ok (so', st') →
        Good si so st →
        Good si so' st' ∧ VPost so st so' st' ∧ ∀ s ∈ l, st'[s]? = some 2 := by
      intro l
      induction l with
      | nil =>
        intro so st so' st' h hg
        simp only [List.foldlM_nil, pure_eq_ok] at h
        cases h
        exact ⟨hg, VPost_refl _ _, by simp⟩
      | cons s rest ihl =>
        intro so st so' st' h hg
        rw [List.foldlM_cons] at h
        cases hv : tsVisit f si s so st with
        | error e => rw [hv] at h; exact absurd h (by simp)
        | ok q =>
          obtain ⟨q1, q2⟩ := q
          rw [hv] at h
          simp only [ok_bind] at h
          obtain ⟨hgq, hpq, hdq⟩ := ih s so st q1 q2 hv hg
          obtain ⟨hgr, hpr, hdr⟩ := ihl q1 q2 so' st' h hgq
          refine ⟨hgr, VPost_trans hpq hpr, ?_⟩
          intro x hx
          rcases List.mem_cons.mp hx with hx | hx
          · subst hx
            obtain ⟨v', hv', hge⟩ := hpr.2.1 x 2 hdq
            rcases hgr.2.1 x v' hv' with h0 | h0 | h0
            · exact absurd hge (by omega)
            · exact absurd hge (by omega)
            · rw [hv', h0]
          · exact hdr x hx
    intro i so st so' st' h hg
    rw [tsVisit] at h
    cases hs : getStat st i with
    | error e => rw [hs] at h; exact absurd h (by simp)
    | ok stv =>
      rw [hs] at h
      simp only [ok_bind] at h
      by_cases h2 : stv = 2
      · rw [if_pos h2] at h
        simp only [pure_eq_ok] at h
        cases h
        refine ⟨hg, VPost_refl _ _, ?_⟩
        rw [getStat_ok hs, h2]
      · rw [if_neg h2] at h
        by_cases h1 : stv = 1
        · rw [if_pos h1] at h
          exact absurd h (by simp)
        · rw [if_neg h1] at h
          cases hset : setStat st i 1 with
          | error e => rw [hset] at h; exact absurd h (by simp)
          | ok st2 =>
            rw [hset] at h
            simp only [ok_bind] at h
            obtain ⟨hst2, hilen⟩ := setStat_ok hset
            cases hsc : getSucc si i with
            | error e => rw [hsc] at h; exact absurd h (by simp)
            | ok succs =>
              rw [hsc] at h
              simp only [ok_bind] at h
              cases hfold : succs.foldlM
                  (fun (q : List Nat × List Nat) s => tsVisit f si s q.1 q.2)
                  (so, st2) with
              | error e => rw [hfold] at h; exact absurd h (by simp)
              | ok p =>
                obtain ⟨p1, p2⟩ := p
                rw [hfold] at h
                simp only [ok_bind] at h
                cases hset2 : setStat p2 i 2 with
                | error e => rw [hset2] at h; exact absurd h (by simp)
                | ok st3 =>
                  rw [hset2] at h
                  simp only [ok_bind, pure_eq_ok] at h
                  cases h
                  obtain ⟨hst3, hilen2⟩ := setStat_ok hset2
                  have hstat := getStat_ok hs
                  have hg2 : Good si so st2 := hst2 ▸ good_set1 hg hstat h2
                  obtain ⟨hgm, hpm, hdm⟩ :=
                    foldAux succs so st2 p1 p2 hfold hg2
                  have hgraym : p2[i]? = some 1 := by
                    rw [hpm.2.2.1 i, hst2, List.getElem?_set_eq hilen]
                  have hgfin : Good si (p1 ++ [i]) st' := by
                    rw [hst3]
                    exact good_finish hgm hgraym (getSucc_ok hsc) hdm
                  have hstv0 : stv = 0 := by
                    rcases hg.2.1 i stv hstat with h0 | h0 | h0
                    · exact h0
                    · exact absurd h0 h1
                    · exact absurd h0 h2
                  refine ⟨hgfin, ?_, ?_⟩
                  · refine ⟨?_, ?_, ?_, ?_⟩
                    · rw [hst3]
                      simp [hpm.1, hst2]
                    · intro k v hk
                      by_cases hki : i = k
                      · subst hki
                        rw [hstat] at hk
                        cases hk
                        refine ⟨2, ?_, by omega⟩
                        rw [hst3, List.getElem?_set_eq hilen2]
                      · have hk2 : st2[k]? = some v := by
                          rw [hst2, List.getElem?_set_ne hki]
                          exact hk
                        obtain ⟨v', hv', hge⟩ := hpm.2.1 k v hk2
                        refine ⟨v', ?_, hge⟩
                        rw [hst3, List.getElem?_set_ne hki]
                        exact hv'
                    · intro k
                      by_cases hki : i = k
                      · subst hki
                        rw [hst3, List.getElem?_set_eq hilen2, hstat]
                        constructor
                        · intro hc
                          exact absurd (Option.some.inj hc) (by simp)
                        · intro hc
                          exact absurd (Option.some.inj hc) h1
                      · rw [hst3, List.getElem?_set_ne hki]
                        rw [hpm.2.2.1 k, hst2, List.getElem?_set_ne hki]
                    · obtain ⟨tail, htail⟩ := hpm.2.2.2
                      exact ⟨tail ++ [i], by simp [htail]⟩
                  · rw [hst3, List.getElem?_set_eq hilen2]



theorem indexOf_reverse_of_nodup {l : List Nat} (h : l.Nodup) {x : Nat}
    (hx : x ∈ l) : l.reverse.indexOf x = l.length - 1 - l.indexOf x := by
  have hi : l.indexOf x < l.length := List.indexOf_lt_length.mpr hx
  have hj : l.length - 1 - l.indexOf x < l.reverse.length := by
    simp only [List.length_reverse]
    omega
  have hget : l.reverse[l.length - 1 - l.indexOf x] = x := by
    rw [List.getElem_reverse]
    have heq : l.length - 1 - (l.length - 1 - l.indexOf x) = l.indexOf x := by
      omega
    simp only [heq]
    exact List.getElem_indexOf hi
  conv_lhs => rw [← hget]
  exact List.indexOf_getElem (List.nodup_reverse.mpr h) _ hj

theorem indexOf_reverse_lt {l : List Nat} (h : l.Nodup) {u v : Nat}
    (hu : u ∈ l) (hv : v ∈ l) (hlt : l.indexOf v < l.indexOf u) :
    l.reverse.indexOf u < l.reverse.indexOf v := by
  rw [indexOf_reverse_of_nodup h hu, indexOf_reverse_of_nodup h hv]
  have h1 := List.indexOf_lt_length.mpr hu
  omega

theorem tsVisit_err_cycle (si : List (List Nat)) :
    ∀ (f i : Nat) (so st : List Nat),
      Good si so st →
      (∀ x : Nat, st[x]? = some 1 → Relation.ReflTransGen (edgeOf si) x i) →
      (st[i]? = some 1 → ∃ c, Relation.TransGen (edgeOf si) c c) →
      tsVisit f si i so st = .error .cyclicGraph →
      ∃ c, Relation.TransGen (edgeOf si) c c := by
  intro f
  induction f with
  | zero =>
    intro i so st _ _ _ h
    exact absurd h (by simp [tsVisit])
  | succ f ih =>
    have foldErr : ∀ (l : List Nat) (so st : List Nat) (i : Nat),
        Good si so st →
        (∀ x : Nat, st[x]? = some 1 → Relation.ReflTransGen (edgeOf si) x i) →
        st[i]? = some 1 →
        (∀ s ∈ l, edgeOf si i s) →
        (l.foldlM (fun (q : List Nat × List Nat) s => tsVisit f si s q.1 q.2)
          (so, st)) = .error .cyclicGraph →
        ∃ c, Relation.TransGen (edgeOf si) c c := by
      intro l
      induction l with
      | nil =>
        intro so st i _ _ _ _ h
        exact absurd h (by simp [List.foldlM_nil])
      | cons s rest ihl =>
        intro so st i hg hgray hselfgray hl h
        rw [List.foldlM_cons] at h
        cases hv : tsVisit f si s so st with
        | error e =>
          rw [hv] at h
          simp only [error_bind] at h
          cases h
          refine ih s so st hg ?_ ?_ hv
          · intro x hx
            exact (hgray x hx).tail (hl s (by simp))
          · intro hs1
            exact ⟨s, Relation.TransGen.tail' (hgray s hs1) (hl s (by simp))⟩
        | ok q =>
          obtain ⟨q1, q2⟩ := q
          rw [hv] at h
          simp only [ok_bind] at h
          obtain ⟨hgq, hpq, _⟩ := tsVisit_ok_spec si f s so st q1 q2 hv hg
          refine ihl q1 q2 i hgq ?_ ?_ (fun x hx => hl x (by simp [hx])) h
          · intro x hx
            exact hgray x ((hpq.2.2.1 x).mp hx)
          · exact (hpq.2.2.1 i).mpr hselfgray
    intro i so st hg hgray hself h
    rw [tsVisit] at h
    cases hs : getStat st i with
    | error e =>
      rw [hs] at h
      simp only [error_bind] at h
      cases h
      exact absurd (getStat_error hs) (by simp)
    | ok stv =>
      rw [hs] at h
      simp only [ok_bind] at h
      by_cases h2 : stv = 2
      · rw [if_pos h2] at h
        exact absurd h (by simp)
      · rw [if_neg h2] at h
        by_cases h1 : stv = 1
        · subst h1
          exact hself (getStat_ok hs)
        · rw [if_neg h1] at h
          cases hset : setStat st i 1 with
          | error e =>
            rw [hset] at h
            simp only [error_bind] at h
            cases h
            exact absurd (setStat_error hset) (by simp)
          | ok st2 =>
            rw [hset] at h
            simp only [ok_bind] at h
            obtain ⟨hst2, hilen⟩ := setStat_ok hset
            cases hsc : getSucc si i with
            | error e =>
              rw [hsc] at h
              simp only [error_bind] at h
              cases h
              exact absurd (getSucc_error hsc) (by simp)
            | ok succs =>
              rw [hsc] at h
              simp only [ok_bind] at h
              cases hfold : succs.foldlM
                  (fun (q : List Nat × List Nat) s => tsVisit f si s q.1 q.2)
                  (so, st2) with
              | error e =>
                rw [hfold] at h
                simp only [error_bind] at h
                cases h
                have hg2 : Good si so st2 :=
                  hst2 ▸ good_set1 hg (getStat_ok hs) h2
                refine foldErr succs so st2 i hg2 ?_ ?_ ?_ hfold
                · intro x hx
                  by_cases hxi : x = i
                  · exact hxi ▸ Relation.ReflTransGen.refl
                  · rw [hst2, List.getElem?_set_ne (fun hh => hxi hh.symm)] at hx
                    exact hgray x hx
                · rw [hst2, List.getElem?_set_eq hilen]
                · intro s hsmem
                  exact ⟨succs, getSucc_ok hsc, hsmem⟩
              | ok p =>
                obtain ⟨p1, p2⟩ := p
                rw [hfold] at h
                simp only [ok_bind] at h
                cases hset2 : setStat p2 i 2 with
                | error e =>
                  rw [hset2] at h
                  simp only [error_bind] at h
                  cases h
                  exact absurd (setStat_error hset2) (by simp)
                | ok st3 =>
                  rw [hset2] at h
                  exact absurd h (by simp)



theorem tsFold_ok_spec (si : List (List Nat)) (f : Nat) :
    ∀ (l : List Nat) (so st so' st' : List Nat),
      (l.foldlM (fun (q : List Nat × List Nat) s => tsVisit f si s q.1 q.2)
        (so, st)) = .ok (so', st') →
      Good si so st →
      Good si so' st' ∧ VPost so st so' st' ∧ ∀ s ∈ l, st'[s]? = some 2 := by
  intro l
  induction l with
  | nil =>
    intro so st so' st' h hg
    simp only [List.foldlM_nil, pure_eq_ok] at h
    cases h
    exact ⟨hg, VPost_refl _ _, by simp⟩
  | cons s rest ihl =>
    intro so st so' st' h hg
    rw [List.foldlM_cons] at h
    cases hv : tsVisit f si s so st with
    | error e => rw [hv] at h; exact absurd h (by simp)
    | ok q =>
      obtain ⟨q1, q2⟩ := q
      rw [hv] at h
      simp only [ok_bind] at h
      obtain ⟨hgq, hpq, hdq⟩ := tsVisit_ok_spec si f s so st q1 q2 hv hg
      obtain ⟨hgr, hpr, hdr⟩ := ihl q1 q2 so' st' h hgq
      refine ⟨hgr, VPost_trans hpq hpr, ?_⟩
      intro x hx
      rcases List.mem_cons.mp hx with hx | hx
      · subst hx
        obtain ⟨v', hv', hge⟩ := hpr.2.1 x 2 hdq
        rcases hgr.2.1 x v' hv' with h0 | h0 | h0
        · exact absurd hge (by omega)
        · exact absurd hge (by omega)
        · rw [hv', h0]
      · exact hdr x hx

def cnt0 (st : List Nat) : Nat :=
  ((Finset.range st.length).filter (fun k => st[k]? = some 0)).card

theorem cnt0_le (st : List Nat) : cnt0 st ≤ st.length := by
  calc cnt0 st ≤ (Finset.range st.length).card := Finset.card_filter_le _ _
    _ = st.length := Finset.card_range _

theorem cnt0_set1 {st : List Nat} {i : Nat} (h : st[i]? = some 0) :
    cnt0 (st.set i 1) < cnt0 st := by
  have hi : i < st.length := by
    by_contra hc
    simp [List.getElem?_eq_none (le_of_not_lt hc)] at h
  apply Finset.card_lt_card
  rw [Finset.ssubset_iff_of_subset]
  · refine ⟨i, ?_, ?_⟩
    · simp only [Finset.mem_filter, Finset.mem_range]
      exact ⟨hi, h⟩
    · simp only [Finset.mem_filter, Finset.mem_range, List.length_set]
      rw [List.getElem?_set_eq hi]
      simp
  · intro k hk
    simp only [Finset.mem_filter, Finset.mem_range, List.length_set] at hk
    obtain ⟨hk1, hk2⟩ := hk
    simp only [Finset.mem_filter, Finset.mem_range]
    refine ⟨hk1, ?_⟩
    by_cases hki : i = k
    · subst hki
      rw [List.getElem?_set_eq hi] at hk2
      exact absurd (Option.some.inj hk2) (by simp)
    · rwa [List.getElem?_set_ne hki] at hk2

theorem cnt0_mono {so st so' st' : List Nat} (hp : VPost so st so' st') :
    cnt0 st' ≤ cnt0 st := by
  apply Finset.card_le_card
  intro k hk
  simp only [Finset.mem_filter, Finset.mem_range] at hk ⊢
  obtain ⟨hk1, hk2⟩ := hk
  rw [hp.1] at hk1
  refine ⟨hk1, ?_⟩
  have hsome : st[k]? = some st[k] := List.getElem?_eq_getElem hk1
  obtain ⟨v', hv', hle⟩ := hp.2.1 k st[k] hsome
  rw [hk2] at hv'
  have hv0 : v' = 0 := (Option.some.inj hv').symm
  rw [hsome]
  have : st[k] = 0 := by omega
  rw [this]

theorem getStat_of_lt {st : List Nat} {i : Nat} (h : i < st.length) :
    getStat st i = .ok st[i] ∧ st[i]? = some st[i] := by
  have hsome := List.getElem?_eq_getElem h
  exact ⟨by simp [getStat, hsome], hsome⟩

theorem getSucc_of_lt {si : List (List Nat)} {i : Nat} (h : i < si.length) :
    getSucc si i = .ok si[i] ∧ si[i]? = some si[i] := by
  have hsome := List.getElem?_eq_getElem h
  exact ⟨by simp [getSucc, hsome], hsome⟩

theorem setStat_of_lt {st : List Nat} {i : Nat} (h : i < st.length) (v : Nat) :
    setStat st i v = .ok (st.set i v) := by
  simp [setStat, h]



theorem tsVisit_total (si : List (List Nat)) (hWF : siWF si) :
    ∀ (f i : Nat) (so st : List Nat), Good si so st → i < si.length →
      cnt0 st + 1 ≤ f →
      (∃ r, tsVisit f si i so st = .ok r) ∨
        tsVisit f si i so st = .error .cyclicGraph := by
  intro f
  induction f with
  | zero => intro i so st _ _ hb; omega
  | succ f ih =>
    have foldTotal : ∀ (l : List Nat) (so st : List Nat),
        Good si so st → (∀ s ∈ l, s < si.length) → cnt0 st + 1 ≤ f →
        (∃ p, (l.foldlM
            (fun (q : List Nat × List Nat) s => tsVisit f si s q.1 q.2)
            (so, st)) = .ok p) ∨
          (l.foldlM (fun (q : List Nat × List Nat) s => tsVisit f si s q.1 q.2)
            (so, st)) = .error .cyclicGraph := by
      intro l
      induction l with
      | nil =>
        intro so st _ _ _
        exact Or.inl ⟨(so, st), by simp [List.foldlM_nil]⟩
      | cons s rest ihl =>
        intro so st hg hl hb
        rcases ih s so st hg (hl s (by simp)) hb with ⟨r, hr⟩ | hr
        · obtain ⟨q1, q2⟩ := r
          obtain ⟨hgq, hpq, _⟩ := tsVisit_ok_spec si f s so st q1 q2 hr hg
          have hb2 : cnt0 q2 + 1 ≤ f := by
            have := cnt0_mono hpq
            omega
          rcases ihl q1 q2 hgq (fun x hx => hl x (by simp [hx])) hb2 with
            ⟨p, hp⟩ | hp
          · refine Or.inl ⟨p, ?_⟩
            rw [List.foldlM_cons, hr]
            simpa using hp
          · refine Or.inr ?_
            rw [List.foldlM_cons, hr]
            simpa using hp
        · refine Or.inr ?_
          rw [List.foldlM_cons, hr]
          rfl
    intro i so st hg hi hb
    have hist : i < st.length := by rw [hg.1]; exact hi
    obtain ⟨hsok, hstv⟩ := getStat_of_lt hist
    by_cases h2 : st[i] = 2
    · refine Or.inl ⟨(so, st), ?_⟩
      rw [tsVisit, hsok]
      simp [h2]
    · by_cases h1 : st[i] = 1
      · refine Or.inr ?_
        rw [tsVisit, hsok]
        simp [h1, h2]
      · have hstv0 : st[i] = 0 := by
          rcases hg.2.1 i st[i] hstv with h | h | h
          · exact h
          · exact absurd h h1
          · exact absurd h h2
        have hg2 : Good si so (st.set i 1) := good_set1 hg hstv h2
        obtain ⟨hscok, hsuccs⟩ := getSucc_of_lt hi
        have hsvalid : ∀ s ∈ si[i], s < si.length := by
          intro s hs
          exact hWF si[i] (List.getElem?_mem hsuccs) s hs
        have hcnt : cnt0 (st.set i 1) < cnt0 st := cnt0_set1 (hstv0 ▸ hstv)
        have hb2 : cnt0 (st.set i 1) + 1 ≤ f := by omega
        rcases foldTotal si[i] so (st.set i 1) hg2 hsvalid hb2 with ⟨p, hp⟩ | hp
        · obtain ⟨p1, p2⟩ := p
          obtain ⟨hgp, _, _⟩ := tsFold_ok_spec si f si[i] so (st.set i 1) p1 p2 hp hg2
          have hp2len : i < p2.length := by rw [hgp.1]; exact hi
          refine Or.inl ⟨(p1 ++ [i], p2.set i 2), ?_⟩
          rw [tsVisit, hsok]
          simp only [ok_bind]
          rw [if_neg h2, if_neg h1, setStat_of_lt hist]
          simp only [ok_bind]
          rw [hscok]
          simp only [ok_bind]
          rw [hp]
          simp only [ok_bind]
          rw [setStat_of_lt hp2len]
          rfl
        · refine Or.inr ?_
          rw [tsVisit, hsok]
          simp only [ok_bind]
          rw [if_neg h2, if_neg h1, setStat_of_lt hist]
          simp only [ok_bind]
          rw [hscok]
          simp only [ok_bind]
          rw [hp]
          rfl



/-- No node is on the active recursion path. -/
def NoGray (st : List Nat) : Prop := ∀ x : Nat, st[x]? ≠ some 1

theorem good_init (si : List (List Nat)) :
    Good si [] (List.replicate si.length 0) := by
  refine ⟨by simp, ?_, ?_, by simp, by simp, by simp⟩
  · intro k v h
    by_cases hk : k < si.length
    · rw [List.getElem?_replicate_of_lt hk] at h
      exact Or.inl (Option.some.inj h).symm
    · rw [List.getElem?_eq_none] at h
      · cases h
      · simpa using le_of_not_lt hk
  · intro k
    constructor
    · intro h
      by_cases hk : k < si.length
      · rw [List.getElem?_replicate_of_lt hk] at h
        exact absurd (Option.some.inj h) (by simp)
      · rw [List.getElem?_eq_none (by simpa using le_of_not_lt hk)] at h
        cases h
    · intro h
      cases h

theorem noGray_init (si : List (List Nat)) :
    NoGray (List.replicate si.length 0) := by
  intro x h
  by_cases hk : x < si.length
  · rw [List.getElem?_replicate_of_lt hk] at h
    exact absurd (Option.some.inj h) (by simp)
  · rw [List.getElem?_eq_none (by simpa using le_of_not_lt hk)] at h
    cases h

theorem driverAux (si : List (List Nat)) (hWF : siWF si) :
    ∀ (l : List Nat) (so st : List Nat),
      Good si so st → NoGray st → (∀ s ∈ l, s < si.length) →
      (∃ so' st',
          (l.foldlM
            (fun (p : List Nat × List Nat) i => do
              let stv ← getStat p.2 i
              if stv = 0 then tsVisit (si.length + 1) si i p.1 p.2 else pure p)
            (so, st)) = .ok (so', st')
          ∧ Good si so' st' ∧ NoGray st' ∧ VPost so st so' st'
          ∧ ∀ s ∈ l, st'[s]? = some 2)
      ∨ ((l.foldlM
            (fun (p : List Nat × List Nat) i => do
              let stv ← getStat p.2 i
              if stv = 0 then tsVisit (si.length + 1) si i p.1 p.2 else pure p)
            (so, st)) = .error .cyclicGraph
          ∧ ∃ c, Relation.TransGen (edgeOf si) c c) := by
  intro l
  induction l with
  | nil =>
    intro so st hg hng _
    exact Or.inl ⟨so, st, by simp [List.foldlM_nil], hg, hng, VPost_refl _ _,
      by simp⟩
  | cons i rest ihl =>
    intro so st hg hng hl
    have hist : i < st.length := by rw [hg.1]; exact hl i (by simp)
    obtain ⟨hsok, hstv⟩ := getStat_of_lt hist
    by_cases h0 : st[i] = 0
    · have hbudget : cnt0 st + 1 ≤ si.length + 1 := by
        have h1 := cnt0_le st
        rw [hg.1] at h1
        omega
      rcases tsVisit_total si hWF (si.length + 1) i so st hg (hl i (by simp))
          hbudget with ⟨r, hr⟩ | hr
      · obtain ⟨q1, q2⟩ := r
        obtain ⟨hgq, hpq, hdq⟩ :=
          tsVisit_ok_spec si (si.length + 1) i so st q1 q2 hr hg
        have hngq : NoGray q2 := by
          intro x hx
          exact hng x ((hpq.2.2.1 x).mp hx)
        rcases ihl q1 q2 hgq hngq (fun x hx => hl x (by simp [hx])) with
          ⟨so', st', hfold, hg', hng', hp', hdone'⟩ | ⟨hfold, hcyc⟩
        · refine Or.inl ⟨so', st', ?_, hg', hng', VPost_trans hpq hp', ?_⟩
          · rw [List.foldlM_cons, hsok]
            simp only [ok_bind, if_pos h0]
            rw [hr]
            simpa using hfold
          · intro x hx
            rcases List.mem_cons.mp hx with hx | hx
            · subst hx
              obtain ⟨v', hv', hge⟩ := hp'.2.1 x 2 hdq
              rcases hg'.2.1 x v' hv' with hq | hq | hq
              · exact absurd hge (by omega)
              · exact absurd hge (by omega)
              · rw [hv', hq]
            · exact hdone' x hx
        · refine Or.inr ⟨?_, hcyc⟩
          rw [List.foldlM_cons, hsok]
          simp only [ok_bind, if_pos h0]
          rw [hr]
          simpa using hfold
      · refine Or.inr ⟨?_, ?_⟩
        · rw [List.foldlM_cons, hsok]
          simp only [ok_bind, if_pos h0]
          rw [hr]
          rfl
        · refine tsVisit_err_cycle si (si.length + 1) i so st hg ?_ ?_ hr
          · intro x hx
            exact absurd hx (hng x)
          · intro hx
            exact absurd hx (hng i)
    · have h2 : st[i] = 2 := by
        rcases hg.2.1 i st[i] hstv with h | h | h
        · exact absurd h h0
        · exact absurd (h ▸ hstv) (hng i)
        · exact h
      rcases ihl so st hg hng (fun x hx => hl x (by simp [hx])) with
        ⟨so', st', hfold, hg', hng', hp', hdone'⟩ | ⟨hfold, hcyc⟩
      · refine Or.inl ⟨so', st', ?_, hg', hng', hp', ?_⟩
        · rw [List.foldlM_cons, hsok]
          simp only [ok_bind, if_neg h0]
          simpa using hfold
        · intro x hx
          rcases List.mem_cons.mp hx with hx | hx
          · subst hx
            obtain ⟨v', hv', hge⟩ := hp'.2.1 x 2 (h2 ▸ hstv)
            rcases hg'.2.1 x v' hv' with hq | hq | hq
            · exact absurd hge (by omega)
            · exact absurd hge (by omega)
            · rw [hv', hq]
          · exact hdone' x hx
      · refine Or.inr ⟨?_, hcyc⟩
        rw [List.foldlM_cons, hsok]
        simp only [ok_bind, if_neg h0]
        simpa using hfold



theorem edgeOf_src_lt {si : List (List Nat)} {u v : Nat} (h : edgeOf si u v) :
    u < si.length := by
  obtain ⟨l, hl, _⟩ := h
  by_contra hc
  simp [List.getElem?_eq_none (le_of_not_lt hc)] at hl

theorem transGen_indexOf_lt {si : List (List Nat)} {so st : List Nat}
    (hg : Good si so st) (hall : ∀ i, i < si.length → i ∈ so) :
    ∀ a b, Relation.TransGen (edgeOf si) a b →
      so.indexOf b < so.indexOf a := by
  intro a b h
  induction h with
  | single h1 =>
    exact (hg.2.2.2.2.2 _ (hall _ (edgeOf_src_lt h1)) _ h1).2
  | tail hab hbc ih =>
    exact lt_trans (hg.2.2.2.2.2 _ (hall _ (edgeOf_src_lt hbc)) _ hbc).2 ih

/-- C5: under a wellformed successor table, the topological-sort driver fails
with the cyclic-graph error exactly when the successors relation contains a
true cycle; on an acyclic relation it succeeds — it returns an order and a
status list without any error — and the returned order assigns every node
(isolated ones included) exactly one position, and for every edge the
successor sits earlier in the post-order — hence, in the reversed order that
the first propagation pass iterates, every node is evaluated before all of
its successors. -/
theorem C5_topological_sort_cycles (si : List (List Nat)) (hWF : siWF si) :
    (sortAll si si.length = .error .cyclicGraph ↔
      ∃ c, Relation.TransGen (edgeOf si) c c)
    ∧ (∀ so st, sortAll si si.length = .ok (so, st) →
        so.Nodup ∧ (∀ i, i < si.length → i ∈ so) ∧ (∀ i ∈ so, i < si.length)
        ∧ ∀ u v, edgeOf si u v →
            so.indexOf v < so.indexOf u
            ∧ so.reverse.indexOf u < so.reverse.indexOf v)
    ∧ ((¬ ∃ c, Relation.TransGen (edgeOf si) c c) →
        ∃ so st, sortAll si si.length = .ok (so, st)) := by
  have hmain := driverAux si hWF (List.range si.length) []
    (List.replicate si.length 0) (good_init si) (noGray_init si)
    (by intro s hs; simpa using hs)
  have hconv : sortAll si si.length =
      (List.range si.length).foldlM
        (fun (p : List Nat × List Nat) i => do
          let stv ← getStat p.2 i
          if stv = 0 then tsVisit (si.length + 1) si i p.1 p.2 else pure p)
        ([], List.replicate si.length 0) := rfl
  refine ⟨?_, ?_, ?_⟩
  · constructor
    · intro herr
      rcases hmain with ⟨so', st', hfold, _⟩ | ⟨_, hcyc⟩
      · rw [hconv, hfold] at herr
        exact absurd herr (by simp)
      · exact hcyc
    · rintro ⟨c, hc⟩
      rcases hmain with ⟨so', st', hfold, hg', _, _, hdone'⟩ | ⟨hfold, _⟩
      · exfalso
        have hall : ∀ i, i < si.length → i ∈ so' := by
          intro i hi
          exact (hg'.2.2.1 i).mp (hdone' i (by simpa using hi))
        exact absurd (transGen_indexOf_lt hg' hall c c hc) (by omega)
      · rw [hconv, hfold]
  · intro so st hok
    rcases hmain with ⟨so', st', hfold, hg', _, _, hdone'⟩ | ⟨hfold, _⟩
    · rw [hconv, hfold] at hok
      injection hok with hpair
      injection hpair with hso hst
      subst hso
      subst hst
      have hall : ∀ i, i < si.length → i ∈ so' := by
        intro i hi
        exact (hg'.2.2.1 i).mp (hdone' i (by simpa using hi))
      refine ⟨hg'.2.2.2.1, hall, hg'.2.2.2.2.1, ?_⟩
      intro u v hedge
      have hu : u ∈ so' := hall u (edgeOf_src_lt hedge)
      obtain ⟨hv, hidx⟩ := hg'.2.2.2.2.2 u hu v hedge
      exact ⟨hidx, indexOf_reverse_lt hg'.2.2.2.1 hu hv hidx⟩
    · rw [hconv, hfold] at hok
      exact absurd hok (by simp)
  · intro hacyc
    rcases hmain with ⟨so', st', hfold, _⟩ | ⟨_, hcyc⟩
    · exact ⟨so', st', by rw [hconv, hfold]⟩
    · exact absurd hcyc hacyc



theorem noCycle_single_edge : ¬ ∃ c, Relation.TransGen (edgeOf [[1], []]) c c := by
  rintro ⟨c, hc⟩
  have key : ∀ a b, Relation.TransGen (edgeOf [[1], []]) a b → a = 0 ∧ b = 1 := by
    intro a b h
    induction h with
    | single h1 =>
      obtain ⟨l, hl, hv⟩ := h1
      rcases a with _ | a
      · rw [List.getElem?_cons_zero] at hl
        cases Option.some.inj hl
        exact ⟨rfl, List.mem_singleton.mp hv⟩
      · rcases a with _ | a
        · rw [List.getElem?_cons_succ, List.getElem?_cons_zero] at hl
          cases Option.some.inj hl
          exact absurd hv (List.not_mem_nil _)
        · rw [List.getElem?_cons_succ, List.getElem?_cons_succ] at hl
          simp at hl
    | tail hab hbc ih =>
      obtain ⟨l, hl, hv⟩ := hbc
      obtain ⟨ha, hb⟩ := ih
      subst hb
      rw [List.getElem?_cons_succ, List.getElem?_cons_zero] at hl
      cases Option.some.inj hl
      exact absurd hv (List.not_mem_nil _)
  obtain ⟨h0, h1⟩ := key c c hc
  omega

/-- C5 witness: the two-node acyclic graph with the single edge 0 to 1; the
sort succeeds and the returned order is duplicate-free. -/
theorem C5_topological_sort_cycles_witness :
    siWF [[1], []] ∧ sortAll [[1], []] 2 = .ok ([1, 0], [2, 2]) ∧
    ([1, 0] : List Nat).Nodup ∧
    (∃ so st, sortAll [[1], []] 2 = .ok (so, st)) :=
  ⟨by decide, by decide,
    ((C5_topological_sort_cycles [[1], []] (by decide)).2.1 [1, 0] [2, 2]
      (by decide)).1,
    (C5_topological_sort_cycles [[1], []] (by decide)).2.2
      noCycle_single_edge⟩

end CV

namespace CV

/-- Two stores with identical length, node types and wiring (they may differ
only in node states). -/
def sameShape (a b : List Node) : Prop :=
  a.length = b.length ∧
  ∀ i : Nat, (a[i]?).map Node.type = (b[i]?).map Node.type ∧
    (a[i]?).map Node.connections = (b[i]?).map Node.connections

theorem sameShape_refl (a : List Node) : sameShape a a := ⟨rfl, fun _ => ⟨rfl, rfl⟩⟩

theorem sameShape_trans {a b c : List Node} (h1 : sameShape a b)
    (h2 : sameShape b c) : sameShape a c :=
  ⟨h1.1.trans h2.1, fun i =>
    ⟨(h1.2 i).1.trans (h2.2 i).1, (h1.2 i).2.trans (h2.2 i).2⟩⟩

theorem setNodeState_shape {all : List Node} {i : Nat} {v : Option Nat}
    {all' : List Node} (h : setNodeState all i v = .ok all') :
    sameShape all all' := by
  unfold setNodeState at h
  split at h
  · rename_i nd hnd
    cases h
    refine ⟨by simp, ?_⟩
    intro k
    by_cases hk : i = k
    · subst hk
      have hi : i < all.length := by
        by_contra hc
        simp [List.getElem?_eq_none (le_of_not_lt hc)] at hnd
      rw [List.getElem?_set_eq hi, hnd]
      exact ⟨rfl, rfl⟩
    · rw [List.getElem?_set_ne hk]
      exact ⟨rfl, rfl⟩
  · cases h

/-- Node type lookup. -/
def typeA (all : List Node) (i : Nat) : Option Nat := (all[i]?).map Node.type

theorem sameShape_typeA {a b : List Node} (h : sameShape a b) (i : Nat) :
    typeA a i = typeA b i := (h.2 i).1

theorem fsVisit_shape {a b : List Node} (h : sameShape a b) :
    ∀ (f i : Nat) (succ : List Nat) (vis : List Bool),
      fsVisit f a i succ vis = fsVisit f b i succ vis := by
  intro f
  induction f with
  | zero => intro i succ vis; rfl
  | succ f ih =>
    have foldEq : ∀ (l : List Nat) (succ : List Nat) (vis : List Bool),
        (l.foldlM
          (fun (p : List Nat × List Bool) s => do
            let vb ← getBool p.2 s
            if vb then pure p
            else do
              let snd ← getNode a s
              let succ2 := if snd.type ≠ 1 then succAdd p.1 s else p.1
              fsVisit f a s succ2 p.2)
          (succ, vis)) =
        (l.foldlM
          (fun (p : List Nat × List Bool) s => do
            let vb ← getBool p.2 s
            if vb then pure p
            else do
              let snd ← getNode b s
              let succ2 := if snd.type ≠ 1 then succAdd p.1 s else p.1
              fsVisit f b s succ2 p.2)
          (succ, vis)) := by
      intro l
      induction l with
      | nil => intro succ vis; rfl
      | cons s rest ihl =>
        intro succ vis
        rw [List.foldlM_cons, List.foldlM_cons]
        cases hvb : getBool vis s with
        | error e => rfl
        | ok vb =>
          simp only [ok_bind]
          by_cases hb : vb
          · simp only [if_pos hb]
            cases hrec : (pure (succ, vis) : Py (List Nat × List Bool)) with
            | error e => rfl
            | ok q =>
              simp only [pure_eq_ok] at hrec
              cases hrec
              exact ihl succ vis
          · simp only [if_neg hb]
            have htypes := (h.2 s).1
            cases hna : a[s]? with
            | none =>
              have hnb : b[s]? = none := by
                rw [hna] at htypes
                cases hb2 : b[s]?
                · rfl
                · rw [hb2] at htypes
                  cases htypes
              rw [show getNode a s = .error .indexError from by
                    simp [getNode, hna],
                  show getNode b s = .error .indexError from by
                    simp [getNode, hnb]]
              rfl
            | some nda =>
              obtain ⟨ndb, hnb, htyeq⟩ : ∃ ndb, b[s]? = some ndb ∧
                  nda.type = ndb.type := by
                rw [hna] at htypes
                cases hb2 : b[s]? with
                | none => rw [hb2] at htypes; cases htypes
                | some ndb =>
                  rw [hb2] at htypes
                  exact ⟨ndb, rfl, Option.some.inj htypes⟩
              rw [getNode_of_some hna, getNode_of_some hnb]
              simp only [ok_bind]
              rw [htyeq, ih s _ vis]
              cases hrec : fsVisit f b s
                  (if ndb.type ≠ 1 then succAdd succ s else succ) vis with
              | error e => rfl
              | ok q =>
                simp only [ok_bind]
                exact ihl q.1 q.2
    intro i succ vis
    show fsVisit (f + 1) a i succ vis = fsVisit (f + 1) b i succ vis
    simp only [fsVisit]
    cases hsb : setBool vis i true with
    | error e => rfl
    | ok vis2 =>
      simp only [ok_bind]
      have htypes := (h.2 i).1
      have hconns := (h.2 i).2
      cases hna : a[i]? with
      | none =>
        have hnb : b[i]? = none := by
          rw [hna] at htypes
          cases hb2 : b[i]?
          · rfl
          · rw [hb2] at htypes
            cases htypes
        rw [getNode_of_none hna, getNode_of_none hnb]
        rfl
      | some nda =>
        obtain ⟨ndb, hnb, hceq⟩ : ∃ ndb, b[i]? = some ndb ∧
            nda.connections = ndb.connections := by
          rw [hna] at hconns
          cases hb2 : b[i]? with
          | none => rw [hb2] at hconns; cases hconns
          | some ndb =>
            rw [hb2] at hconns
            exact ⟨ndb, rfl, Option.some.inj hconns⟩
        rw [getNode_of_some hna, getNode_of_some hnb]
        simp only [ok_bind]
        rw [hceq]
        exact foldEq ndb.connections succ vis2

end CV

namespace CV

theorem find_successors_shape {a b : List Node} (h : sameShape a b) (i : Nat) :
    find_successors a i = find_successors b i := by
  unfold find_successors
  rw [h.1, fsVisit_shape h]

/-- The port indices an element's seeding and evaluation may write. -/
def roleOne (e : Element) (k : String) : List Nat :=
  match List.lookup k e.nodes with
  | some (.one i) => [i]
  | _ => []

/-- The list-valued port of an element under key `k`. -/
def roleMany (e : Element) (k : String) : List Nat :=
  match List.lookup k e.nodes with
  | some (.many l) => l
  | _ => []

/-- The output-role port indices of an element: exactly the node indices its
seeding (`initialize_node_states`) or its evaluator may write. -/
def outRoles (e : Element) : List Nat :=
  match e.objectType with
  | none => e.outputNodes
  | some t =>
    if t = "Demultiplexer" then roleMany e "output1"
    else if t = "SRflipFlop" ∨ t = "DflipFlop" then roleOne e "qOutput"
    else if t = "AndGate" ∨ t = "NandGate" ∨ t = "NorGate" ∨ t = "OrGate" ∨
        t = "XorGate" ∨ t = "NotGate" ∨ t = "Multiplexer" ∨ t = "TriState" ∨
        t = "Clock" ∨ t = "Ground" ∨ t = "Button" ∨ t = "Input" ∨ t = "Power"
      then roleOne e "output1"
    else []

/-- All port indices an element registers a back-reference for. -/
def regNodes (e : Element) : List Nat :=
  match e.objectType with
  | none => e.inputNodes ++ e.outputNodes
  | some _ => element_nodes e

/-- `x` is the signal input (`inputNodes[0]`) of some sub-circuit instance:
these are the nodes the relay backward rule may overwrite. -/
def subcircuitInput (els : List Element) (x : Nat) : Prop :=
  ∃ e ∈ els, e.objectType = none ∧ e.inputNodes[0]? = some x

/-- `x` is collected by `find_successors` run from `t` (false if the walk
fails). -/
def fsHas (nodes : List Node) (t x : Nat) : Bool :=
  match find_successors nodes t with
  | .ok l => x ∈ l
  | .error _ => false

/-- An element kind whose initialization writes a seed to its output. -/
def seedWrites (sn : ScopeNames) (e : Element) : Prop :=
  match e.objectType with
  | none => ∃ name, scopeName sn e.idStr = .ok name ∧ strIn "Normally" name = false
  | some t =>
    t = "Clock" ∨ t = "Ground" ∨ t = "Button" ∨ t = "Input" ∨ t = "Power" ∨
    t = "DflipFlop" ∨
    ((t = "NorGate" ∨ t = "NotGate") ∧
      (e.labelDirection = "UP" ∨ e.labelDirection = "DOWN"))

/-- At most one output pin drives any node: two distinct output pins never
collect a common node in their successor walks. -/
def oneDriver (nodes0 : List Node) : Bool :=
  (List.range nodes0.length).all (fun t =>
    (List.range nodes0.length).all (fun u =>
      !(decide (typeA nodes0 t = some 1)) ||
      !(decide (typeA nodes0 u = some 1)) ||
      decide (t = u) ||
      (List.range nodes0.length).all (fun x =>
        !(fsHas nodes0 t x) || !(fsHas nodes0 u x))))

/-- Whether a sub-circuit instance's scope name resolves and contains
"Normally" (the relay naming convention). -/
def relayNameNormally (sn : ScopeNames) (e : Element) : Bool :=
  match scopeName sn e.idStr with
  | .ok name => strIn "Normally" name
  | .error _ => false

/-- Wellformedness of a netlist, in the sense of the spec's data model: all
states initially Unknown, component ports typed as Sink-ports or
Source-ports (never junctions, which are plain unowned wire midpoints),
output ports typed as Source-ports (output pins), sub-circuit input ports
typed as Sink-ports (input pins), every output-typed port of an element
being one of its output roles, port indices in range, each node the output
of at most one element, demultiplexers with exactly two outputs, relay
instances with exactly one output, and at most one output pin per wire net
(stated through the successor walks: two distinct output pins never collect
a common successor). -/
structure WFNet (sn : ScopeNames) (els : List Element) (nodes0 : List Node) :
    Prop where
  states0 : ∀ nd ∈ nodes0, nd.state = none
  out_typed : ∀ e ∈ els, ∀ o ∈ outRoles e, typeA nodes0 o = some 1
  ports_kind : ∀ e ∈ els, ∀ p ∈ regNodes e,
    typeA nodes0 p = some 0 ∨ typeA nodes0 p = some 1
  sub_in : ∀ e ∈ els, e.objectType = none → ∀ p ∈ e.inputNodes,
    typeA nodes0 p = some 0
  ports_out : ∀ e ∈ els, ∀ p ∈ regNodes e, typeA nodes0 p = some 1 →
    p ∈ outRoles e
  ports_lt : ∀ e ∈ els, ∀ p ∈ regNodes e, p < nodes0.length
  uniq : ∀ e ∈ els, ∀ e' ∈ els, ∀ x ∈ outRoles e, x ∈ outRoles e' → e = e'
  demux_two : ∀ e ∈ els, e.objectType = some "Demultiplexer" →
    (roleMany e "output1").length = 2
  relay_one_out : ∀ e ∈ els, e.objectType = none →
    relayNameNormally sn e = true → e.outputNodes.length = 1
  one_driver : oneDriver nodes0 = true

theorem oneDriver_spec {nodes0 : List Node} (h : oneDriver nodes0 = true) :
    ∀ t : Nat, t < nodes0.length → ∀ u : Nat, u < nodes0.length →
    typeA nodes0 t = some 1 → typeA nodes0 u = some 1 → t ≠ u →
    ∀ x : Nat, x < nodes0.length → fsHas nodes0 t x = true →
    fsHas nodes0 u x = true → False := by
  intro t htl u hul htt htu hne x hxl hft hfu
  have h1 := List.all_eq_true.mp h t (List.mem_range.mpr htl)
  have h2 := List.all_eq_true.mp h1 u (List.mem_range.mpr hul)
  simp only [Bool.or_eq_true, Bool.not_eq_true', decide_eq_false_iff_not,
    decide_eq_true_eq] at h2
  rcases h2 with ((h2 | h2) | h2) | h2
  · exact h2 htt
  · exact h2 htu
  · exact hne h2
  · have h3 := List.all_eq_true.mp h2 x (List.mem_range.mpr hxl)
    rw [hft, hfu] at h3
    simp at h3

end CV

namespace CV

theorem setNodeState_stA {all : List Node} {i : Nat} {v : Option Nat}
    {all' : List Node} (h : setNodeState all i v = .ok all') (k : Nat) :
    stA all' k = if k = i then v else stA all k := by
  unfold setNodeState at h
  split at h
  · rename_i nd hnd
    cases h
    have hi : i < all.length := by
      by_contra hc
      simp [List.getElem?_eq_none (le_of_not_lt hc)] at hnd
    by_cases hk : k = i
    · subst hk
      rw [if_pos rfl]
      unfold stA
      rw [List.getElem?_set_eq hi]
    · rw [if_neg hk]
      unfold stA
      rw [List.getElem?_set_ne (fun hh => hk hh.symm)]
  · cases h

/-- The seed value an element's initialization writes to its outputs. -/
def initSeed (e : Element) : Option Nat :=
  match e.objectType with
  | none => some 0
  | some t =>
    if t = "Clock" ∨ t = "Ground" then some 0
    else if t = "Button" ∨ t = "Input" then e.valueState
    else if t = "Power" then some 1
    else if t = "DflipFlop" then some (if e.labelDirection = "UP" then 1 else 0)
    else if t = "NorGate" ∨ t = "NotGate" then
      (if e.labelDirection = "UP" then some 1
       else if e.labelDirection = "DOWN" then some 0 else none)
    else none

theorem setElem_spec {ebni : List (Option Element)} {i : Nat} {e : Element}
    {ebni' : List (Option Element)} (h : setElem ebni i e = .ok ebni') :
    ebni'.length = ebni.length ∧
    ∀ k oe, ebni'[k]? = some (some oe) →
      (k ≠ i ∧ ebni[k]? = some (some oe)) ∨ (k = i ∧ oe = e) := by
  unfold setElem at h
  split at h
  · rename_i hi
    cases h
    refine ⟨by simp, ?_⟩
    intro k oe hk
    by_cases hki : k = i
    · subst hki
      rw [List.getElem?_set_eq hi] at hk
      exact Or.inr ⟨rfl, (Option.some.inj (Option.some.inj hk)).symm⟩
    · rw [List.getElem?_set_ne (fun hh => hki hh.symm)] at hk
      exact Or.inl ⟨hki, hk⟩
  · cases h

theorem ebniFold_spec {e : Element} :
    ∀ (l : List Nat) (ebni ebni' : List (Option Element)),
      (l.foldlM (fun eb i => setElem eb i e) ebni) = .ok ebni' →
      ebni'.length = ebni.length ∧
      ∀ k oe, ebni'[k]? = some (some oe) →
        ebni[k]? = some (some oe) ∨ (oe = e ∧ k ∈ l) := by
  intro l
  induction l with
  | nil =>
    intro ebni ebni' h
    simp only [List.foldlM_nil, pure_eq_ok] at h
    cases h
    exact ⟨rfl, fun k oe hk => Or.inl hk⟩
  | cons i rest ihl =>
    intro ebni ebni' h
    rw [List.foldlM_cons] at h
    cases hst : setElem ebni i e with
    | error er => rw [hst] at h; exact absurd h (by simp)
    | ok eb2 =>
      rw [hst] at h
      simp only [ok_bind] at h
      obtain ⟨hlen2, hspec2⟩ := setElem_spec hst
      obtain ⟨hlen', hspec'⟩ := ihl eb2 ebni' h
      refine ⟨hlen'.trans hlen2, ?_⟩
      intro k oe hk
      rcases hspec' k oe hk with hk2 | ⟨hoe, hmem⟩
      · rcases hspec2 k oe hk2 with ⟨_, hk3⟩ | ⟨hki, hoe⟩
        · exact Or.inl hk3
        · exact Or.inr ⟨hoe, by simp [hki]⟩
      · exact Or.inr ⟨hoe, by simp [hmem]⟩

end CV

namespace CV

theorem getOne_roleOne {m : NodesMap} {k : String} {i : Nat}
    (h : getOne m k = .ok i) :
    (match List.lookup k m with
      | some (.one j) => [j]
      | _ => []) = [i] := by
  unfold getOne at h
  split at h <;> simp_all

theorem subOutFold_spec {e : Element} {name : String} :
    ∀ (l : List Nat) (all : List Node) (ebni : List (Option Element))
      (res : List Node × List (Option Element)),
      (l.foldlM
        (fun (p : List Node × List (Option Element)) o => do
          let eb2 ← setElem p.2 o e
          if strIn "Normally" name then pure (p.1, eb2)
          else do
            let ns ← setNodeState p.1 o (some 0)
            pure (ns, eb2))
        (all, ebni)) = .ok res →
      sameShape all res.1
      ∧ res.2.length = ebni.length
      ∧ (∀ k oe, res.2[k]? = some (some oe) →
          ebni[k]? = some (some oe) ∨ (oe = e ∧ k ∈ l))
      ∧ (∀ x : Nat, stA res.1 x = stA all x ∨
          (x ∈ l ∧ strIn "Normally" name = false ∧ stA res.1 x = some 0))
      ∧ (strIn "Normally" name = false → ∀ o ∈ l, stA res.1 o = some 0) := by
  intro l
  induction l with
  | nil =>
    intro all ebni res h
    simp only [List.foldlM_nil, pure_eq_ok] at h
    cases h
    exact ⟨sameShape_refl _, rfl, fun k oe hk => Or.inl hk,
      fun x => Or.inl rfl, by simp⟩
  | cons o rest ihl =>
    intro all ebni res h
    rw [List.foldlM_cons] at h
    cases hse : setElem ebni o e with
    | error er => rw [hse] at h; exact absurd h (by simp)
    | ok eb2 =>
      rw [hse] at h
      simp only [ok_bind] at h
      obtain ⟨hlen2, hspec2⟩ := setElem_spec hse
      by_cases hb : strIn "Normally" name
      · rw [if_pos hb] at h
        simp only [pure_eq_ok, ok_bind] at h
        obtain ⟨hsh, hlen', hespec, hstspec, hdef⟩ := ihl all eb2 res h
        refine ⟨hsh, hlen'.trans hlen2, ?_, ?_, ?_⟩
        · intro k oe hk
          rcases hespec k oe hk with hk2 | ⟨hoe, hmem⟩
          · rcases hspec2 k oe hk2 with ⟨_, hk3⟩ | ⟨hki, hoe⟩
            · exact Or.inl hk3
            · exact Or.inr ⟨hoe, by simp [hki]⟩
          · exact Or.inr ⟨hoe, by simp [hmem]⟩
        · intro x
          rcases hstspec x with hx | ⟨hm, hf, hv⟩
          · exact Or.inl hx
          · exact absurd hb (by simp [hf])
        · intro hf
          exact absurd hb (by simp [hf])
      · rw [if_neg hb] at h
        cases hsn : setNodeState all o (some 0) with
        | error er => rw [hsn] at h; exact absurd h (by simp)
        | ok ns =>
          rw [hsn] at h
          simp only [ok_bind, pure_eq_ok] at h
          obtain ⟨hsh, hlen', hespec, hstspec, hdef⟩ := ihl ns eb2 res h
          have hbf : strIn "Normally" name = false := by
            simpa using hb
          refine ⟨sameShape_trans (setNodeState_shape hsn) hsh,
            hlen'.trans hlen2, ?_, ?_, ?_⟩
          · intro k oe hk
            rcases hespec k oe hk with hk2 | ⟨hoe, hmem⟩
            · rcases hspec2 k oe hk2 with ⟨_, hk3⟩ | ⟨hki, hoe⟩
              · exact Or.inl hk3
              · exact Or.inr ⟨hoe, by simp [hki]⟩
            · exact Or.inr ⟨hoe, by simp [hmem]⟩
          · intro x
            rcases hstspec x with hx | ⟨hm, _, hv⟩
            · rw [hx, setNodeState_stA hsn x]
              by_cases hxo : x = o
              · exact Or.inr ⟨by simp [hxo], hbf, by simp [hxo]⟩
              · exact Or.inl (by simp [hxo])
            · exact Or.inr ⟨by simp [hm], hbf, hv⟩
          · intro _ p hp
            rcases List.mem_cons.mp hp with hp | hp
            · subst hp
              rcases hstspec p with hx | ⟨_, _, hv⟩
              · rw [hx, setNodeState_stA hsn p, if_pos rfl]
              · exact hv
            · exact hdef hbf p hp

end CV

namespace CV

theorem getOne_mem_roleOne {e : Element} {k : String} {i : Nat}
    (h : getOne e.nodes k = .ok i) : i ∈ roleOne e k := by
  unfold getOne at h
  unfold roleOne
  cases hl : List.lookup k e.nodes with
  | none => rw [hl] at h; cases h
  | some pv =>
    rw [hl] at h
    cases pv with
    | one j => cases h; simp
    | many l => cases h

theorem getMany_roleMany {e : Element} {k : String} {l : List Nat}
    (h : getMany e.nodes k = .ok l) : roleMany e k = l := by
  unfold getMany at h
  unfold roleMany
  cases hl : List.lookup k e.nodes with
  | none => rw [hl] at h; cases h
  | some pv =>
    rw [hl] at h
    cases pv with
    | one j => cases h
    | many l' => cases h; rfl

theorem init_none_eq (sn : ScopeNames) (e : Element) (all : List Node)
    (ebni : List (Option Element)) (hot : e.objectType = none) :
    init_node_states sn e all ebni = (do
      let name ← scopeName sn e.idStr
      let ebni ← e.inputNodes.foldlM (fun eb i => setElem eb i e) ebni
      e.outputNodes.foldlM
        (fun (p : List Node × List (Option Element)) o => do
          let eb2 ← setElem p.2 o e
          if strIn "Normally" name then
            pure (p.1, eb2)
          else do
            let ns ← setNodeState p.1 o (some 0)
            pure (ns, eb2))
        (all, ebni)) := by
  unfold init_node_states
  rw [hot]

theorem init_some_eq (sn : ScopeNames) (e : Element) (all : List Node)
    (ebni : List (Option Element)) (t : String) (hot : e.objectType = some t) :
    init_node_states sn e all ebni = (do
      let ebni ← (element_nodes e).foldlM (fun eb i => setElem eb i e) ebni
      if t = "Clock" ∨ t = "Ground" then do
        let o ← getOne e.nodes "output1"
        let all ← setNodeState all o (some 0)
        pure (all, ebni)
      else if t = "Button" ∨ t = "Input" then do
        match e.valueState with
        | none => throw .keyError
        | some v => do
          let o ← getOne e.nodes "output1"
          let all ← setNodeState all o (some v)
          pure (all, ebni)
      else if t = "Power" then do
        let o ← getOne e.nodes "output1"
        let all ← setNodeState all o (some 1)
        pure (all, ebni)
      else if t = "DflipFlop" then do
        let o ← getOne e.nodes "qOutput"
        let all ← setNodeState all o (some (if e.labelDirection = "UP" then 1 else 0))
        pure (all, ebni)
      else if t = "NorGate" ∨ t = "NotGate" then
        if e.labelDirection = "UP" then do
          let o ← getOne e.nodes "output1"
          let all ← setNodeState all o (some 1)
          pure (all, ebni)
        else if e.labelDirection = "DOWN" then do
          let o ← getOne e.nodes "output1"
          let all ← setNodeState all o (some 0)
          pure (all, ebni)
        else
          pure (all, ebni)
      else
        pure (all, ebni)) := by
  unfold init_node_states
  rw [hot]

theorem seedOne_spec {e : Element} {key : String} {sv : Option Nat}
    {all : List Node} {eb : List (Option Element)}
    {res : List Node × List (Option Element)}
    (h : (do
        let o ← getOne e.nodes key
        let all2 ← setNodeState all o sv
        pure (all2, eb) : Py (List Node × List (Option Element))) = .ok res)
    (hrole : roleOne e key ⊆ outRoles e) (hsv : sv ≠ none) :
    sameShape all res.1 ∧ res.2 = eb ∧
    ∀ x : Nat, stA res.1 x = stA all x ∨
      (x ∈ outRoles e ∧ stA res.1 x ≠ none) := by
  cases hg : getOne e.nodes key with
  | error er => rw [hg] at h; exact absurd h (by simp)
  | ok o =>
    rw [hg] at h
    simp only [ok_bind] at h
    cases hs : setNodeState all o sv with
    | error er => rw [hs] at h; exact absurd h (by simp)
    | ok all2 =>
      rw [hs] at h
      simp only [ok_bind, pure_eq_ok] at h
      cases h
      refine ⟨setNodeState_shape hs, rfl, ?_⟩
      intro x
      rw [setNodeState_stA hs x]
      by_cases hx : x = o
      · subst hx
        rw [if_pos rfl]
        exact Or.inr ⟨hrole (getOne_mem_roleOne hg), hsv⟩
      · rw [if_neg hx]
        exact Or.inl rfl

end CV

namespace CV

theorem init_step_spec {sn : ScopeNames} {e : Element} {all : List Node}
    {ebni : List (Option Element)} {res : List Node × List (Option Element)}
    (h : init_node_states sn e all ebni = .ok res) :
    sameShape all res.1
    ∧ res.2.length = ebni.length
    ∧ (∀ k oe, res.2[k]? = some (some oe) →
        ebni[k]? = some (some oe) ∨ (oe = e ∧ k ∈ regNodes e))
    ∧ (∀ x : Nat, stA res.1 x = stA all x ∨
        (x ∈ outRoles e ∧ seedWrites sn e ∧ stA res.1 x ≠ none))
    ∧ (e.objectType = none → ∀ name, scopeName sn e.idStr = .ok name →
        strIn "Normally" name = false → ∀ o ∈ e.outputNodes, stA res.1 o ≠ none) := by
  cases hot : e.objectType with
  | none =>
    rw [init_none_eq sn e all ebni hot] at h
    cases hname : scopeName sn e.idStr with
    | error er => rw [hname] at h; exact absurd h (by simp)
    | ok name =>
      rw [hname] at h
      simp only [ok_bind] at h
      cases hif : e.inputNodes.foldlM (fun eb i => setElem eb i e) ebni with
      | error er => rw [hif] at h; exact absurd h (by simp)
      | ok eb2 =>
        rw [hif] at h
        simp only [ok_bind] at h
        obtain ⟨hlen1, hspec1⟩ := ebniFold_spec e.inputNodes ebni eb2 hif
        obtain ⟨hsh, hlen2, hespec, hstspec, hdef⟩ :=
          subOutFold_spec e.outputNodes all eb2 res h
        have hreg : regNodes e = e.inputNodes ++ e.outputNodes := by
          simp [regNodes, hot]
        have hout : outRoles e = e.outputNodes := by
          simp [outRoles, hot]
        refine ⟨hsh, hlen2.trans hlen1, ?_, ?_, ?_⟩
        · intro k oe hk
          rcases hespec k oe hk with hk2 | ⟨hoe, hmem⟩
          · rcases hspec1 k oe hk2 with hk3 | ⟨hoe, hmem⟩
            · exact Or.inl hk3
            · exact Or.inr ⟨hoe, by simp [hreg, hmem]⟩
          · exact Or.inr ⟨hoe, by simp [hreg, hmem]⟩
        · intro x
          rcases hstspec x with hx | ⟨hm, hf, hv⟩
          · exact Or.inl hx
          · refine Or.inr ⟨hout ▸ hm, ?_, by simp [hv]⟩
            simp only [seedWrites, hot]
            exact ⟨name, hname, hf⟩
        · intro _ name' hname' hf' o ho
          have hne : name' = name := (Except.ok.inj hname').symm
          subst hne
          rw [hdef hf' o ho]
          simp
  | some t =>
    rw [init_some_eq sn e all ebni t hot] at h
    cases hif : (element_nodes e).foldlM (fun eb i => setElem eb i e) ebni with
    | error er => rw [hif] at h; exact absurd h (by simp)
    | ok eb2 =>
      rw [hif] at h
      simp only [ok_bind] at h
      obtain ⟨hlen1, hspec1⟩ := ebniFold_spec (element_nodes e) ebni eb2 hif
      have hreg : regNodes e = element_nodes e := by
        simp [regNodes, hot]
      have hvac : (some t : Option String) = none →
          ∀ name, scopeName sn e.idStr = .ok name →
          strIn "Normally" name = false → ∀ o ∈ e.outputNodes,
            stA res.1 o ≠ none := fun h0 => absurd h0 (by simp)
      have hebres : ∀ (heq : res.2 = eb2),
          res.2.length = ebni.length ∧
          ∀ k oe, res.2[k]? = some (some oe) →
            ebni[k]? = some (some oe) ∨ (oe = e ∧ k ∈ regNodes e) := by
        intro heq
        rw [heq]
        refine ⟨hlen1, ?_⟩
        intro k oe hk
        rcases hspec1 k oe hk with hk2 | ⟨hoe, hmem⟩
        · exact Or.inl hk2
        · exact Or.inr ⟨hoe, hreg ▸ hmem⟩
      by_cases h1 : t = "Clock" ∨ t = "Ground"
      · rw [if_pos h1] at h
        obtain ⟨hsh, heq, hst⟩ := seedOne_spec h
          (by rcases h1 with h1 | h1 <;> subst h1 <;> simp [outRoles, hot])
          (by simp)
        have hseed : seedWrites sn e := by
          simp only [seedWrites, hot]
          rcases h1 with h1 | h1 <;> subst h1 <;> simp
        exact ⟨hsh, (hebres heq).1, (hebres heq).2,
          fun x => (hst x).imp id (fun hp => ⟨hp.1, hseed, hp.2⟩), hvac⟩
      · rw [if_neg h1] at h
        by_cases h2 : t = "Button" ∨ t = "Input"
        · rw [if_pos h2] at h
          cases hv : e.valueState with
          | none =>
            rw [hv] at h
            exact absurd h (by simp)
          | some v =>
            rw [hv] at h
            replace h : (do
                let o ← getOne e.nodes "output1"
                let all2 ← setNodeState all o (some v)
                pure (all2, eb2) : Py (List Node × List (Option Element))) =
                .ok res := h
            obtain ⟨hsh, heq, hst⟩ := seedOne_spec h
              (by rcases h2 with h2 | h2 <;> subst h2 <;> simp [outRoles, hot])
              (by simp)
            have hseed : seedWrites sn e := by
              simp only [seedWrites, hot]
              rcases h2 with h2 | h2 <;> subst h2 <;> simp
            exact ⟨hsh, (hebres heq).1, (hebres heq).2,
              fun x => (hst x).imp id (fun hp => ⟨hp.1, hseed, hp.2⟩), hvac⟩
        · rw [if_neg h2] at h
          by_cases h3 : t = "Power"
          · rw [if_pos h3] at h
            obtain ⟨hsh, heq, hst⟩ := seedOne_spec h
              (by subst h3; simp [outRoles, hot]) (by simp)
            have hseed : seedWrites sn e := by
              simp only [seedWrites, hot]
              subst h3
              simp
            exact ⟨hsh, (hebres heq).1, (hebres heq).2,
              fun x => (hst x).imp id (fun hp => ⟨hp.1, hseed, hp.2⟩), hvac⟩
          · rw [if_neg h3] at h
            by_cases h4 : t = "DflipFlop"
            · rw [if_pos h4] at h
              obtain ⟨hsh, heq, hst⟩ := seedOne_spec h
                (by subst h4; simp [outRoles, hot]) (by simp)
              have hseed : seedWrites sn e := by
                simp only [seedWrites, hot]
                subst h4
                simp
              exact ⟨hsh, (hebres heq).1, (hebres heq).2,
                fun x => (hst x).imp id (fun hp => ⟨hp.1, hseed, hp.2⟩), hvac⟩
            · rw [if_neg h4] at h
              by_cases h5 : t = "NorGate" ∨ t = "NotGate"
              · rw [if_pos h5] at h
                by_cases hd1 : e.labelDirection = "UP"
                · rw [if_pos hd1] at h
                  obtain ⟨hsh, heq, hst⟩ := seedOne_spec h
                    (by rcases h5 with h5 | h5 <;> subst h5 <;>
                      simp [outRoles, hot]) (by simp)
                  have hseed : seedWrites sn e := by
                    simp only [seedWrites, hot]
                    rcases h5 with h5 | h5 <;> subst h5 <;> simp [hd1]
                  exact ⟨hsh, (hebres heq).1, (hebres heq).2,
                    fun x => (hst x).imp id (fun hp => ⟨hp.1, hseed, hp.2⟩), hvac⟩
                · rw [if_neg hd1] at h
                  by_cases hd2 : e.labelDirection = "DOWN"
                  · rw [if_pos hd2] at h
                    obtain ⟨hsh, heq, hst⟩ := seedOne_spec h
                      (by rcases h5 with h5 | h5 <;> subst h5 <;>
                        simp [outRoles, hot]) (by simp)
                    have hseed : seedWrites sn e := by
                      simp only [seedWrites, hot]
                      rcases h5 with h5 | h5 <;> subst h5 <;> simp [hd2]
                    exact ⟨hsh, (hebres heq).1, (hebres heq).2,
                      fun x => (hst x).imp id (fun hp => ⟨hp.1, hseed, hp.2⟩), hvac⟩
                  · rw [if_neg hd2] at h
                    simp only [pure_eq_ok] at h
                    cases h
                    exact ⟨sameShape_refl _, (hebres rfl).1, (hebres rfl).2,
                      fun x => Or.inl rfl, hvac⟩
              · rw [if_neg h5] at h
                simp only [pure_eq_ok] at h
                cases h
                exact ⟨sameShape_refl _, (hebres rfl).1, (hebres rfl).2,
                  fun x => Or.inl rfl, hvac⟩

end CV

namespace CV

theorem initFold_spec {sn : ScopeNames} :
    ∀ (l : List Element) (all : List Node) (eb : List (Option Element))
      (res : List Node × List (Option Element)),
      (l.foldlM (fun p e => init_node_states sn e p.1 p.2) (all, eb)) = .ok res →
      sameShape all res.1
      ∧ res.2.length = eb.length
      ∧ (∀ k oe, res.2[k]? = some (some oe) →
          eb[k]? = some (some oe) ∨ (oe ∈ l ∧ k ∈ regNodes oe))
      ∧ (∀ x : Nat, stA res.1 x = stA all x ∨
          (∃ e ∈ l, x ∈ outRoles e ∧ seedWrites sn e ∧ stA res.1 x ≠ none))
      ∧ (∀ e ∈ l, e.objectType = none → ∀ name, scopeName sn e.idStr = .ok name →
          strIn "Normally" name = false → ∀ o ∈ e.outputNodes,
            stA res.1 o ≠ none) := by
  intro l
  induction l with
  | nil =>
    intro all eb res h
    simp only [List.foldlM_nil, pure_eq_ok] at h
    cases h
    exact ⟨sameShape_refl _, rfl, fun k oe hk => Or.inl hk,
      fun x => Or.inl rfl, by simp⟩
  | cons e rest ihl =>
    intro all eb res h
    rw [List.foldlM_cons] at h
    cases hst : init_node_states sn e all eb with
    | error er => rw [hst] at h; exact absurd h (by simp)
    | ok mid =>
      rw [hst] at h
      simp only [ok_bind] at h
      obtain ⟨hsh1, hlen1, hesp1, hstA1, hns1⟩ := init_step_spec hst
      obtain ⟨hsh2, hlen2, hesp2, hstA2, hns2⟩ := ihl mid.1 mid.2 res h
      refine ⟨sameShape_trans hsh1 hsh2, hlen2.trans hlen1, ?_, ?_, ?_⟩
      · intro k oe hk
        rcases hesp2 k oe hk with hk2 | ⟨hoe, hmem⟩
        · rcases hesp1 k oe hk2 with hk3 | ⟨hoe, hmem⟩
          · exact Or.inl hk3
          · exact Or.inr ⟨by simp [hoe], hoe ▸ hmem⟩
        · exact Or.inr ⟨by simp [hoe], hmem⟩
      · intro x
        rcases hstA2 x with hx | ⟨e', he', hm, hs, hn⟩
        · rcases hstA1 x with hx2 | ⟨hm, hs, hn⟩
          · exact Or.inl (hx.trans hx2)
          · exact Or.inr ⟨e, by simp, hm, hs, hx ▸ hn⟩
        · exact Or.inr ⟨e', by simp [he'], hm, hs, hn⟩
      · intro e' he' hobj name hname hf o ho
        rcases List.mem_cons.mp he' with he' | he'
        · subst he'
          have hmid := hns1 hobj name hname hf o ho
          rcases hstA2 o with hx | ⟨_, _, _, _, hn⟩
          · rw [hx]
            exact hmid
          · exact hn
        · exact hns2 e' he' hobj name hname hf o ho

theorem init_all_spec {sn : ScopeNames} {els : List Element} {nodes0 : List Node}
    {a0 : List Node} {ebni : List (Option Element)}
    (h : init_all sn els nodes0 = .ok (a0, ebni)) :
    sameShape nodes0 a0
    ∧ ebni.length = nodes0.length
    ∧ (∀ i : Nat, ∀ e : Element, ebni[i]? = some (some e) →
        e ∈ els ∧ i ∈ regNodes e)
    ∧ (∀ x : Nat, stA a0 x = stA nodes0 x ∨
        (∃ e ∈ els, x ∈ outRoles e ∧ seedWrites sn e ∧ stA a0 x ≠ none))
    ∧ (∀ e ∈ els, e.objectType = none → ∀ name, scopeName sn e.idStr = .ok name →
        strIn "Normally" name = false → ∀ o ∈ e.outputNodes,
          stA a0 o ≠ none) := by
  unfold init_all at h
  obtain ⟨hsh, hlen, hesp, hstA, hns⟩ :=
    initFold_spec els nodes0 (List.replicate nodes0.length none) (a0, ebni) h
  refine ⟨hsh, by simpa using hlen, ?_, hstA, hns⟩
  intro i e hi
  rcases hesp i e hi with hk | ⟨hmem, hreg⟩
  · by_cases hlt : i < nodes0.length
    · rw [List.getElem?_replicate_of_lt hlt] at hk
      cases Option.some.inj hk
    · rw [List.getElem?_eq_none (by simpa using le_of_not_lt hlt)] at hk
      cases hk
  · exact ⟨hmem, hreg⟩

end CV

namespace CV

theorem mapM_ok_spec {α β : Type} (f : α → Py β) :
    ∀ (l : List α) (out : List β), l.mapM f = .ok out →
      out.length = l.length ∧
      ∀ (k : Nat) (x : α), l[k]? = some x →
        ∃ y, out[k]? = some y ∧ f x = .ok y := by
  intro l
  induction l with
  | nil =>
    intro out h
    simp only [List.mapM_nil, pure_eq_ok] at h
    cases h
    exact ⟨rfl, by simp⟩
  | cons a rest ihl =>
    intro out h
    rw [List.mapM_cons] at h
    cases hf : f a with
    | error er => rw [hf] at h; exact absurd h (by simp)
    | ok y =>
      rw [hf] at h
      simp only [ok_bind] at h
      cases hrest : rest.mapM f with
      | error er => rw [hrest] at h; exact absurd h (by simp)
      | ok ys =>
        rw [hrest] at h
        simp only [ok_bind, pure_eq_ok] at h
        cases h
        obtain ⟨hlen, hspec⟩ := ihl ys hrest
        refine ⟨by simp [hlen], ?_⟩
        intro k x hk
        cases k with
        | zero =>
          simp only [List.getElem?_cons_zero] at hk ⊢
          cases Option.some.inj hk
          exact ⟨y, rfl, hf⟩
        | succ k =>
          simp only [List.getElem?_cons_succ] at hk ⊢
          exact hspec k x hk

theorem buildSuccessors_spec {sn : ScopeNames} {nodes : List Node}
    {ebni : List (Option Element)} {si : List (List Nat)}
    (h : buildSuccessors sn nodes ebni = .ok si) :
    si.length = nodes.length ∧
    ∀ i : Nat, i < nodes.length → ∃ l, si[i]? = some l ∧
      successors_for sn nodes ebni i = .ok l := by
  unfold buildSuccessors at h
  obtain ⟨hlen, hspec⟩ := mapM_ok_spec _ _ _ h
  refine ⟨by simpa using hlen, ?_⟩
  intro i hi
  obtain ⟨y, hy, hfy⟩ := hspec i i (List.getElem?_range hi)
  exact ⟨y, hy, hfy⟩

theorem si_find {sn : ScopeNames} {nodes : List Node}
    {ebni : List (Option Element)} {si : List (List Nat)}
    (h : buildSuccessors sn nodes ebni = .ok si)
    {i : Nat} {l : List Nat} (ht : typeA nodes i = some 1)
    (hl : si[i]? = some l) :
    find_successors nodes i = .ok l := by
  obtain ⟨nd, hnd, htype⟩ : ∃ nd, nodes[i]? = some nd ∧ nd.type = 1 := by
    unfold typeA at ht
    cases hnd : nodes[i]? with
    | none => rw [hnd] at ht; cases ht
    | some nd =>
      rw [hnd] at ht
      exact ⟨nd, rfl, Option.some.inj ht⟩
  have hi : i < nodes.length := by
    by_contra hc
    simp [List.getElem?_eq_none (le_of_not_lt hc)] at hnd
  obtain ⟨l', hl', hsf⟩ := (buildSuccessors_spec h).2 i hi
  rw [hl] at hl'
  cases Option.some.inj hl'
  unfold successors_for at hsf
  rw [getNode_of_some hnd] at hsf
  simp only [ok_bind, htype] at hsf
  simpa using hsf

end CV

namespace CV

theorem succAdd_mem {s : List Nat} {c x : Nat} :
    x ∈ succAdd s c ↔ x ∈ s ∨ x = c := by
  unfold succAdd
  by_cases hc : c ∈ s
  · rw [if_pos hc]
    constructor
    · exact Or.inl
    · rintro (hx | rfl)
      · exact hx
      · exact hc
  · rw [if_neg hc]
    simp

theorem getBool_ok {l : List Bool} {i : Nat} {b : Bool}
    (h : getBool l i = .ok b) : l[i]? = some b := by
  unfold getBool at h
  split at h <;> simp_all

theorem setBool_ok {l : List Bool} {i : Nat} {b : Bool} {l' : List Bool}
    (h : setBool l i b = .ok l') : i < l.length ∧ l' = l.set i b := by
  unfold setBool at h
  split at h
  · rename_i hi
    exact ⟨hi, (Except.ok.inj h).symm⟩
  · cases h

theorem fsVisit_spec :
    ∀ (f : Nat) (nodes : List Node) (i : Nat) (succ : List Nat)
      (vis : List Bool) (succ' : List Nat) (vis' : List Bool),
      fsVisit f nodes i succ vis = .ok (succ', vis') →
      vis'.length = vis.length
      ∧ (∀ j : Nat, vis[j]? = some true → vis'[j]? = some true)
      ∧ (∀ x, x ∈ succ → x ∈ succ')
      ∧ vis'[i]? = some true
      ∧ (∀ j : Nat, vis'[j]? = some true → vis[j]? = some true ∨
          ∃ nd, nodes[j]? = some nd ∧
            ∀ c ∈ nd.connections, vis'[c]? = some true)
      ∧ (∀ j : Nat, vis'[j]? = some true → vis[j]? = some true ∨ j = i ∨
          typeA nodes j = some 1 ∨ j ∈ succ')
      ∧ (∀ x, x ∈ succ' → x ∈ succ ∨
          (typeA nodes x ≠ some 1 ∧ x < nodes.length)) := by
  intro f
  induction f with
  | zero =>
    intro nodes i succ vis succ' vis' h
    cases h
  | succ f ih =>
    intro nodes i succ vis succ' vis' h
    have foldSpec : ∀ (nodes : List Node) (l : List Nat) (s0 : List Nat)
        (v0 : List Bool) (sf : List Nat) (vf : List Bool),
        (l.foldlM
          (fun (p : List Nat × List Bool) s => do
            let vb ← getBool p.2 s
            if vb then pure p
            else do
              let snd ← getNode nodes s
              let succ2 := if snd.type ≠ 1 then succAdd p.1 s else p.1
              fsVisit f nodes s succ2 p.2)
          (s0, v0)) = .ok (sf, vf) →
        vf.length = v0.length
        ∧ (∀ j : Nat, v0[j]? = some true → vf[j]? = some true)
        ∧ (∀ x, x ∈ s0 → x ∈ sf)
        ∧ (∀ c ∈ l, vf[c]? = some true)
        ∧ (∀ j : Nat, vf[j]? = some true → v0[j]? = some true ∨
            ∃ nd, nodes[j]? = some nd ∧
              ∀ c ∈ nd.connections, vf[c]? = some true)
        ∧ (∀ j : Nat, vf[j]? = some true → v0[j]? = some true ∨
            typeA nodes j = some 1 ∨ j ∈ sf)
        ∧ (∀ x, x ∈ sf → x ∈ s0 ∨
            (typeA nodes x ≠ some 1 ∧ x < nodes.length)) := by
      intro nodes l
      induction l with
      | nil =>
        intro s0 v0 sf vf h
        simp only [List.foldlM_nil, pure_eq_ok] at h
        cases h
        exact ⟨rfl, fun j hj => hj, fun x hx => hx, by simp,
          fun j hj => Or.inl hj, fun j hj => Or.inl hj,
          fun x hx => Or.inl hx⟩
      | cons s rest ihl =>
        intro s0 v0 sf vf h
        rw [List.foldlM_cons] at h
        cases hvb : getBool v0 s with
        | error er => rw [hvb] at h; exact absurd h (by simp)
        | ok vb =>
          rw [hvb] at h
          simp only [ok_bind] at h
          by_cases hb : vb
          · rw [if_pos hb] at h
            simp only [pure_eq_ok, ok_bind] at h
            obtain ⟨hlen, hmono, hsmono, hconns, hclos, hcoll, hsnd⟩ :=
              ihl s0 v0 sf vf h
            have hs0 : v0[s]? = some true := by
              rw [getBool_ok hvb, hb]
            refine ⟨hlen, hmono, hsmono, ?_, hclos, hcoll, hsnd⟩
            intro c hc
            rcases List.mem_cons.mp hc with hc | hc
            · subst hc
              exact hmono c hs0
            · exact hconns c hc
          · rw [if_neg hb] at h
            cases hgn : getNode nodes s with
            | error er => rw [hgn] at h; exact absurd h (by simp)
            | ok snd =>
              rw [hgn] at h
              simp only [ok_bind] at h
              cases hrec : fsVisit f nodes s
                  (if snd.type ≠ 1 then succAdd s0 s else s0) v0 with
              | error er => rw [hrec] at h; exact absurd h (by simp)
              | ok q =>
                obtain ⟨s1, v1⟩ := q
                rw [hrec] at h
                simp only [ok_bind] at h
                obtain ⟨clen, cmono, csmono, cmark, cclos, ccoll, csnd⟩ :=
                  ih nodes s _ v0 s1 v1 hrec
                obtain ⟨hlen, hmono, hsmono, hconns, hclos, hcoll, hsnd⟩ :=
                  ihl s1 v1 sf vf h
                have hslen : s < nodes.length := by
                  by_contra hc
                  unfold getNode at hgn
                  simp [List.getElem?_eq_none (le_of_not_lt hc)] at hgn
                have hnds : nodes[s]? = some snd := by
                  unfold getNode at hgn
                  cases hx : nodes[s]? with
                  | none => rw [hx] at hgn; cases hgn
                  | some nd0 => rw [hx] at hgn; cases hgn; rfl
                have hsub0 : ∀ x, x ∈ s0 →
                    x ∈ (if snd.type ≠ 1 then succAdd s0 s else s0) := by
                  intro x hx
                  by_cases ht : snd.type ≠ 1
                  · rw [if_pos ht]
                    exact succAdd_mem.mpr (Or.inl hx)
                  · rw [if_neg ht]
                    exact hx
                refine ⟨hlen.trans clen, fun j hj => hmono j (cmono j hj),
                  fun x hx => hsmono x (csmono x (hsub0 x hx)), ?_, ?_, ?_, ?_⟩
                · intro c hc
                  rcases List.mem_cons.mp hc with hc | hc
                  · subst hc
                    exact hmono c cmark
                  · exact hconns c hc
                · intro j hj
                  rcases hclos j hj with hj1 | hj1
                  · rcases cclos j hj1 with hj2 | ⟨nd, hnd, hcm⟩
                    · exact Or.inl hj2
                    · exact Or.inr ⟨nd, hnd, fun c hc => hmono c (hcm c hc)⟩
                  · exact Or.inr hj1
                · intro j hj
                  rcases hcoll j hj with hj1 | hj1 | hj1
                  · rcases ccoll j hj1 with hj2 | hj2 | hj2 | hj2
                    · exact Or.inl hj2
                    · subst hj2
                      by_cases ht : snd.type ≠ 1
                      · refine Or.inr (Or.inr (hsmono j (csmono j ?_)))
                        rw [if_pos ht]
                        exact succAdd_mem.mpr (Or.inr rfl)
                      · refine Or.inr (Or.inl ?_)
                        have ht1 : snd.type = 1 := by omega
                        unfold typeA
                        rw [hnds]
                        simp [ht1]
                    · exact Or.inr (Or.inl hj2)
                    · exact Or.inr (Or.inr (hsmono j hj2))
                  · exact Or.inr (Or.inl hj1)
                  · exact Or.inr (Or.inr hj1)
                · intro x hx
                  rcases hsnd x hx with hx1 | hx1
                  · rcases csnd x hx1 with hx2 | hx2
                    · by_cases ht : snd.type ≠ 1
                      · rw [if_pos ht] at hx2
                        rcases succAdd_mem.mp hx2 with hx3 | hx3
                        · exact Or.inl hx3
                        · subst hx3
                          refine Or.inr ⟨?_, hslen⟩
                          unfold typeA
                          rw [hnds]
                          intro hcon
                          apply ht
                          simpa using hcon
                      · rw [if_neg ht] at hx2
                        exact Or.inl hx2
                    · exact Or.inr hx2
                  · exact Or.inr hx1
    simp only [fsVisit] at h
    cases hsb : setBool vis i true with
    | error er => rw [hsb] at h; exact absurd h (by simp)
    | ok vis2 =>
      rw [hsb] at h
      simp only [ok_bind] at h
      cases hgn : getNode nodes i with
      | error er => rw [hgn] at h; exact absurd h (by simp)
      | ok nd =>
        rw [hgn] at h
        simp only [ok_bind] at h
        obtain ⟨hilen, hvis2⟩ := setBool_ok hsb
        subst hvis2
        obtain ⟨hlen, hmono, hsmono, hconns, hclos, hcoll, hsnd⟩ :=
          foldSpec nodes nd.connections succ (vis.set i true) succ' vis' h
        have hndi : nodes[i]? = some nd := by
          unfold getNode at hgn
          cases hx : nodes[i]? with
          | none => rw [hx] at hgn; cases hgn
          | some nd0 => rw [hx] at hgn; cases hgn; rfl
        have hset_of : ∀ j : Nat, (vis.set i true)[j]? = some true →
            vis[j]? = some true ∨ j = i := by
          intro j hj
          by_cases hji : j = i
          · exact Or.inr hji
          · rw [List.getElem?_set_ne (fun hh => hji hh.symm)] at hj
            exact Or.inl hj
        have hmark : (vis.set i true)[i]? = some true := by
          rw [List.getElem?_set_eq hilen]
        refine ⟨hlen.trans (by simp), ?_, hsmono, hmono i hmark, ?_, ?_, hsnd⟩
        · intro j hj
          apply hmono
          by_cases hji : j = i
          · subst hji
            exact hmark
          · rw [List.getElem?_set_ne (fun hh => hji hh.symm)]
            exact hj
        · intro j hj
          rcases hclos j hj with hj1 | hj1
          · rcases hset_of j hj1 with hj2 | hj2
            · exact Or.inl hj2
            · subst hj2
              exact Or.inr ⟨nd, hndi, hconns⟩
          · exact Or.inr hj1
        · intro j hj
          rcases hcoll j hj with hj1 | hj1
          · rcases hset_of j hj1 with hj2 | hj2
            · exact Or.inl hj2
            · exact Or.inr (Or.inl hj2)
          · exact Or.inr (Or.inr hj1)

end CV

namespace CV

theorem find_successors_sound {nodes : List Node} {s : Nat} {l : List Nat}
    (h : find_successors nodes s = .ok l) :
    ∀ x ∈ l, typeA nodes x ≠ some 1 ∧ x < nodes.length := by
  unfold find_successors at h
  cases hv : fsVisit (nodes.length + 1) nodes s []
      (List.replicate nodes.length false) with
  | error er => rw [hv] at h; exact absurd h (by simp)
  | ok p =>
    obtain ⟨l0, vis'⟩ := p
    rw [hv] at h
    simp only [ok_bind, pure_eq_ok] at h
    cases h
    obtain ⟨_, _, _, _, _, _, hsnd⟩ := fsVisit_spec _ _ _ _ _ _ _ hv
    intro x hx
    rcases hsnd x hx with hx1 | hx1
    · cases hx1
    · exact hx1

theorem fsHas_of_mem {nodes : List Node} {t x : Nat} {l : List Nat}
    (h : find_successors nodes t = .ok l) (hx : x ∈ l) :
    fsHas nodes t x = true := by
  unfold fsHas
  rw [h]
  exact decide_eq_true hx

theorem mem_of_fsHas {nodes : List Node} {t x : Nat} {l : List Nat}
    (h : find_successors nodes t = .ok l) (hx : fsHas nodes t x = true) :
    x ∈ l := by
  unfold fsHas at hx
  rw [h] at hx
  exact of_decide_eq_true hx

end CV


namespace CV

theorem bind_ok {α β : Type} {x : Py α} {f : α → Py β} {r : β}
    (h : (x >>= f) = .ok r) : ∃ a, x = .ok a ∧ f a = .ok r := by
  cases x with
  | error e => exact absurd h (by simp)
  | ok a => exact ⟨a, rfl, h⟩

theorem listIdx_ok {l : List Nat} {i v : Nat} (h : listIdx l i = .ok v) :
    l[i]? = some v := by
  unfold listIdx at h
  split at h <;> simp_all

theorem set_confine {all all' : List Node} {out : Nat} {v : Option Nat}
    (h : setNodeState all out v = .ok all') :
    ∀ x : Nat, stA all' x = stA all x ∨ x = out := by
  intro x
  rw [setNodeState_stA h x]
  by_cases hx : x = out
  · exact Or.inr hx
  · rw [if_neg hx]
    exact Or.inl rfl

theorem write_end {all all' : List Node} {out : Nat} {v : Option Nat} {c : Prop}
    [Decidable c]
    (h : (if c then setNodeState all out v else pure all) = .ok all') :
    sameShape all all' ∧ ∀ x : Nat, stA all' x = stA all x ∨ x = out := by
  by_cases hc : c
  · rw [if_pos hc] at h
    exact ⟨setNodeState_shape h, set_confine h⟩
  · rw [if_neg hc] at h
    simp only [pure_eq_ok] at h
    cases h
    exact ⟨sameShape_refl _, fun x => Or.inl rfl⟩

theorem and_confine {m : NodesMap} {all all' : List Node}
    (h : update_and_gate m all = .ok all') :
    sameShape all all' ∧ ∀ x : Nat, stA all' x = stA all x ∨
      ∃ o, getOne m "output1" = .ok o ∧ x = o := by
  unfold update_and_gate at h
  obtain ⟨inp, hgm, h⟩ := bind_ok h
  obtain ⟨a0, hl0, h⟩ := bind_ok h
  obtain ⟨i0, hr0, h⟩ := bind_ok h
  obtain ⟨a1, hl1, h⟩ := bind_ok h
  obtain ⟨i1, hr1, h⟩ := bind_ok h
  by_cases harity : inp.length ≠ 2
  · rw [if_pos harity] at h
    exact absurd h (by simp)
  · rw [if_neg harity] at h
    simp only [pure_eq_ok, ok_bind] at h
    obtain ⟨out, hout, h⟩ := bind_ok h
    obtain ⟨nd, hnd, h⟩ := bind_ok h
    obtain ⟨hsh, hcf⟩ := write_end h
    exact ⟨hsh, fun x => (hcf x).imp id (fun hx => ⟨out, hout, hx⟩)⟩

theorem nand_confine {m : NodesMap} {all all' : List Node}
    (h : update_nand_gate m all = .ok all') :
    sameShape all all' ∧ ∀ x : Nat, stA all' x = stA all x ∨
      ∃ o, getOne m "output1" = .ok o ∧ x = o := by
  unfold update_nand_gate at h
  obtain ⟨inp, hgm, h⟩ := bind_ok h
  obtain ⟨a0, hl0, h⟩ := bind_ok h
  obtain ⟨i0, hr0, h⟩ := bind_ok h
  obtain ⟨a1, hl1, h⟩ := bind_ok h
  obtain ⟨i1, hr1, h⟩ := bind_ok h
  by_cases harity : inp.length ≠ 2
  · rw [if_pos harity] at h
    exact absurd h (by simp)
  · rw [if_neg harity] at h
    simp only [pure_eq_ok, ok_bind] at h
    obtain ⟨out, hout, h⟩ := bind_ok h
    obtain ⟨nd, hnd, h⟩ := bind_ok h
    obtain ⟨hsh, hcf⟩ := write_end h
    exact ⟨hsh, fun x => (hcf x).imp id (fun hx => ⟨out, hout, hx⟩)⟩

theorem nor_confine {m : NodesMap} {all all' : List Node}
    (h : update_nor_gate m all = .ok all') :
    sameShape all all' ∧ ∀ x : Nat, stA all' x = stA all x ∨
      ∃ o, getOne m "output1" = .ok o ∧ x = o := by
  unfold update_nor_gate at h
  obtain ⟨inp, hgm, h⟩ := bind_ok h
  obtain ⟨a0, hl0, h⟩ := bind_ok h
  obtain ⟨i0, hr0, h⟩ := bind_ok h
  obtain ⟨a1, hl1, h⟩ := bind_ok h
  obtain ⟨i1, hr1, h⟩ := bind_ok h
  by_cases harity : inp.length ≠ 2
  · rw [if_pos harity] at h
    exact absurd h (by simp)
  · rw [if_neg harity] at h
    simp only [pure_eq_ok, ok_bind] at h
    obtain ⟨out, hout, h⟩ := bind_ok h
    obtain ⟨nd, hnd, h⟩ := bind_ok h
    obtain ⟨hsh, hcf⟩ := write_end h
    exact ⟨hsh, fun x => (hcf x).imp id (fun hx => ⟨out, hout, hx⟩)⟩

theorem xor_confine {m : NodesMap} {all all' : List Node}
    (h : update_xor_gate m all = .ok all') :
    sameShape all all' ∧ ∀ x : Nat, stA all' x = stA all x ∨
      ∃ o, getOne m "output1" = .ok o ∧ x = o := by
  unfold update_xor_gate at h
  obtain ⟨inp, hgm, h⟩ := bind_ok h
  obtain ⟨a0, hl0, h⟩ := bind_ok h
  obtain ⟨i0, hr0, h⟩ := bind_ok h
  obtain ⟨a1, hl1, h⟩ := bind_ok h
  obtain ⟨i1, hr1, h⟩ := bind_ok h
  by_cases harity : inp.length ≠ 2
  · rw [if_pos harity] at h
    exact absurd h (by simp)
  · rw [if_neg harity] at h
    simp only [pure_eq_ok, ok_bind] at h
    obtain ⟨out, hout, h⟩ := bind_ok h
    obtain ⟨nd, hnd, h⟩ := bind_ok h
    obtain ⟨hsh, hcf⟩ := write_end h
    exact ⟨hsh, fun x => (hcf x).imp id (fun hx => ⟨out, hout, hx⟩)⟩

theorem or_confine {m : NodesMap} {all all' : List Node}
    (h : update_or_gate m all = .ok all') :
    sameShape all all' ∧ ∀ x : Nat, stA all' x = stA all x ∨
      ∃ o, getOne m "output1" = .ok o ∧ x = o := by
  unfold update_or_gate at h
  obtain ⟨inp, hgm, h⟩ := bind_ok h
  obtain ⟨a0, hl0, h⟩ := bind_ok h
  obtain ⟨i0, hr0, h⟩ := bind_ok h
  obtain ⟨a1, hl1, h⟩ := bind_ok h
  obtain ⟨i1, hr1, h⟩ := bind_ok h
  by_cases h3 : inp.length = 3
  · rw [if_pos h3] at h
    obtain ⟨a2, hl2, h⟩ := bind_ok h
    obtain ⟨i2, hr2, h⟩ := bind_ok h
    obtain ⟨out, hout, h⟩ := bind_ok h
    obtain ⟨nd, hnd, h⟩ := bind_ok h
    obtain ⟨hsh, hcf⟩ := write_end h
    exact ⟨hsh, fun x => (hcf x).imp id (fun hx => ⟨out, hout, hx⟩)⟩
  · rw [if_neg h3] at h
    by_cases harity : inp.length ≠ 2
    · rw [if_pos harity] at h
      exact absurd h (by simp)
    · rw [if_neg harity] at h
      simp only [pure_eq_ok, ok_bind] at h
      obtain ⟨out, hout, h⟩ := bind_ok h
      obtain ⟨nd, hnd, h⟩ := bind_ok h
      obtain ⟨hsh, hcf⟩ := write_end h
      exact ⟨hsh, fun x => (hcf x).imp id (fun hx => ⟨out, hout, hx⟩)⟩

theorem not_confine {m : NodesMap} {all all' : List Node}
    (h : update_not_gate m all = .ok all') :
    sameShape all all' ∧ ∀ x : Nat, stA all' x = stA all x ∨
      ∃ o, getOne m "output1" = .ok o ∧ x = o := by
  unfold update_not_gate at h
  obtain ⟨a0, hl0, h⟩ := bind_ok h
  obtain ⟨i0, hr0, h⟩ := bind_ok h
  obtain ⟨out, hout, h⟩ := bind_ok h
  obtain ⟨nd, hnd, h⟩ := bind_ok h
  obtain ⟨hsh, hcf⟩ := write_end h
  exact ⟨hsh, fun x => (hcf x).imp id (fun hx => ⟨out, hout, hx⟩)⟩

theorem mux_confine {m : NodesMap} {all all' : List Node}
    (h : update_multiplexer m all = .ok all') :
    sameShape all all' ∧ ∀ x : Nat, stA all' x = stA all x ∨
      ∃ o, getOne m "output1" = .ok o ∧ x = o := by
  unfold update_multiplexer at h
  obtain ⟨inp, hgm, h⟩ := bind_ok h
  obtain ⟨a0, hl0, h⟩ := bind_ok h
  obtain ⟨i0, hr0, h⟩ := bind_ok h
  obtain ⟨a1, hl1, h⟩ := bind_ok h
  obtain ⟨i1, hr1, h⟩ := bind_ok h
  by_cases harity : inp.length ≠ 2
  · rw [if_pos harity] at h
    exact absurd h (by simp)
  · rw [if_neg harity] at h
    simp only [pure_eq_ok, ok_bind] at h
    obtain ⟨ac, hlc, h⟩ := bind_ok h
    obtain ⟨c, hrc, h⟩ := bind_ok h
    obtain ⟨out, hout, h⟩ := bind_ok h
    obtain ⟨nd, hnd, h⟩ := bind_ok h
    by_cases hc1 : c ≠ none
    · rw [if_pos hc1] at h
      by_cases hc2 : c = some 0 ∧ i0 ≠ none
      · rw [if_pos hc2] at h
        exact ⟨setNodeState_shape h,
          fun x => (set_confine h x).imp id (fun hx => ⟨out, hout, hx⟩)⟩
      · rw [if_neg hc2] at h
        obtain ⟨hsh, hcf⟩ := write_end h
        exact ⟨hsh, fun x => (hcf x).imp id (fun hx => ⟨out, hout, hx⟩)⟩
    · rw [if_neg hc1] at h
      cases h
      exact ⟨sameShape_refl _, fun x => Or.inl rfl⟩

theorem tristate_confine {m : NodesMap} {all all' : List Node}
    (h : update_tristate m all = .ok all') :
    sameShape all all' ∧ ∀ x : Nat, stA all' x = stA all x ∨
      ∃ o, getOne m "output1" = .ok o ∧ x = o := by
  unfold update_tristate at h
  obtain ⟨a0, hl0, h⟩ := bind_ok h
  obtain ⟨i0, hr0, h⟩ := bind_ok h
  obtain ⟨ac, hlc, h⟩ := bind_ok h
  obtain ⟨c, hrc, h⟩ := bind_ok h
  obtain ⟨out, hout, h⟩ := bind_ok h
  obtain ⟨nd, hnd, h⟩ := bind_ok h
  obtain ⟨hsh, hcf⟩ := write_end h
  exact ⟨hsh, fun x => (hcf x).imp id (fun hx => ⟨out, hout, hx⟩)⟩

theorem sr_confine {m : NodesMap} {all all' : List Node}
    (h : update_sr_flip_flop m all = .ok all') :
    sameShape all all' ∧ ∀ x : Nat, stA all' x = stA all x ∨
      ∃ o, getOne m "qOutput" = .ok o ∧ x = o := by
  unfold update_sr_flip_flop at h
  obtain ⟨a0, hl0, h⟩ := bind_ok h
  obtain ⟨i0, hr0, h⟩ := bind_ok h
  obtain ⟨out, hout, h⟩ := bind_ok h
  obtain ⟨nd, hnd, h⟩ := bind_ok h
  exact ⟨setNodeState_shape h,
    fun x => (set_confine h x).imp id (fun hx => ⟨out, hout, hx⟩)⟩

theorem demux_spec {m : NodesMap} {all all' : List Node}
    (h : update_demultiplexer m all = .ok all') :
    ∃ outl, getMany m "output1" = .ok outl ∧
    ∃ o0 o1, outl[0]? = some o0 ∧ outl[1]? = some o1 ∧
      (all' = all ∨
        (sameShape all all' ∧ stA all' o0 ≠ none ∧ stA all' o1 ≠ none ∧
          ∀ x : Nat, x ≠ o0 → x ≠ o1 → stA all' x = stA all x)) := by
  unfold update_demultiplexer at h
  obtain ⟨ai, hli, h⟩ := bind_ok h
  obtain ⟨i, hri, h⟩ := bind_ok h
  obtain ⟨ac, hlc, h⟩ := bind_ok h
  obtain ⟨c, hrc, h⟩ := bind_ok h
  obtain ⟨outl, houtl, h⟩ := bind_ok h
  obtain ⟨o0, ho0, h⟩ := bind_ok h
  obtain ⟨nd0, hnd0, h⟩ := bind_ok h
  obtain ⟨o1, ho1, h⟩ := bind_ok h
  obtain ⟨nd1, hnd1, h⟩ := bind_ok h
  refine ⟨outl, houtl, o0, o1, listIdx_ok ho0, listIdx_ok ho1, ?_⟩
  by_cases hic : i ≠ none ∧ c ≠ none
  · rw [if_pos hic] at h
    by_cases hc0 : c = some 0
    · rw [if_pos hc0] at h
      obtain ⟨all2, hs1, h⟩ := bind_ok h
      refine Or.inr ⟨sameShape_trans (setNodeState_shape hs1)
        (setNodeState_shape h), ?_, ?_, ?_⟩
      · rw [setNodeState_stA h o0]
        by_cases h01 : o0 = o1
        · rw [if_pos h01]
          simp
        · rw [if_neg h01, setNodeState_stA hs1 o0, if_pos rfl]
          exact hic.1
      · rw [setNodeState_stA h o1, if_pos rfl]
        simp
      · intro x hx0 hx1
        rw [setNodeState_stA h x, if_neg hx1, setNodeState_stA hs1 x,
          if_neg hx0]
    · rw [if_neg hc0] at h
      obtain ⟨all2, hs1, h⟩ := bind_ok h
      refine Or.inr ⟨sameShape_trans (setNodeState_shape hs1)
        (setNodeState_shape h), ?_, ?_, ?_⟩
      · rw [setNodeState_stA h o0]
        by_cases h01 : o0 = o1
        · rw [if_pos h01]
          exact hic.1
        · rw [if_neg h01, setNodeState_stA hs1 o0, if_pos rfl]
          simp
      · rw [setNodeState_stA h o1, if_pos rfl]
        exact hic.1
      · intro x hx0 hx1
        rw [setNodeState_stA h x, if_neg hx1, setNodeState_stA hs1 x,
          if_neg hx0]
  · rw [if_neg hic] at h
    cases h
    exact Or.inl rfl

theorem subcircuit_confine {sn : ScopeNames} {e : Element} {all all' : List Node}
    (h : update_subcircuit sn e all = .ok all') :
    sameShape all all' ∧
    ∀ x : Nat, stA all' x = stA all x ∨ x ∈ e.outputNodes := by
  unfold update_subcircuit at h
  obtain ⟨ai, hli, h⟩ := bind_ok h
  obtain ⟨i, hri, h⟩ := bind_ok h
  obtain ⟨ac, hlc, h⟩ := bind_ok h
  obtain ⟨c, hrc, h⟩ := bind_ok h
  obtain ⟨out, hout, h⟩ := bind_ok h
  obtain ⟨nd, hnd, h⟩ := bind_ok h
  obtain ⟨name, hname, h⟩ := bind_ok h
  have hmem : out ∈ e.outputNodes := List.getElem?_mem (listIdx_ok hout)
  by_cases hn : strIn "NormallyClosed" name
  · rw [if_pos hn] at h
    obtain ⟨hsh, hcf⟩ := write_end h
    exact ⟨hsh, fun x => (hcf x).imp id (fun hx : x = out => hx ▸ hmem)⟩
  · rw [if_neg hn] at h
    obtain ⟨hsh, hcf⟩ := write_end h
    exact ⟨hsh, fun x => (hcf x).imp id (fun hx : x = out => hx ▸ hmem)⟩

theorem update_element_confine {sn : ScopeNames} {e : Element}
    {all all' : List Node} (h : update_element sn e all = .ok all') :
    sameShape all all' ∧
    ∀ x : Nat, stA all' x = stA all x ∨ x ∈ outRoles e := by
  unfold update_element at h
  cases hot : e.objectType with
  | none =>
    rw [hot] at h
    replace h : update_subcircuit sn e all = .ok all' := h
    have hout : outRoles e = e.outputNodes := by simp [outRoles, hot]
    obtain ⟨hsh, hcf⟩ := subcircuit_confine h
    exact ⟨hsh, fun x => (hcf x).imp id (fun hm => hout ▸ hm)⟩
  | some t =>
    rw [hot] at h
    replace h : (if t = "AndGate" then update_and_gate e.nodes all
      else if t = "Demultiplexer" then update_demultiplexer e.nodes all
      else if t = "Multiplexer" then update_multiplexer e.nodes all
      else if t = "NandGate" then update_nand_gate e.nodes all
      else if t = "NorGate" then update_nor_gate e.nodes all
      else if t = "NotGate" then update_not_gate e.nodes all
      else if t = "OrGate" then update_or_gate e.nodes all
      else if t = "SRflipFlop" then update_sr_flip_flop e.nodes all
      else if t = "TriState" then update_tristate e.nodes all
      else if t = "XorGate" then update_xor_gate e.nodes all
      else pure all) = .ok all' := h
    by_cases h1 : t = "AndGate"
    · rw [if_pos h1] at h
      have hout : outRoles e = roleOne e "output1" := by
        subst h1; simp [outRoles, hot]
      obtain ⟨hsh, hcf⟩ := and_confine h
      refine ⟨hsh, fun x => (hcf x).imp id ?_⟩
      rintro ⟨o, ho, rfl⟩
      rw [hout]
      exact getOne_mem_roleOne ho
    · rw [if_neg h1] at h
      by_cases h2 : t = "Demultiplexer"
      · rw [if_pos h2] at h
        have hout : outRoles e = roleMany e "output1" := by
          subst h2; simp [outRoles, hot]
        obtain ⟨outl, houtl, o0, o1, ho0, ho1, hcase⟩ := demux_spec h
        rcases hcase with rfl | ⟨hsh, hn0, hn1, hother⟩
        · exact ⟨sameShape_refl _, fun x => Or.inl rfl⟩
        · refine ⟨hsh, ?_⟩
          intro x
          by_cases hx0 : x = o0
          · subst hx0
            rw [hout, getMany_roleMany houtl]
            exact Or.inr (List.getElem?_mem ho0)
          · by_cases hx1 : x = o1
            · subst hx1
              rw [hout, getMany_roleMany houtl]
              exact Or.inr (List.getElem?_mem ho1)
            · exact Or.inl (hother x hx0 hx1)
      · rw [if_neg h2] at h
        by_cases h3 : t = "Multiplexer"
        · rw [if_pos h3] at h
          have hout : outRoles e = roleOne e "output1" := by
            subst h3; simp [outRoles, hot]
          obtain ⟨hsh, hcf⟩ := mux_confine h
          refine ⟨hsh, fun x => (hcf x).imp id ?_⟩
          rintro ⟨o, ho, rfl⟩
          rw [hout]
          exact getOne_mem_roleOne ho
        · rw [if_neg h3] at h
          by_cases h4 : t = "NandGate"
          · rw [if_pos h4] at h
            have hout : outRoles e = roleOne e "output1" := by
              subst h4; simp [outRoles, hot]
            obtain ⟨hsh, hcf⟩ := nand_confine h
            refine ⟨hsh, fun x => (hcf x).imp id ?_⟩
            rintro ⟨o, ho, rfl⟩
            rw [hout]
            exact getOne_mem_roleOne ho
          · rw [if_neg h4] at h
            by_cases h5 : t = "NorGate"
            · rw [if_pos h5] at h
              have hout : outRoles e = roleOne e "output1" := by
                subst h5; simp [outRoles, hot]
              obtain ⟨hsh, hcf⟩ := nor_confine h
              refine ⟨hsh, fun x => (hcf x).imp id ?_⟩
              rintro ⟨o, ho, rfl⟩
              rw [hout]
              exact getOne_mem_roleOne ho
            · rw [if_neg h5] at h
              by_cases h6 : t = "NotGate"
              · rw [if_pos h6] at h
                have hout : outRoles e = roleOne e "output1" := by
                  subst h6; simp [outRoles, hot]
                obtain ⟨hsh, hcf⟩ := not_confine h
                refine ⟨hsh, fun x => (hcf x).imp id ?_⟩
                rintro ⟨o, ho, rfl⟩
                rw [hout]
                exact getOne_mem_roleOne ho
              · rw [if_neg h6] at h
                by_cases h7 : t = "OrGate"
                · rw [if_pos h7] at h
                  have hout : outRoles e = roleOne e "output1" := by
                    subst h7; simp [outRoles, hot]
                  obtain ⟨hsh, hcf⟩ := or_confine h
                  refine ⟨hsh, fun x => (hcf x).imp id ?_⟩
                  rintro ⟨o, ho, rfl⟩
                  rw [hout]
                  exact getOne_mem_roleOne ho
                · rw [if_neg h7] at h
                  by_cases h8 : t = "SRflipFlop"
                  · rw [if_pos h8] at h
                    have hout : outRoles e = roleOne e "qOutput" := by
                      subst h8; simp [outRoles, hot]
                    obtain ⟨hsh, hcf⟩ := sr_confine h
                    refine ⟨hsh, fun x => (hcf x).imp id ?_⟩
                    rintro ⟨o, ho, rfl⟩
                    rw [hout]
                    exact getOne_mem_roleOne ho
                  · rw [if_neg h8] at h
                    by_cases h9 : t = "TriState"
                    · rw [if_pos h9] at h
                      have hout : outRoles e = roleOne e "output1" := by
                        subst h9; simp [outRoles, hot]
                      obtain ⟨hsh, hcf⟩ := tristate_confine h
                      refine ⟨hsh, fun x => (hcf x).imp id ?_⟩
                      rintro ⟨o, ho, rfl⟩
                      rw [hout]
                      exact getOne_mem_roleOne ho
                    · rw [if_neg h9] at h
                      by_cases h10 : t = "XorGate"
                      · rw [if_pos h10] at h
                        have hout : outRoles e = roleOne e "output1" := by
                          subst h10; simp [outRoles, hot]
                        obtain ⟨hsh, hcf⟩ := xor_confine h
                        refine ⟨hsh, fun x => (hcf x).imp id ?_⟩
                        rintro ⟨o, ho, rfl⟩
                        rw [hout]
                        exact getOne_mem_roleOne ho
                      · rw [if_neg h10] at h
                        cases h
                        exact ⟨sameShape_refl _, fun x => Or.inl rfl⟩

end CV

namespace CV

/-- The two outputs of every demultiplexer are equally defined. -/
def DJ (els : List Element) (all : List Node) : Prop :=
  ∀ e ∈ els, e.objectType = some "Demultiplexer" →
    ∀ o ∈ outRoles e, ∀ o' ∈ outRoles e,
      stA all o = none → stA all o' = none

/-- The outputs of every non-relay sub-circuit instance stay defined (they are
seeded during initialization). -/
def NormSeeded (sn : ScopeNames) (els : List Element) (all : List Node) : Prop :=
  ∀ e ∈ els, e.objectType = none →
    ∀ name, scopeName sn e.idStr = .ok name → strIn "Normally" name = false →
      ∀ o ∈ e.outputNodes, stA all o ≠ none

/-- Every defined non-output-pin node carries the current state of an
output-pin node whose successor walk collects it. -/
def Ldrv (nodes0 : List Node) (all : List Node) : Prop :=
  ∀ x : Nat, x < nodes0.length → typeA nodes0 x ≠ some 1 → stA all x ≠ none →
    ∃ t : Nat, t < nodes0.length ∧ typeA nodes0 t = some 1 ∧
      fsHas nodes0 t x = true ∧ stA all x = stA all t

/-- The store invariant maintained by the first propagation pass. -/
def P1Inv (sn : ScopeNames) (els : List Element) (nodes0 : List Node)
    (all : List Node) : Prop :=
  sameShape nodes0 all ∧ DJ els all ∧ NormSeeded sn els all ∧ Ldrv nodes0 all

theorem flood_spec {v : Nat} :
    ∀ (l : List Nat) (all all' : List Node),
      (l.foldlM (fun a s => setNodeState a s (some v)) all) = .ok all' →
      sameShape all all'
      ∧ (∀ x : Nat, x ∉ l → stA all' x = stA all x)
      ∧ (∀ x ∈ l, stA all' x = some v) := by
  intro l
  induction l with
  | nil =>
    intro all all' h
    simp only [List.foldlM_nil, pure_eq_ok] at h
    cases h
    exact ⟨sameShape_refl _, fun x hx => rfl, by simp⟩
  | cons s rest ihl =>
    intro all all' h
    rw [List.foldlM_cons] at h
    obtain ⟨mid, hset, h⟩ := bind_ok h
    obtain ⟨hsh, hout, hin⟩ := ihl mid all' h
    refine ⟨sameShape_trans (setNodeState_shape hset) hsh, ?_, ?_⟩
    · intro x hx
      rw [hout x (fun hh => hx (by simp [hh])), setNodeState_stA hset x,
        if_neg (fun hh => hx (by simp [hh]))]
    · intro x hx
      rcases List.mem_cons.mp hx with hx | hx
      · subst hx
        by_cases hxr : x ∈ rest
        · exact hin x hxr
        · rw [hout x hxr, setNodeState_stA hset x, if_pos rfl]
      · exact hin x hx

theorem adoptFrom_spec {index : Nat} :
    ∀ (l : List Nat) (all all' : List Node),
      adoptFrom all index l = .ok all' →
      sameShape all all' ∧ ∀ x : Nat, x ≠ index → stA all' x = stA all x := by
  intro l
  induction l with
  | nil =>
    intro all all' h
    simp only [adoptFrom, pure_eq_ok] at h
    cases h
    exact ⟨sameShape_refl _, fun x hx => rfl⟩
  | cons c rest ihl =>
    intro all all' h
    simp only [adoptFrom] at h
    obtain ⟨st, hst, h⟩ := bind_ok h
    cases st with
    | some v =>
      replace h : setNodeState all index (some v) = .ok all' := h
      refine ⟨setNodeState_shape h, ?_⟩
      intro x hx
      rw [setNodeState_stA h x, if_neg hx]
    | none =>
      replace h : adoptFrom all index rest = .ok all' := h
      exact ihl all all' h

theorem maybe_update_confine {sn : ScopeNames} {e : Element}
    {all all' : List Node}
    (h : maybe_update_subcircuit_input sn e all = .ok all') :
    sameShape all all' ∧ ∃ inp, e.inputNodes[0]? = some inp ∧
      ∀ x : Nat, x ≠ inp → stA all' x = stA all x := by
  unfold maybe_update_subcircuit_input at h
  obtain ⟨inp, hinp, h⟩ := bind_ok h
  obtain ⟨nd, hnd, h⟩ := bind_ok h
  obtain ⟨ac, hlc, h⟩ := bind_ok h
  obtain ⟨c, hrc, h⟩ := bind_ok h
  obtain ⟨ao, hlo, h⟩ := bind_ok h
  obtain ⟨o, hro, h⟩ := bind_ok h
  obtain ⟨name, hname, h⟩ := bind_ok h
  by_cases hn : strIn "NormallyClosed" name
  · rw [if_pos hn] at h
    obtain ⟨hsh, hcf⟩ := write_end h
    refine ⟨hsh, inp, listIdx_ok hinp, ?_⟩
    intro x hx
    rcases hcf x with hc | hc
    · exact hc
    · exact absurd hc hx
  · rw [if_neg hn] at h
    obtain ⟨hsh, hcf⟩ := write_end h
    refine ⟨hsh, inp, listIdx_ok hinp, ?_⟩
    intro x hx
    rcases hcf x with hc | hc
    · exact hc
    · exact absurd hc hx

end CV

namespace CV

theorem getNode_ok {all : List Node} {i : Nat} {nd : Node}
    (h : getNode all i = .ok nd) : all[i]? = some nd := by
  unfold getNode at h
  split at h <;> simp_all

theorem typeA_lt {nodes : List Node} {i v : Nat} (h : typeA nodes i = some v) :
    i < nodes.length := by
  unfold typeA at h
  by_contra hc
  rw [List.getElem?_eq_none (le_of_not_lt hc)] at h
  cases h

theorem roleOne_mem_eq {e : Element} {k : String} {a b : Nat}
    (ha : a ∈ roleOne e k) (hb : b ∈ roleOne e k) : a = b := by
  unfold roleOne at ha hb
  cases hl : List.lookup k e.nodes with
  | none =>
    rw [hl] at ha
    cases ha
  | some pv =>
    rw [hl] at ha hb
    cases pv with
    | one j =>
      simp only [List.mem_singleton] at ha hb
      rw [ha, hb]
    | many l => cases ha

theorem outRoles_single {e : Element} {t : String}
    (hot : e.objectType = some t) (hne : t ≠ "Demultiplexer") :
    ∀ a ∈ outRoles e, ∀ b ∈ outRoles e, a = b := by
  intro a ha b hb
  unfold outRoles at ha hb
  rw [hot] at ha hb
  replace ha : a ∈ (if t = "Demultiplexer" then roleMany e "output1"
    else if t = "SRflipFlop" ∨ t = "DflipFlop" then roleOne e "qOutput"
    else if t = "AndGate" ∨ t = "NandGate" ∨ t = "NorGate" ∨
        t = "OrGate" ∨ t = "XorGate" ∨ t = "NotGate" ∨ t = "Multiplexer" ∨
        t = "TriState" ∨ t = "Clock" ∨ t = "Ground" ∨ t = "Button" ∨
        t = "Input" ∨ t = "Power" then roleOne e "output1"
    else []) := ha
  replace hb : b ∈ (if t = "Demultiplexer" then roleMany e "output1"
    else if t = "SRflipFlop" ∨ t = "DflipFlop" then roleOne e "qOutput"
    else if t = "AndGate" ∨ t = "NandGate" ∨ t = "NorGate" ∨
        t = "OrGate" ∨ t = "XorGate" ∨ t = "NotGate" ∨ t = "Multiplexer" ∨
        t = "TriState" ∨ t = "Clock" ∨ t = "Ground" ∨ t = "Button" ∨
        t = "Input" ∨ t = "Power" then roleOne e "output1"
    else []) := hb
  rw [if_neg hne] at ha hb
  by_cases h1 : t = "SRflipFlop" ∨ t = "DflipFlop"
  · rw [if_pos h1] at ha hb
    exact roleOne_mem_eq ha hb
  · rw [if_neg h1] at ha hb
    by_cases h2 : t = "AndGate" ∨ t = "NandGate" ∨ t = "NorGate" ∨
        t = "OrGate" ∨ t = "XorGate" ∨ t = "NotGate" ∨ t = "Multiplexer" ∨
        t = "TriState" ∨ t = "Clock" ∨ t = "Ground" ∨ t = "Button" ∨
        t = "Input" ∨ t = "Power"
    · rw [if_pos h2] at ha hb
      exact roleOne_mem_eq ha hb
    · rw [if_neg h2] at ha hb
      cases ha

theorem update_element_sub {sn : ScopeNames} {e : Element}
    (hot : e.objectType = none) (all : List Node) :
    update_element sn e all = update_subcircuit sn e all := by
  unfold update_element
  rw [hot]

theorem update_element_demux {sn : ScopeNames} {e : Element}
    (hot : e.objectType = some "Demultiplexer") (all : List Node) :
    update_element sn e all = update_demultiplexer e.nodes all := by
  unfold update_element
  rw [hot]
  simp

theorem subcircuit_name {sn : ScopeNames} {e : Element} {all all' : List Node}
    (h : update_subcircuit sn e all = .ok all') :
    ∃ name, scopeName sn e.idStr = .ok name := by
  unfold update_subcircuit at h
  obtain ⟨ai, hli, h⟩ := bind_ok h
  obtain ⟨i, hri, h⟩ := bind_ok h
  obtain ⟨ac, hlc, h⟩ := bind_ok h
  obtain ⟨c, hrc, h⟩ := bind_ok h
  obtain ⟨out, hout, h⟩ := bind_ok h
  obtain ⟨nd, hnd, h⟩ := bind_ok h
  obtain ⟨name, hname, h⟩ := bind_ok h
  exact ⟨name, hname⟩

end CV

namespace CV

theorem getMany_lookup {m : NodesMap} {k : String} {l : List Nat}
    (h : getMany m k = .ok l) : List.lookup k m = some (.many l) := by
  unfold getMany at h
  cases hl : List.lookup k m with
  | none => rw [hl] at h; cases h
  | some pv =>
    rw [hl] at h
    cases pv with
    | one j => cases h
    | many l' => cases h; rfl


theorem phase1_step_inv {sn : ScopeNames} {els : List Element}
    {nodes0 : List Node} {ebni : List (Option Element)} {si : List (List Nat)}
    (W : WFNet sn els nodes0)
    (hEB : ∀ (i : Nat) (e : Element), ebni[i]? = some (some e) →
      e ∈ els ∧ i ∈ regNodes e)
    (hSI : ∀ (i : Nat) (l : List Nat), typeA nodes0 i = some 1 →
      si[i]? = some l → find_successors nodes0 i = .ok l)
    {all all' : List Node} {index : Nat}
    (hinv : P1Inv sn els nodes0 all)
    (h : phase1_step sn ebni si all index = .ok all') :
    P1Inv sn els nodes0 all' ∧
    ∀ x : Nat, stA all x ≠ none → stA all' x = stA all x := by
  obtain ⟨hshape, hdj, hns, hld⟩ := hinv
  unfold phase1_step at h
  obtain ⟨nd, hnd, h⟩ := bind_ok h
  by_cases ht : nd.type ≠ 1
  · rw [if_pos ht] at h
    cases h
    exact ⟨⟨hshape, hdj, hns, hld⟩, fun x hx => rfl⟩
  · rw [if_neg ht] at h
    have htype1 : nd.type = 1 := not_not.mp ht
    have hnds : all[index]? = some nd := getNode_ok hnd
    have htA : typeA nodes0 index = some 1 := by
      rw [sameShape_typeA hshape index]
      unfold typeA
      rw [hnds]
      simp [htype1]
    have hpost : ∀ all2 : List Node, sameShape nodes0 all2 → DJ els all2 →
        NormSeeded sn els all2 → Ldrv nodes0 all2 →
        (∀ x : Nat, stA all x ≠ none → stA all2 x = stA all x) →
        (do
          let nd2 ← getNode all2 index
          match nd2.state with
          | none => pure all2
          | some v => do
            let succs ← getSucc si index
            succs.foldlM (fun a s => setNodeState a s (some v)) all2 :
          Py (List Node)) = .ok all' →
        P1Inv sn els nodes0 all' ∧
        ∀ x : Nat, stA all x ≠ none → stA all' x = stA all x := by
      intro all2 hsh2 hdj2 hns2 hld2 hpres2 h
      obtain ⟨nd2, hnd2, h⟩ := bind_ok h
      replace h : (match nd2.state with
          | none => pure all2
          | some v => do
            let succs ← getSucc si index
            succs.foldlM (fun a s => setNodeState a s (some v)) all2 :
          Py (List Node)) = .ok all' := h
      cases hst2 : nd2.state with
      | none =>
        rw [hst2] at h
        replace h : (pure all2 : Py (List Node)) = .ok all' := h
        cases h
        exact ⟨⟨hsh2, hdj2, hns2, hld2⟩, hpres2⟩
      | some v =>
        rw [hst2] at h
        replace h : (do
            let succs ← getSucc si index
            succs.foldlM (fun a s => setNodeState a s (some v)) all2 :
            Py (List Node)) = .ok all' := h
        obtain ⟨succs, hsuc, h⟩ := bind_ok h
        have hfs : find_successors nodes0 index = .ok succs :=
          hSI index succs htA (getSucc_ok hsuc)
        obtain ⟨hsh3, hout3, hin3⟩ := flood_spec succs all2 all' h
        have hmem_t : ∀ x ∈ succs,
            typeA nodes0 x ≠ some 1 ∧ x < nodes0.length :=
          find_successors_sound hfs
        have hidx_lt : index < nodes0.length := typeA_lt htA
        have hvA : stA all2 index = some v := by
          unfold stA
          rw [getNode_ok hnd2]
          exact hst2
        have hidx_notin : index ∉ succs := by
          intro hc
          exact (hmem_t index hc).1 htA
        have hpres3 : ∀ x : Nat, stA all2 x ≠ none →
            stA all' x = stA all2 x := by
          intro x hx
          by_cases hxs : x ∈ succs
          · obtain ⟨hxt, hxl⟩ := hmem_t x hxs
            obtain ⟨tt, htl, htt, htf, htv⟩ := hld2 x hxl hxt hx
            have htfs : fsHas nodes0 index x = true := fsHas_of_mem hfs hxs
            have hti : tt = index := by
              by_contra hc
              exact oneDriver_spec W.one_driver tt htl index hidx_lt htt htA hc x hxl htf htfs
            rw [hin3 x hxs, htv, hti, hvA]
          · exact hout3 x hxs
        refine ⟨⟨sameShape_trans hsh2 hsh3, ?_, ?_, ?_⟩, ?_⟩
        · intro e' he' hot' o ho o' ho' ho_none
          have hto : typeA nodes0 o = some 1 := W.out_typed e' he' o ho
          have hto' : typeA nodes0 o' = some 1 := W.out_typed e' he' o' ho'
          have hno : o ∉ succs := fun hc => (hmem_t o hc).1 hto
          have hno' : o' ∉ succs := fun hc => (hmem_t o' hc).1 hto'
          rw [hout3 o' hno']
          rw [hout3 o hno] at ho_none
          exact hdj2 e' he' hot' o ho o' ho' ho_none
        · intro e' he' hot' name hname hnf o ho
          have hto : typeA nodes0 o = some 1 := by
            apply W.out_typed e' he' o
            have hor : outRoles e' = e'.outputNodes := by
              simp [outRoles, hot']
            rw [hor]
            exact ho
          have hno : o ∉ succs := fun hc => (hmem_t o hc).1 hto
          rw [hout3 o hno]
          exact hns2 e' he' hot' name hname hnf o ho
        · intro x hxl hxt hxd
          by_cases hxs : x ∈ succs
          · refine ⟨index, hidx_lt, htA, fsHas_of_mem hfs hxs, ?_⟩
            rw [hin3 x hxs, hout3 index hidx_notin, hvA]
          · rw [hout3 x hxs] at hxd
            obtain ⟨tt, htl, htt, htf, htv⟩ := hld2 x hxl hxt hxd
            have htn : tt ∉ succs := fun hc => (hmem_t tt hc).1 htt
            exact ⟨tt, htl, htt, htf,
              by rw [hout3 x hxs, hout3 tt htn, htv]⟩
        · intro x hx
          rw [hpres3 x (by rw [hpres2 x hx]; exact hx), hpres2 x hx]
    cases hei : ebni[index]? with
    | none =>
      rw [hei] at h
      exact absurd h (by simp)
    | some oe =>
      rw [hei] at h
      cases oe with
      | none =>
        replace h : (do
            let nd2 ← getNode all index
            match nd2.state with
            | none => pure all
            | some v => do
              let succs ← getSucc si index
              succs.foldlM (fun a s => setNodeState a s (some v)) all :
            Py (List Node)) = .ok all' := h
        exact hpost all hshape hdj hns hld (fun x hx => rfl) h
      | some e =>
        replace h : (if nd.state = none then
            (update_element sn e all >>= fun all2 => (do
              let nd2 ← getNode all2 index
              match nd2.state with
              | none => pure all2
              | some v => do
                let succs ← getSucc si index
                succs.foldlM (fun a s => setNodeState a s (some v)) all2 :
              Py (List Node)))
          else (do
              let nd2 ← getNode all index
              match nd2.state with
              | none => pure all
              | some v => do
                let succs ← getSucc si index
                succs.foldlM (fun a s => setNodeState a s (some v)) all :
              Py (List Node))) = .ok all' := h
        by_cases hst0 : nd.state = none
        · rw [if_pos hst0] at h
          obtain ⟨all2, hd, h⟩ := bind_ok h
          obtain ⟨he_els, he_reg⟩ := hEB index e hei
          have hi_out : index ∈ outRoles e :=
            W.ports_out e he_els index he_reg htA
          have hunk_index : stA all index = none := by
            unfold stA
            rw [hnds]
            exact hst0
          obtain ⟨hsh2, hcf⟩ := update_element_confine hd
          have hallunk : ∀ o ∈ outRoles e, stA all o = none := by
            cases hot : e.objectType with
            | none =>
              have hor : outRoles e = e.outputNodes := by
                simp [outRoles, hot]
              rw [update_element_sub hot] at hd
              obtain ⟨name, hname⟩ := subcircuit_name hd
              by_cases hnorm : strIn "Normally" name = true
              · have hone : e.outputNodes.length = 1 := by
                  apply W.relay_one_out e he_els hot
                  unfold relayNameNormally
                  rw [hname]
                  exact hnorm
                obtain ⟨a, ha⟩ := List.length_eq_one.mp hone
                intro o ho
                rw [hor, ha] at ho
                have hia : index ∈ [a] := by
                  have hmm := hi_out
                  rw [hor, ha] at hmm
                  exact hmm
                rw [List.mem_singleton.mp ho, ← List.mem_singleton.mp hia]
                exact hunk_index
              · have hseeded := hns e he_els hot name hname
                  (by simpa using hnorm) index (hor ▸ hi_out)
                exact absurd hunk_index hseeded
            | some t =>
              by_cases hdm : t = "Demultiplexer"
              · subst hdm
                intro o ho
                exact hdj e he_els hot index hi_out o ho hunk_index
              · intro o ho
                rw [outRoles_single hot hdm o ho index hi_out]
                exact hunk_index
          have hpres : ∀ x : Nat, stA all x ≠ none →
              stA all2 x = stA all x := by
            intro x hx
            rcases hcf x with hc | hc
            · exact hc
            · exact absurd (hallunk x hc) hx
          refine hpost all2 (sameShape_trans hshape hsh2) ?_ ?_ ?_ hpres h
          · intro e' he' hot' o ho o' ho' ho_none
            by_cases hee : e' = e
            · subst hee
              rw [update_element_demux hot'] at hd
              obtain ⟨outl, houtl, o0, o1, h0, h1, hcase⟩ := demux_spec hd
              rcases hcase with rfl | ⟨_, hn0, hn1, hother⟩
              · exact hdj e' he' hot' o ho o' ho' ho_none
              · have hroles : outRoles e' = outl :=
                  (by simp [outRoles, hot'] :
                    outRoles e' = roleMany e' "output1").trans
                  (getMany_roleMany houtl)
                have ho2 : o ∈ outl := hroles ▸ ho
                obtain ⟨k, hk, hko⟩ := List.mem_iff_getElem.mp ho2
                have htwo : outl.length = 2 := by
                  rw [← getMany_roleMany houtl]
                  exact W.demux_two e' he' hot'
                have hk01 : k = 0 ∨ k = 1 := by omega
                rcases hk01 with rfl | rfl
                · have h00 : outl[0]? = some o := by
                    rw [List.getElem?_eq_getElem hk, hko]
                  rw [h00] at h0
                  exact absurd ho_none ((Option.some.inj h0) ▸ hn0)
                · have h11 : outl[1]? = some o := by
                    rw [List.getElem?_eq_getElem hk, hko]
                  rw [h11] at h1
                  exact absurd ho_none ((Option.some.inj h1) ▸ hn1)
            · have ho'_pres : stA all2 o' = stA all o' := by
                rcases hcf o' with hc | hc
                · exact hc
                · exact absurd (W.uniq e' he' e he_els o' ho' hc) hee
              have ho_pres : stA all2 o = stA all o := by
                rcases hcf o with hc | hc
                · exact hc
                · exact absurd (W.uniq e' he' e he_els o ho hc) hee
              rw [ho'_pres]
              exact hdj e' he' hot' o ho o' ho' (ho_pres ▸ ho_none)
          · intro e' he' hot' name hname hnf o ho
            have hallo := hns e' he' hot' name hname hnf o ho
            rw [hpres o hallo]
            exact hallo
          · intro x hxl hxt hxd
            have hx_unch : stA all2 x = stA all x := by
              rcases hcf x with hc | hc
              · exact hc
              · exact absurd (W.out_typed e he_els x hc) hxt
            have hxd0 : stA all x ≠ none := by
              rw [← hx_unch]
              exact hxd
            obtain ⟨tt, htl, htt, htf, htv⟩ := hld x hxl hxt hxd0
            refine ⟨tt, htl, htt, htf, ?_⟩
            have htd : stA all tt ≠ none := by
              rw [← htv]
              exact hxd0
            rw [hx_unch, htv, hpres tt htd]
        · rw [if_neg hst0] at h
          exact hpost all hshape hdj hns hld (fun x hx => rfl) h

end CV

namespace CV

theorem phase1_inv {sn : ScopeNames} {els : List Element} {nodes0 : List Node}
    {ebni : List (Option Element)} {si : List (List Nat)}
    (W : WFNet sn els nodes0)
    (hEB : ∀ (i : Nat) (e : Element), ebni[i]? = some (some e) →
      e ∈ els ∧ i ∈ regNodes e)
    (hSI : ∀ (i : Nat) (l : List Nat), typeA nodes0 i = some 1 →
      si[i]? = some l → find_successors nodes0 i = .ok l) :
    ∀ (ord : List Nat) (all all' : List Node),
      P1Inv sn els nodes0 all →
      phase1 sn ebni si ord all = .ok all' →
      P1Inv sn els nodes0 all' ∧
      ∀ x : Nat, stA all x ≠ none → stA all' x = stA all x := by
  intro ord
  induction ord with
  | nil =>
    intro all all' hinv h
    simp only [phase1, List.foldlM_nil, pure_eq_ok] at h
    cases h
    exact ⟨hinv, fun x hx => rfl⟩
  | cons i rest ihl =>
    intro all all' hinv h
    unfold phase1 at h
    rw [List.foldlM_cons] at h
    obtain ⟨mid, hstep, h⟩ := bind_ok h
    obtain ⟨hinv2, hpres2⟩ := phase1_step_inv W hEB hSI hinv hstep
    obtain ⟨hinv3, hpres3⟩ := ihl mid all' hinv2 h
    refine ⟨hinv3, ?_⟩
    intro x hx
    rw [hpres3 x (by rw [hpres2 x hx]; exact hx), hpres2 x hx]

theorem phase2_step_pres {sn : ScopeNames} {els : List Element}
    {ebni : List (Option Element)}
    (hEB : ∀ (i : Nat) (e : Element), ebni[i]? = some (some e) →
      e ∈ els ∧ i ∈ regNodes e)
    {all all' : List Node} {index : Nat}
    (h : phase2_step sn ebni all index = .ok all') :
    ∀ x : Nat, ¬ subcircuitInput els x → stA all x ≠ none →
      stA all' x = stA all x := by
  unfold phase2_step at h
  obtain ⟨nd, hnd, h⟩ := bind_ok h
  by_cases hs : nd.state ≠ none
  · rw [if_pos hs] at h
    replace h : (pure all : Py (List Node)) = .ok all' := h
    cases h
    exact fun x hx1 hx2 => rfl
  · rw [if_neg hs] at h
    obtain ⟨all2, hadopt, h⟩ := bind_ok h
    obtain ⟨hsh2, hpres2⟩ := adoptFrom_spec nd.connections all all2 hadopt
    have hidx : stA all index = none := by
      unfold stA
      rw [getNode_ok hnd]
      exact not_not.mp hs
    have hpres : ∀ x : Nat, stA all x ≠ none → stA all2 x = stA all x := by
      intro x hx
      by_cases hxi : x = index
      · subst hxi
        exact absurd hidx hx
      · exact hpres2 x hxi
    by_cases ht1 : nd.type = 1
    · rw [if_pos ht1] at h
      cases hei : ebni[index]? with
      | none =>
        rw [hei] at h
        exact absurd h (by simp)
      | some oe =>
        rw [hei] at h
        cases oe with
        | none =>
          replace h : (pure all2 : Py (List Node)) = .ok all' := h
          cases h
          exact fun x hx1 hx2 => hpres x hx2
        | some e =>
          replace h : (match e.objectType with
              | none => maybe_update_subcircuit_input sn e all2
              | some _ => pure all2) = .ok all' := h
          cases hot : e.objectType with
          | none =>
            rw [hot] at h
            replace h : maybe_update_subcircuit_input sn e all2 = .ok all' := h
            obtain ⟨hsh3, inp, hinp, hconf⟩ := maybe_update_confine h
            intro x hx1 hx2
            have hxe : x ≠ inp := by
              intro hc
              exact hx1 ⟨e, (hEB index e hei).1, hot, hc ▸ hinp⟩
            rw [hconf x hxe, hpres x hx2]
          | some t =>
            rw [hot] at h
            replace h : (pure all2 : Py (List Node)) = .ok all' := h
            cases h
            exact fun x hx1 hx2 => hpres x hx2
    · rw [if_neg ht1] at h
      replace h : (pure all2 : Py (List Node)) = .ok all' := h
      cases h
      exact fun x hx1 hx2 => hpres x hx2

theorem phase2_pres {sn : ScopeNames} {els : List Element}
    {ebni : List (Option Element)}
    (hEB : ∀ (i : Nat) (e : Element), ebni[i]? = some (some e) →
      e ∈ els ∧ i ∈ regNodes e) :
    ∀ (ord : List Nat) (all all' : List Node),
      phase2 sn ebni ord all = .ok all' →
      ∀ x : Nat, ¬ subcircuitInput els x → stA all x ≠ none →
        stA all' x = stA all x := by
  intro ord
  induction ord with
  | nil =>
    intro all all' h
    simp only [phase2, List.foldlM_nil, pure_eq_ok] at h
    cases h
    exact fun x hx1 hx2 => rfl
  | cons i rest ihl =>
    intro all all' h
    unfold phase2 at h
    rw [List.foldlM_cons] at h
    obtain ⟨mid, hstep, h⟩ := bind_ok h
    intro x hx1 hx2
    have hmid := phase2_step_pres hEB hstep x hx1 hx2
    rw [ihl mid all' h x hx1 (by rw [hmid]; exact hx2), hmid]

end CV

namespace CV

instance (els : List Element) (x : Nat) : Decidable (subcircuitInput els x) := by
  unfold subcircuitInput
  infer_instance

theorem stA_states0 {nodes0 : List Node} (h : ∀ nd ∈ nodes0, nd.state = none)
    (x : Nat) : stA nodes0 x = none := by
  unfold stA
  cases hx : nodes0[x]? with
  | none => rfl
  | some nd => exact h nd (List.getElem?_mem hx)

theorem seedWrites_not_demux {sn : ScopeNames} {e : Element}
    (hot : e.objectType = some "Demultiplexer") : ¬ seedWrites sn e := by
  simp [seedWrites, hot]

theorem init_inv {sn : ScopeNames} {els : List Element} {nodes0 : List Node}
    {a0 : List Node} {ebni : List (Option Element)}
    (W : WFNet sn els nodes0)
    (h : init_all sn els nodes0 = .ok (a0, ebni)) :
    P1Inv sn els nodes0 a0 ∧
    ∀ (i : Nat) (e : Element), ebni[i]? = some (some e) →
      e ∈ els ∧ i ∈ regNodes e := by
  obtain ⟨hsh, hlen, hesp, hstA, hns⟩ := init_all_spec h
  have hzero : ∀ x : Nat, stA nodes0 x = none := stA_states0 W.states0
  have hseeded_only : ∀ x : Nat, stA a0 x ≠ none →
      ∃ e ∈ els, x ∈ outRoles e ∧ seedWrites sn e := by
    intro x hx
    rcases hstA x with hx2 | ⟨e, he, hm, hs, hn⟩
    · exact absurd (hx2.trans (hzero x)) hx
    · exact ⟨e, he, hm, hs⟩
  refine ⟨⟨hsh, ?_, hns, ?_⟩, hesp⟩
  · intro e he hot o ho o' ho' honone
    by_contra ho'n
    obtain ⟨e2, he2, hm2, hs2⟩ := hseeded_only o' ho'n
    have hee : e2 = e := W.uniq e2 he2 e he o' hm2 ho'
    subst hee
    exact seedWrites_not_demux hot hs2
  · intro x hxl hxt hxd
    obtain ⟨e, he, hm, hs⟩ := hseeded_only x hxd
    exact absurd (W.out_typed e he x hm) hxt

theorem mem_restrict_fold {b : Bool} :
    ∀ (l acc : List Nat) (x : Nat),
      x ∈ l.foldl (fun a o => if b then succAdd a o else a) acc →
      x ∈ acc ∨ x ∈ l := by
  intro l
  induction l with
  | nil =>
    intro acc x hx
    exact Or.inl hx
  | cons o rest ihl =>
    intro acc x hx
    rw [List.foldl_cons] at hx
    rcases ihl _ x hx with hx2 | hx2
    · cases b with
      | false =>
        rw [if_neg (by simp)] at hx2
        exact Or.inl hx2
      | true =>
        rw [if_pos rfl] at hx2
        rcases succAdd_mem.mp hx2 with hx3 | hx3
        · exact Or.inl hx3
        · exact Or.inr (by simp [hx3])
    · exact Or.inr (by simp [hx2])

theorem mem_mfold_bound {nodes : List Node} :
    ∀ (l acc res : List Nat),
      (l.foldlM (fun acc nn => do
          let nnd ← getNode nodes nn
          if nnd.type = 1 ∧ nnd.state = none then pure (succAdd acc nn)
          else pure acc) acc) = .ok res →
      ∀ x ∈ res, x ∈ acc ∨ x < nodes.length := by
  intro l
  induction l with
  | nil =>
    intro acc res h x hx
    simp only [List.foldlM_nil, pure_eq_ok] at h
    cases h
    exact Or.inl hx
  | cons nn rest ihl =>
    intro acc res h x hx
    rw [List.foldlM_cons] at h
    obtain ⟨acc2, hstep, h⟩ := bind_ok h
    obtain ⟨nnd, hnnd, hstep⟩ := bind_ok hstep
    have hlt : nn < nodes.length := by
      by_contra hc
      unfold getNode at hnnd
      simp [List.getElem?_eq_none (le_of_not_lt hc)] at hnnd
    by_cases hcond : nnd.type = 1 ∧ nnd.state = none
    · rw [if_pos hcond] at hstep
      replace hstep : (pure (succAdd acc nn) : Py (List Nat)) = .ok acc2 :=
        hstep
      cases hstep
      rcases ihl (succAdd acc nn) res h x hx with hx2 | hx2
      · rcases succAdd_mem.mp hx2 with hx3 | hx3
        · exact Or.inl hx3
        · exact Or.inr (hx3 ▸ hlt)
      · exact Or.inr hx2
    · rw [if_neg hcond] at hstep
      replace hstep : (pure acc : Py (List Nat)) = .ok acc2 := hstep
      cases hstep
      exact ihl acc res h x hx

theorem successors_for_bound {sn : ScopeNames} {els : List Element}
    {nodes : List Node} {ebni : List (Option Element)} {index : Nat}
    {l : List Nat}
    (hEB : ∀ (i : Nat) (e : Element), ebni[i]? = some (some e) →
      e ∈ els ∧ i ∈ regNodes e)
    (hlt : ∀ e ∈ els, ∀ p ∈ regNodes e, p < nodes.length)
    (h : successors_for sn nodes ebni index = .ok l) :
    ∀ v ∈ l, v < nodes.length := by
  unfold successors_for at h
  obtain ⟨nd, hnd, h⟩ := bind_ok h
  by_cases h0 : nd.type = 0
  · rw [if_pos h0] at h
    cases hei : ebni[index]? with
    | none =>
      rw [hei] at h
      exact absurd h (by simp)
    | some oe =>
      rw [hei] at h
      cases oe with
      | none =>
        replace h : (pure [] : Py (List Nat)) = .ok l := h
        cases h
        intro v hv
        cases hv
      | some e =>
        replace h : (match e.objectType with
            | none => do
              let name ← scopeName sn e.idStr
              pure (e.outputNodes.foldl
                (fun acc o =>
                  if strIn "Normally" name then succAdd acc o else acc) [])
            | some _ =>
              (element_nodes e).foldlM
                (fun acc nn => do
                  let nnd ← getNode nodes nn
                  if nnd.type = 1 ∧ nnd.state = none then pure (succAdd acc nn)
                  else pure acc)
                [] : Py (List Nat)) = .ok l := h
        cases hot : e.objectType with
        | none =>
          rw [hot] at h
          replace h : (do
              let name ← scopeName sn e.idStr
              pure (e.outputNodes.foldl
                (fun acc o =>
                  if strIn "Normally" name then succAdd acc o else acc) []) :
              Py (List Nat)) = .ok l := h
          obtain ⟨name, hname, h⟩ := bind_ok h
          replace h : (pure (e.outputNodes.foldl
              (fun acc o =>
                if strIn "Normally" name then succAdd acc o else acc) []) :
              Py (List Nat)) = .ok l := h
          cases h
          intro v hv
          rcases mem_restrict_fold e.outputNodes [] v hv with hv2 | hv2
          · cases hv2
          · apply hlt e (hEB index e hei).1
            have hreg : regNodes e = e.inputNodes ++ e.outputNodes := by
              simp [regNodes, hot]
            rw [hreg]
            exact List.mem_append_right _ hv2
        | some t =>
          rw [hot] at h
          replace h : ((element_nodes e).foldlM
              (fun acc nn => do
                let nnd ← getNode nodes nn
                if nnd.type = 1 ∧ nnd.state = none then pure (succAdd acc nn)
                else pure acc)
              [] : Py (List Nat)) = .ok l := h
          intro v hv
          rcases mem_mfold_bound (element_nodes e) [] l h v hv with hv2 | hv2
          · cases hv2
          · exact hv2
  · rw [if_neg h0] at h
    by_cases h1 : nd.type = 1
    · rw [if_pos h1] at h
      intro v hv
      exact (find_successors_sound h v hv).2
    · rw [if_neg h1] at h
      replace h : (pure [] : Py (List Nat)) = .ok l := h
      cases h
      intro v hv
      cases hv

theorem buildSuccessors_siWF {sn : ScopeNames} {els : List Element}
    {nodes : List Node} {ebni : List (Option Element)} {si : List (List Nat)}
    (hEB : ∀ (i : Nat) (e : Element), ebni[i]? = some (some e) →
      e ∈ els ∧ i ∈ regNodes e)
    (hlt : ∀ e ∈ els, ∀ p ∈ regNodes e, p < nodes.length)
    (h : buildSuccessors sn nodes ebni = .ok si) :
    siWF si := by
  obtain ⟨hlen, hspec⟩ := buildSuccessors_spec h
  intro l hl v hv
  obtain ⟨k, hk, hkl⟩ := List.mem_iff_getElem.mp hl
  have hk2 : k < nodes.length := by
    rw [← hlen]
    exact hk
  obtain ⟨l', hl', hsf⟩ := hspec k hk2
  have hll : l' = l := by
    rw [List.getElem?_eq_getElem hk, hkl] at hl'
    exact (Option.some.inj hl').symm
  subst hll
  rw [hlen]
  exact successors_for_bound hEB hlt hsf v hv

theorem sortAll_mem {si : List (List Nat)} (hWF : siWF si) {so st : List Nat}
    (h : sortAll si si.length = .ok (so, st)) :
    ∀ i : Nat, i < si.length → i ∈ so := by
  have hmain := driverAux si hWF (List.range si.length) []
    (List.replicate si.length 0) (good_init si) (noGray_init si)
    (by intro s hs; simpa using hs)
  have hconv : sortAll si si.length =
      (List.range si.length).foldlM
        (fun (p : List Nat × List Nat) i => do
          let stv ← getStat p.2 i
          if stv = 0 then tsVisit (si.length + 1) si i p.1 p.2 else pure p)
        ([], List.replicate si.length 0) := rfl
  rcases hmain with ⟨so', st', hfold, hg', _, _, hdone'⟩ | ⟨hfold, _⟩
  · rw [hconv, hfold] at h
    injection h with hpair
    injection hpair with hso hst
    subst hso
    subst hst
    intro i hi
    exact (hg'.2.2.1 i).mp (hdone' i (by simpa using hi))
  · rw [hconv, hfold] at h
    exact absurd h (by simp)

theorem resolve_decomp {sn : ScopeNames} {els : List Element}
    {nodes0 : List Node} {a0 : List Node} {ebni : List (Option Element)}
    {si : List (List Nat)} {sorted status : List Nat} {final : List Node}
    (hinit : init_all sn els nodes0 = .ok (a0, ebni))
    (hsi : buildSuccessors sn a0 ebni = .ok si)
    (hsort : sortAll si a0.length = .ok (sorted, status))
    (hres : resolve sn els nodes0 = .ok final) :
    ∃ all2, phase1 sn ebni si sorted.reverse a0 = .ok all2 ∧
      phase2 sn ebni sorted all2 = .ok final := by
  unfold resolve at hres
  obtain ⟨p, hp, hres⟩ := bind_ok hres
  rw [hinit] at hp
  have hpeq : (a0, ebni) = p := Except.ok.inj hp
  subst hpeq
  replace hres : compute_node_states sn a0 ebni = .ok final := hres
  unfold compute_node_states at hres
  obtain ⟨si', hsi', hres⟩ := bind_ok hres
  rw [hsi] at hsi'
  have hsieq : si = si' := Except.ok.inj hsi'
  subst hsieq
  obtain ⟨p2, hp2, hres⟩ := bind_ok hres
  rw [hsort] at hp2
  have hp2eq : (sorted, status) = p2 := Except.ok.inj hp2
  subst hp2eq
  replace hres : (do
      let all2 ← phase1 sn ebni si sorted.reverse a0
      phase2 sn ebni sorted all2 : Py (List Node)) = .ok final := hres
  obtain ⟨all2, h1, h2⟩ := bind_ok hres
  exact ⟨all2, h1, h2⟩

end CV

namespace CV

theorem pipeline_setup {sn : ScopeNames} {els : List Element}
    {nodes0 a0 final : List Node} {ebni : List (Option Element)}
    {si : List (List Nat)} {sorted status : List Nat}
    (W : WFNet sn els nodes0)
    (hinit : init_all sn els nodes0 = .ok (a0, ebni))
    (hsi : buildSuccessors sn a0 ebni = .ok si)
    (hsort : sortAll si a0.length = .ok (sorted, status))
    (hres : resolve sn els nodes0 = .ok final) :
    P1Inv sn els nodes0 a0
    ∧ (∀ (i : Nat) (e : Element), ebni[i]? = some (some e) →
        e ∈ els ∧ i ∈ regNodes e)
    ∧ (∀ (i : Nat) (l : List Nat), typeA nodes0 i = some 1 →
        si[i]? = some l → find_successors nodes0 i = .ok l)
    ∧ (∀ i : Nat, i < nodes0.length → i ∈ sorted)
    ∧ ∃ all2, phase1 sn ebni si sorted.reverse a0 = .ok all2 ∧
        phase2 sn ebni sorted all2 = .ok final := by
  obtain ⟨hinv, hEB⟩ := init_inv W hinit
  have hlen0 : nodes0.length = a0.length := hinv.1.1
  have hSI : ∀ (i : Nat) (l : List Nat), typeA nodes0 i = some 1 →
      si[i]? = some l → find_successors nodes0 i = .ok l := by
    intro i l ht hl
    have ht2 : typeA a0 i = some 1 := by
      rw [← sameShape_typeA hinv.1 i]
      exact ht
    rw [find_successors_shape hinv.1 i]
    exact si_find hsi ht2 hl
  have hlt : ∀ e ∈ els, ∀ p ∈ regNodes e, p < a0.length := by
    intro e he p hp
    rw [← hlen0]
    exact W.ports_lt e he p hp
  have hWFsi : siWF si := buildSuccessors_siWF hEB hlt hsi
  have hsilen : si.length = a0.length := (buildSuccessors_spec hsi).1
  have hmem : ∀ i : Nat, i < nodes0.length → i ∈ sorted := by
    intro i hi
    apply sortAll_mem hWFsi
    · rw [hsilen]
      exact hsort
    · rw [hsilen, ← hlen0]
      exact hi
  exact ⟨hinv, hEB, hSI, hmem, resolve_decomp hinit hsi hsort hres⟩

end CV

namespace CV

/-- C8 (amended): in a wellformed netlist, outside the sub-circuit signal
inputs overwritten by the relay backward rule, a node state defined at any
checkpoint of a successful resolution run persists to the final store. -/
theorem C8_single_assignment_amended
    (sn : ScopeNames) (els : List Element) (nodes0 : List Node)
    (a0 final : List Node) (ebni : List (Option Element))
    (si : List (List Nat)) (sorted status : List Nat)
    (W : WFNet sn els nodes0)
    (hinit : init_all sn els nodes0 = .ok (a0, ebni))
    (hsi : buildSuccessors sn a0 ebni = .ok si)
    (hsort : sortAll si a0.length = .ok (sorted, status))
    (hres : resolve sn els nodes0 = .ok final)
    (x : Nat) (hx : ¬ subcircuitInput els x) :
    (∀ v : Nat, stA a0 x = some v → stA final x = some v)
    ∧ (∀ (k : Nat) (mid : List Node) (v : Nat),
        phase1 sn ebni si (sorted.reverse.take k) a0 = .ok mid →
        stA mid x = some v → stA final x = some v)
    ∧ (∀ (k : Nat) (all2 mid : List Node) (v : Nat),
        phase1 sn ebni si sorted.reverse a0 = .ok all2 →
        phase2 sn ebni (sorted.take k) all2 = .ok mid →
        stA mid x = some v → stA final x = some v) := by
  obtain ⟨hinv, hEB, hSI, hmem, all2, hph1, hph2⟩ :=
    pipeline_setup W hinit hsi hsort hres
  refine ⟨?_, ?_, ?_⟩
  · intro v hv
    have h1 := (phase1_inv W hEB hSI sorted.reverse a0 all2 hinv hph1).2 x
      (by rw [hv]; simp)
    have h2 := phase2_pres hEB sorted all2 final hph2 x hx
      (by rw [h1, hv]; simp)
    rw [h2, h1, hv]
  · intro k mid v hmidrun hv
    have hsplit : (phase1 sn ebni si (sorted.reverse.take k) a0 >>= fun b =>
        phase1 sn ebni si (sorted.reverse.drop k) b) = .ok all2 := by
      unfold phase1
      rw [← List.foldlM_append, List.take_append_drop]
      exact hph1
    obtain ⟨mid', hmid', hrest⟩ := bind_ok hsplit
    rw [hmidrun] at hmid'
    have hmm : mid = mid' := Except.ok.inj hmid'
    subst hmm
    have hinvk := (phase1_inv W hEB hSI (sorted.reverse.take k) a0 mid
      hinv hmidrun).1
    have hpr := (phase1_inv W hEB hSI (sorted.reverse.drop k) mid all2
      hinvk hrest).2 x (by rw [hv]; simp)
    have h2 := phase2_pres hEB sorted all2 final hph2 x hx
      (by rw [hpr, hv]; simp)
    rw [h2, hpr, hv]
  · intro k all2' mid v hph1' hmidrun hv
    rw [hph1] at hph1'
    have ha : all2 = all2' := Except.ok.inj hph1'
    subst ha
    have hsplit : (phase2 sn ebni (sorted.take k) all2 >>= fun b =>
        phase2 sn ebni (sorted.drop k) b) = .ok final := by
      unfold phase2
      rw [← List.foldlM_append, List.take_append_drop]
      exact hph2
    obtain ⟨mid', hmid', hrest⟩ := bind_ok hsplit
    rw [hmidrun] at hmid'
    have hmm : mid = mid' := Except.ok.inj hmid'
    subst hmm
    have h2 := phase2_pres hEB (sorted.drop k) mid final hrest x hx
      (by rw [hv]; simp)
    rw [h2, hv]

end CV

namespace CV

end CV

namespace CV

theorem C8_single_assignment_amended_witness :
    WFNet [] [c9_not] c9_nodes ∧
    ¬ subcircuitInput [c9_not] 1 ∧
    stA [⟨0, [1], none⟩, ⟨1, [0], some 1⟩] 1 = some 1 ∧
    stA [⟨0, [1], some 1⟩, ⟨1, [0], some 1⟩] 1 = some 1 :=
  have W : WFNet [] [c9_not] c9_nodes :=
    ⟨by decide, by decide, by decide, by decide, by decide, by decide,
     by decide, by decide, by decide, by decide⟩
  ⟨W, by decide, by decide,
    (C8_single_assignment_amended [] [c9_not] c9_nodes
        [⟨0, [1], none⟩, ⟨1, [0], some 1⟩]
        [⟨0, [1], some 1⟩, ⟨1, [0], some 1⟩]
        [some c9_not, some c9_not] [[], [0]] [0, 1] [2, 2] W
        (by decide) (by decide) (by decide) (by decide) 1
        (by decide)).1 1 (by decide)⟩

end CV

namespace CV

/-- A refutation netlist whose typing is fully conformant with the spec's
data model: every component port is a Sink-port (type 0) or a Source-port
(type 1), there are no junctions, and every wire net is driven by exactly
one output pin. Relay A (normally open) has signal input 7, a Sink-port
wired to the Power output 6, control input 10 and output 8; relay B
(normally closed) drives node 10 and has signal input wired to the Power
output 5, so the backward rule resolves A's control High during the forward
pass; relay C (normally closed) drives node 9 — A's source net — and has
its output 1 wired to the Ground output 2, so the backward rule plants Low
on node 9. -/
def cw_nodes : List Node :=
  [⟨0, [], none⟩, ⟨1, [2], none⟩, ⟨1, [1], none⟩, ⟨0, [], none⟩,
   ⟨1, [5], none⟩, ⟨1, [4], none⟩, ⟨1, [7], none⟩, ⟨0, [6], none⟩,
   ⟨1, [9], none⟩, ⟨0, [8], none⟩, ⟨0, [], none⟩]

/-- Power element driving node 6 of the refutation netlist. -/
def cw_p1 : Element := { objectType := some "Power", nodes := [("output1", .one 6)] }

/-- Ground element driving node 2 of the refutation netlist. -/
def cw_gnd : Element := { objectType := some "Ground", nodes := [("output1", .one 2)] }

/-- Power element driving node 5 of the refutation netlist. -/
def cw_p2 : Element := { objectType := some "Power", nodes := [("output1", .one 5)] }

/-- Relay A of the refutation netlist: normally open, signal input 7,
control input 10, output 8. -/
def cw_A : Element := { objectType := none, idStr := "A", inputNodes := [7, 10],
                        outputNodes := [8] }

/-- Relay B of the refutation netlist: normally closed, signal input 10,
control input 3, output 4. -/
def cw_B : Element := { objectType := none, idStr := "B", inputNodes := [10, 3],
                        outputNodes := [4] }

/-- Relay C of the refutation netlist: normally closed, signal input 9,
control input 0, output 1. -/
def cw_C : Element := { objectType := none, idStr := "C", inputNodes := [9, 0],
                        outputNodes := [1] }

/-- The elements of the refutation netlist. -/
def cw_els : List Element := [cw_p1, cw_gnd, cw_p2, cw_A, cw_B, cw_C]

/-- Scope names of the refutation netlist: A is a normally-open relay, B and
C are normally-closed relays. -/
def cw_sn : ScopeNames := [("A", "NormallyOpenX"), ("B", "NormallyClosedX"),
                           ("C", "NormallyClosedX")]

/-- The refutation netlist after initialization: the two Power outputs and
the Ground output are seeded, everything else is Unknown. -/
def cw_init_nodes : List Node :=
  [⟨0, [], none⟩, ⟨1, [2], none⟩, ⟨1, [1], some 0⟩, ⟨0, [], none⟩,
   ⟨1, [5], none⟩, ⟨1, [4], some 1⟩, ⟨1, [7], some 1⟩, ⟨0, [6], none⟩,
   ⟨1, [9], none⟩, ⟨0, [8], none⟩, ⟨0, [], none⟩]

/-- The element back-references of the refutation netlist after
initialization. -/
def cw_ebni : List (Option Element) :=
  [some cw_C, some cw_C, some cw_gnd, some cw_B, some cw_B, some cw_p2,
   some cw_p1, some cw_A, some cw_A, some cw_C, some cw_B]

/-- The successor sets of the refutation netlist. -/
def cw_si : List (List Nat) :=
  [[1], [], [], [4], [], [], [7], [8], [9], [1], [4]]

/-- The post-order produced by the topological sort of the refutation
netlist. -/
def cw_sorted : List Nat := [1, 0, 2, 4, 3, 5, 9, 8, 7, 6, 10]

/-- The refutation netlist after the first (reverse) pass: node 7 has been
flooded High from the Power output 6; the relay outputs are still Unknown
because each relay had an Unknown input when it was evaluated. -/
def cw_phase1_nodes : List Node :=
  [⟨0, [], none⟩, ⟨1, [2], none⟩, ⟨1, [1], some 0⟩, ⟨0, [], none⟩,
   ⟨1, [5], none⟩, ⟨1, [4], some 1⟩, ⟨1, [7], some 1⟩, ⟨0, [6], some 1⟩,
   ⟨1, [9], none⟩, ⟨0, [8], none⟩, ⟨0, [], none⟩]

/-- The refutation netlist after the second (forward) pass: C's output 1
adopted Low from the Ground net and the backward rule planted Low on C's
signal input 9; B's output 4 adopted High and the backward rule resolved A's
control 10 High; A's output 8 then adopted Low from node 9 and, its control
now being High, the backward rule overwrote A's already-High signal input 7
with Low. -/
def cw_final_nodes : List Node :=
  [⟨0, [], none⟩, ⟨1, [2], some 0⟩, ⟨1, [1], some 0⟩, ⟨0, [], none⟩,
   ⟨1, [5], some 1⟩, ⟨1, [4], some 1⟩, ⟨1, [7], some 1⟩, ⟨0, [6], some 0⟩,
   ⟨1, [9], some 0⟩, ⟨0, [8], some 0⟩, ⟨0, [], some 1⟩]

/-- C8 counterexample: in the same conformant netlist, node 7 — a Sink-port
serving as relay A's signal input, not a junction — is mutated to the
defined value High by net flooding during the first pass, and a later step
of the same run (relay A's backward rule during the second pass) overwrites
it with the different defined value Low, refuting single assignment for
defined values. -/
theorem C8_counterexample :
    WFNet cw_sn cw_els cw_nodes
    ∧ init_all cw_sn cw_els cw_nodes = .ok (cw_init_nodes, cw_ebni)
    ∧ buildSuccessors cw_sn cw_init_nodes cw_ebni = .ok cw_si
    ∧ sortAll cw_si 11 = .ok (cw_sorted, [2, 2, 2, 2, 2, 2, 2, 2, 2, 2, 2])
    ∧ phase1 cw_sn cw_ebni cw_si cw_sorted.reverse cw_init_nodes
        = .ok cw_phase1_nodes
    ∧ phase2 cw_sn cw_ebni cw_sorted cw_phase1_nodes = .ok cw_final_nodes
    ∧ typeA cw_nodes 7 = some 0
    ∧ subcircuitInput cw_els 7
    ∧ stA cw_phase1_nodes 7 = some 1
    ∧ stA cw_final_nodes 7 = some 0
    ∧ (some 1 : Option Nat) ≠ some 0 :=
  ⟨⟨by decide, by decide, by decide, by decide, by decide, by decide,
    by decide, by decide, by decide, by decide⟩,
   by decide, by decide, by decide, by decide, by decide, by decide,
   by decide, by decide, by decide, by decide⟩

end CV

namespace CV

theorem bind_err {α β : Type} {x : Py α} {f : α → Py β} {er : PyErr}
    (h : (x >>= f) = .error er) :
    x = .error er ∨ ∃ a, x = .ok a ∧ f a = .error er := by
  cases x with
  | error e2 =>
    simp only [error_bind, Except.error.injEq] at h
    exact Or.inl (by rw [h])
  | ok a =>
    simp only [ok_bind] at h
    exact Or.inr ⟨a, rfl, h⟩

theorem scopeName_err {sn : ScopeNames} {i : String} {er : PyErr}
    (h : scopeName sn i = .error er) : er = .keyError := by
  unfold scopeName at h
  split at h <;> simp_all

theorem setElem_err {ebni : List (Option Element)} {i : Nat} {e : Element}
    {er : PyErr} (h : setElem ebni i e = .error er) : er = .indexError := by
  unfold setElem at h
  split at h <;> simp_all

theorem setElemFold_err {e : Element} {er : PyErr} :
    ∀ (ls : List Nat) (eb : List (Option Element)),
      ls.foldlM (fun eb i => setElem eb i e) eb = .error er →
      er = .indexError := by
  intro ls
  induction ls with
  | nil =>
    intro eb h
    rw [List.foldlM_nil] at h
    exact absurd h (by simp)
  | cons i rest ih =>
    intro eb h
    rw [List.foldlM_cons] at h
    rcases bind_err h with h1 | ⟨a, _, h2⟩
    · exact setElem_err h1
    · exact ih a h2

theorem outFold_err {e : Element} {name : String} {er : PyErr} :
    ∀ (ls : List Nat) (p : List Node × List (Option Element)),
      ls.foldlM
        (fun (p : List Node × List (Option Element)) o => do
          let eb2 ← setElem p.2 o e
          if strIn "Normally" name then
            pure (p.1, eb2)
          else do
            let ns ← setNodeState p.1 o (some 0)
            pure (ns, eb2))
        p = .error er →
      er = .indexError := by
  intro ls
  induction ls with
  | nil =>
    intro p h
    rw [List.foldlM_nil] at h
    exact absurd h (by simp)
  | cons o rest ih =>
    intro p h
    rw [List.foldlM_cons] at h
    rcases bind_err h with h1 | ⟨a, _, h2⟩
    · rcases bind_err h1 with h3 | ⟨eb2, _, h4⟩
      · exact setElem_err h3
      · split at h4
        · exact absurd h4 (by simp)
        · rcases bind_err h4 with h5 | ⟨ns, _, h6⟩
          · exact setNodeState_error h5
          · exact absurd h6 (by simp)
    · exact ih a h2

theorem seedOne_err {e : Element} {key : String} {sv : Option Nat}
    {all : List Node} {eb : List (Option Element)} {er : PyErr}
    (h : (do
        let o ← getOne e.nodes key
        let all2 ← setNodeState all o sv
        pure (all2, eb) : Py (List Node × List (Option Element)))
      = .error er) :
    er = .keyError ∨ er = .indexError ∨ er = .typeError := by
  rcases bind_err h with h1 | ⟨o, _, h2⟩
  · rcases getOne_error h1 with h3 | h3
    · exact Or.inl h3
    · exact Or.inr (Or.inr h3)
  · rcases bind_err h2 with h3 | ⟨a2, _, h4⟩
    · exact Or.inr (Or.inl (setNodeState_error h3))
    · exact absurd h4 (by simp)

theorem init_node_states_err {sn : ScopeNames} {e : Element} {all : List Node}
    {ebni : List (Option Element)} {er : PyErr}
    (h : init_node_states sn e all ebni = .error er) :
    er = .keyError ∨ er = .indexError ∨ er = .typeError := by
  cases hot : e.objectType with
  | none =>
    rw [init_none_eq sn e all ebni hot] at h
    rcases bind_err h with h1 | ⟨name, _, h2⟩
    · exact Or.inl (scopeName_err h1)
    · rcases bind_err h2 with h3 | ⟨eb, _, h4⟩
      · exact Or.inr (Or.inl (setElemFold_err _ _ h3))
      · exact Or.inr (Or.inl (outFold_err _ _ h4))
  | some t =>
    rw [init_some_eq sn e all ebni t hot] at h
    rcases bind_err h with h1 | ⟨eb, _, h2⟩
    · exact Or.inr (Or.inl (setElemFold_err _ _ h1))
    · split at h2
      · exact seedOne_err h2
      · split at h2
        · split at h2
          · replace h2 : (Except.error PyErr.keyError :
                Py (List Node × List (Option Element))) = .error er := h2
            injection h2 with h2
            exact Or.inl h2.symm
          · exact seedOne_err h2
        · split at h2
          · exact seedOne_err h2
          · split at h2
            · exact seedOne_err h2
            · split at h2
              · split at h2
                · exact seedOne_err h2
                · split at h2
                  · exact seedOne_err h2
                  · exact absurd h2 (by simp)
              · exact absurd h2 (by simp)

theorem init_all_err {sn : ScopeNames} {er : PyErr} :
    ∀ (els : List Element) (p : List Node × List (Option Element)),
      els.foldlM (fun p e => init_node_states sn e p.1 p.2) p = .error er →
      er = .keyError ∨ er = .indexError ∨ er = .typeError := by
  intro els
  induction els with
  | nil =>
    intro p h
    rw [List.foldlM_nil] at h
    exact absurd h (by simp)
  | cons e rest ih =>
    intro p h
    rw [List.foldlM_cons] at h
    rcases bind_err h with h1 | ⟨q, _, h2⟩
    · exact init_node_states_err h1
    · exact ih q h2

theorem init_all_classified (sn : ScopeNames) (els : List Element)
    (nodes0 : List Node) :
    (∃ p, init_all sn els nodes0 = .ok p)
    ∨ init_all sn els nodes0 = .error .keyError
    ∨ init_all sn els nodes0 = .error .indexError
    ∨ init_all sn els nodes0 = .error .typeError := by
  cases hi : init_all sn els nodes0 with
  | ok p => exact Or.inl ⟨p, rfl⟩
  | error er =>
    unfold init_all at hi
    rcases init_all_err els _ hi with h | h | h
    · subst h
      exact Or.inr (Or.inl rfl)
    · subst h
      exact Or.inr (Or.inr (Or.inl rfl))
    · subst h
      exact Or.inr (Or.inr (Or.inr rfl))

/-- C6 amended: the initialization phase performs no arity checks and can
never raise the unsupported-gate error — for every scope table, element list
and node store it either completes or fails with a key-, index- or
type-lookup error. When a resolution run fails with the unsupported-gate
error, that error is raised by the gate evaluator during graph evaluation,
after initialization has completed and seeded node states, so those seeded
mutations (here the Power output set High) are in place when the failure
occurs — exhibited on the netlist with a three-input AND gate. -/
theorem C6_unsupported_arity_amended :
    (∀ (sn : ScopeNames) (els : List Element) (nodes0 : List Node),
      (∃ p, init_all sn els nodes0 = .ok p)
      ∨ init_all sn els nodes0 = .error .keyError
      ∨ init_all sn els nodes0 = .error .indexError
      ∨ init_all sn els nodes0 = .error .typeError)
    ∧ resolve [] [c6_and, c6_pw] c6_nodes = .error (.unsupportedGate "and")
    ∧ (∃ p, init_all [] [c6_and, c6_pw] c6_nodes = .ok p ∧ stA p.1 4 = some 1 ∧
        stA c6_nodes 4 = none ∧
        compute_node_states [] p.1 p.2 = .error (.unsupportedGate "and")) :=
  ⟨init_all_classified, by decide,
    ⟨([⟨0, [], none⟩, ⟨0, [], none⟩, ⟨0, [], none⟩, ⟨1, [], none⟩,
       ⟨1, [], some 1⟩],
      [some c6_and, some c6_and, some c6_and, some c6_and, some c6_pw]),
     by decide, by decide, by decide, by decide⟩⟩

end CV
